import Mathlib

/-!
# ooqd, the one-off queue daemon: line parser and queue drain

A shallow embedding of `miscutils/ooqd.c`.

* Bytes are natural numbers; a C string is the run of bytes up to the first `0`.
* The line buffer `line[256]` is the list of bytes that `fgets` stored in it
  for the current line (the chunk read and its terminating NUL).  Pointers into
  it (`cp`, `ncp`, `outfile`, `argv[i]`) are indices.  A read or write at an
  index outside those bytes has no defined result in this model: every
  operation that touches memory returns an `Option`, and `none` stops the
  computation (outcome `stuck`).
* `argv[NARGS]` is a list of `NARGS` slots that start uninitialised for every
  line; a store outside the array or a read of a slot that was not written is
  `none` as well.
* Loops whose termination is not structural carry a fuel counter; running out
  of fuel is reported as `none`/`stuck` too, so a theorem that exhibits a
  result also shows that the loop ended.
* The operating system (descriptor table, files, the command handlers) is a
  record of state transformers `Sys σ` over an arbitrary state `σ`.
* Diagnostics (`report`, `report_err`, the debugging `printf`s) are not part
  of the model.
* The queue file is text: statements about lines and tokens are about bytes
  other than NUL, which would end the C string `fgets` stored.
-/

namespace Ooqd

/-! ## Constants and character classes -/

/-- Max arguments to a built-in command (`#define NARGS 20`). -/
def NARGS : Nat := 20

/-- Size of the line buffer (`char line[256]`). -/
def LINE_SIZE : Nat := 256

/-- Size of the path buffer (`char curr_qfile[256]`). -/
def QFILE_SIZE : Nat := 256

/-- The bytes of a string literal. -/
def bytes (s : String) : List Nat := s.toList.map Char.toNat

/-- The suffix appended to the queue file name (`#define SUFFIX ".curr"`). -/
def SUFFIX : List Nat := bytes ".curr"

/-- The C library `isspace` in the C locale: space, `\t`, `\n`, `\v`, `\f`, `\r`. -/
def isspace (c : Nat) : Bool := c == 32 || (decide (9 ≤ c) && decide (c ≤ 13))

/-! ## Memory -/

/-- The byte at index `p` of the line buffer, `none` outside the stored bytes. -/
def rd (buf : List Nat) (p : Nat) : Option Nat := buf[p]?

/-- Store byte `v` at index `p` of the line buffer, `none` outside the stored bytes. -/
def wr (line : List Nat) (p : Nat) (v : Nat) : Option (List Nat) :=
  if p < line.length then some (line.set p v) else none

/-- One element of `char *argv[NARGS]`. -/
inductive Slot where
  | uninit
  | null
  | ptr (p : Nat)
deriving DecidableEq

/-- Store into `argv[i]`; `none` when `i` is outside the array. -/
def argvSet (argv : List Slot) (i : Nat) (v : Slot) : Option (List Slot) :=
  if i < argv.length then some (argv.set i v) else none

/-- Load the pointer `argv[i]`; `none` unless the slot holds a pointer. -/
def argvGet (argv : List Slot) (i : Nat) : Option Nat :=
  match argv[i]? with
  | some (Slot.ptr p) => some p
  | _ => none

/-! ## Scanning helpers -/

/-- The loop `while (go(cp[0])) cp++;` run on the bytes from `cp` on; the
result is the final `cp`. -/
def scanWhile (go : Nat → Bool) : List Nat → Nat → Option Nat
  | [], _ => none
  | c :: rest, p => if go c then scanWhile go rest (p + 1) else some p

/-- Embeds `skip_space`: `while (cp[0] != 0 && isspace(cp[0])) cp++`. -/
def skip_space (line : List Nat) (cp : Nat) : Option Nat :=
  scanWhile (fun c => c != 0 && isspace c) (line.drop cp) cp

/-- Embeds `skip_nonspace`: `while (cp[0] != 0 && !isspace(cp[0])) cp++`. -/
def skip_nonspace (line : List Nat) (cp : Nat) : Option Nat :=
  scanWhile (fun c => c != 0 && !isspace c) (line.drop cp) cp

/-- Embeds `find_eos`: `while (cp[0] != 0 && cp[0] != '"') cp++`. -/
def find_eos (line : List Nat) (cp : Nat) : Option Nat :=
  scanWhile (fun c => c != 0 && c != 34) (line.drop cp) cp

/-- The C library `strlen(cp)`. -/
def strlen (line : List Nat) (cp : Nat) : Option Nat :=
  (scanWhile (fun c => c != 0) (line.drop cp) cp).map (fun e => e - cp)

/-- The C library `strchr` on the bytes from the pointer on: `some none` is the
NULL result, `some (some k)` a match `k` bytes further. -/
def strchrFrom (ch : Nat) : List Nat → Nat → Option (Option Nat)
  | [], _ => none
  | c :: rest, k =>
    if c = ch then some (some k) else if c = 0 then some none else strchrFrom ch rest (k + 1)

/-- The test `strncmp(cp, cmd, strlen(cmd)) == 0` on the bytes from `cp` on. -/
def strncmp_eq : List Nat → List Nat → Option Bool
  | _, [] => some true
  | [], _ :: _ => none
  | x :: xs, c :: cs =>
    if x ≠ c then some false else if x = 0 then some true else strncmp_eq xs cs

/-- The C string that starts at the bytes given. -/
def cstrFrom : List Nat → Option (List Nat)
  | [] => none
  | c :: rest => if c = 0 then some [] else (cstrFrom rest).map (fun s => c :: s)

/-- The C string at pointer `p`. -/
def cstr (line : List Nat) (p : Nat) : Option (List Nat) := cstrFrom (line.drop p)

/-! ## The command registry -/

/-- The names of `builtin_cmds[]`, in table order; the handler of an entry is
referred to by the entry's index. -/
def builtin_cmds : List (List Nat) :=
  [bytes "ping", bytes "ping6", bytes "httpget", bytes "httppost", bytes "traceroute",
   bytes "condmv", bytes "tdig", bytes "dfrm", bytes "nslookup"]

/-- The lookup loop `for (bp= builtin_cmds; bp->cmd != NULL; bp++)`: `some none`
when the table is exhausted (`bp->cmd == NULL`), `some (some i)` when the loop
breaks at entry `i`. -/
def findBuiltin (line : List Nat) (cp : Nat) : List (List Nat) → Nat → Option (Option Nat)
  | [], _ => some none
  | cmd :: more, i =>
    match strncmp_eq (line.drop cp) cmd with
    | none => none
    | some false => findBuiltin line cp more (i + 1)
    | some true =>
      match rd line (cp + cmd.length) with
      | none => none
      | some c => if c ≠ 32 then findBuiltin line cp more (i + 1) else some (some i)

/-! ## Splitting the command line -/

/-- The loop that removes trailing white space:
`while (len > 0 && isspace(cp[len-1])) { cp[len-1]= 0; len--; }`. -/
def trimTrailing (cp : Nat) : Nat → List Nat → Option (List Nat)
  | 0, line => some line
  | len + 1, line =>
    match rd line (cp + len) with
    | none => none
    | some c =>
      if isspace c then
        match wr line (cp + len) 0 with
        | none => none
        | some line1 => trimTrailing cp len line1
      else some line

/-- The variables of `process` that the splitting loop carries from one
iteration to the next (`ncp` is assigned in every iteration before it is used). -/
structure Split where
  line : List Nat
  cp : Nat
  argc : Nat
  argv : List Slot
  outfile : Option Nat
  do_append : Bool
deriving DecidableEq

/-- How one iteration of `for(;;)` ends. -/
inductive Flow where
  | again (s : Split)
  | done (s : Split)
deriving DecidableEq

/-- The tail of the loop body: `cp= ncp; argv[argc]= cp;` and the scan of the
argument that starts there (quoted string or bare word). -/
def nextArg (s : Split) (ncp : Nat) : Option Flow :=
  match argvSet s.argv s.argc (Slot.ptr ncp) with
  | none => none
  | some argv =>
    match rd s.line ncp with
    | none => none
    | some c =>
      if c = 34 then
        match find_eos s.line (ncp + 1) with
        | none => none
        | some e =>
          match rd s.line e with
          | none => none
          | some q =>
            if q ≠ 34 then
              -- "end of string not found": `continue`
              some (Flow.again { s with cp := ncp, argv := argv })
            else
              match argvSet argv s.argc (Slot.ptr (ncp + 1)) with
              | none => none
              | some argv2 =>
                match wr s.line e 0 with
                | none => none
                | some line2 =>
                  some (Flow.again { s with line := line2, cp := e + 1, argv := argv2 })
      else
        match skip_nonspace s.line ncp with
        | none => none
        | some e => some (Flow.again { s with cp := e, argv := argv })

/-- The test `if (argc >= NARGS-1) { report(...); continue; }` followed by
the rest of the body. -/
def afterArg (s : Split) (ncp : Nat) : Option Flow :=
  if s.argc ≥ NARGS - 1 then some (Flow.again s) else nextArg s ncp

/-- One iteration of the splitting loop `for(;;)`. -/
def splitStep (s : Split) : Option Flow :=
  match rd s.line s.cp with
  | none => none
  | some c =>
    if c = 0 then
      -- End of list
      some (Flow.done { s with argc := s.argc + 1 })
    else
      match skip_space s.line s.cp with
      | none => none
      | some ncp =>
        match wr s.line s.cp 0 with
        | none => none
        | some line =>
          match argvGet s.argv s.argc with
          | none => none
          | some a =>
            match rd line a with
            | none => none
            | some a0 =>
              if a0 = 62 then
                -- Special case for '>'
                match rd line (a + 1) with
                | none => none
                | some c1 =>
                  let app := if c1 = 62 then true else s.do_append
                  let cp1 := if c1 = 62 then a + 2 else a + 1
                  match rd line cp1 with
                  | none => none
                  | some c2 =>
                    if c2 ≠ 0 then
                      -- Filename immediately follows '>'
                      afterArg { s with line := line, cp := cp1, do_append := app,
                                        outfile := some cp1 } ncp
                    else
                      -- Get the next argument
                      match skip_nonspace line ncp with
                      | none => none
                      | some e =>
                        match rd line e with
                        | none => none
                        | some c3 =>
                          if c3 = 0 then
                            some (Flow.done { s with line := line, cp := e, do_append := app,
                                                     outfile := some ncp })
                          else
                            match skip_space line e with
                            | none => none
                            | some ncp2 =>
                              match wr line e 0 with
                              | none => none
                              | some line2 =>
                                match rd line2 ncp2 with
                                | none => none
                                | some c4 =>
                                  if c4 = 0 then
                                    some (Flow.done { s with line := line2, cp := e,
                                                             do_append := app,
                                                             outfile := some ncp })
                                  else
                                    afterArg { s with line := line2, cp := e,
                                                      do_append := app,
                                                      outfile := some ncp } ncp2
              else
                afterArg { s with line := line, argc := s.argc + 1 } ncp

/-- The splitting loop `for(;;)`; `none` when an iteration has no defined
result or the fuel runs out before a `break`. -/
def splitLoop : Nat → Split → Option Split
  | 0, _ => none
  | fuel + 1, s =>
    match splitStep s with
    | none => none
    | some (Flow.done s1) => some s1
    | some (Flow.again s1) => splitLoop fuel s1

/-- What the parser leaves for the rest of `process` when a line is accepted:
the registry entry (`bp`, as an index), `argc`, the `argv` array, the line
buffer the pointers refer to, `outfile` and `do_append`. -/
structure Parsed where
  bp : Nat
  argc : Nat
  argv : List Slot
  line : List Nat
  outfile : Option Nat
  do_append : Bool
deriving DecidableEq

/-- The outcome of the parsing part of one iteration of `while (fgets ...)`. -/
inductive Parse where
  | blank
  | nothingFound
  | tooManyArgs
  | stuck
  | ok (p : Parsed)
deriving DecidableEq

/-- The body of the `while` loop of `process` from "Skip leading white space"
to `argv[argc]= NULL`, on the line buffer `line`. -/
def parseCmd (line : List Nat) : Parse :=
  match skip_space line 0 with
  | none => Parse.stuck
  | some cp =>
    match rd line cp with
    | none => Parse.stuck
    | some c =>
      if c = 0 ∨ c = 35 then Parse.blank  -- Empty or comment line
      else
        match findBuiltin line cp builtin_cmds 0 with
        | none => Parse.stuck
        | some none => Parse.nothingFound
        | some (some bp) =>
          match strlen line cp with
          | none => Parse.stuck
          | some len =>
            match trimTrailing cp len line with
            | none => Parse.stuck
            | some line1 =>
              match argvSet (List.replicate NARGS Slot.uninit) 0 (Slot.ptr cp) with
              | none => Parse.stuck
              | some argv =>
                match skip_nonspace line1 cp with
                | none => Parse.stuck
                | some e =>
                  match splitLoop (line.length + 1)
                      { line := line1, cp := e, argc := 0, argv := argv,
                        outfile := none, do_append := false } with
                  | none => Parse.stuck
                  | some s =>
                    if s.argc ≥ NARGS then Parse.tooManyArgs
                    else
                      match argvSet s.argv s.argc Slot.null with
                      | none => Parse.stuck
                      | some argv1 =>
                        Parse.ok { bp := bp, argc := s.argc, argv := argv1, line := s.line,
                                   outfile := s.outfile, do_append := s.do_append }

/-- The strings `argv[i], ..., argv[i+n-1]` as the handler (and the
`argv[%d] = '%s'` report) reads them. -/
def argStrings (line : List Nat) (argv : List Slot) : Nat → Nat → Option (List (List Nat))
  | _, 0 => some []
  | i, n + 1 =>
    match argvGet argv i with
    | none => none
    | some p =>
      match cstr line p with
      | none => none
      | some s =>
        match argStrings line argv (i + 1) n with
        | none => none
        | some r => some (s :: r)

/-- The argument strings of an accepted line. -/
def Parsed.args (p : Parsed) : Option (List (List Nat)) :=
  argStrings p.line p.argv 0 p.argc

/-- The output target of an accepted line as a string: `none` when `outfile`
is NULL, `some none` when the pointer does not address a string. -/
def Parsed.target (p : Parsed) : Option (Option (List Nat)) :=
  match p.outfile with
  | none => none
  | some o => some (cstr p.line o)

/-! ## Reading the queue and running the handlers -/

/-- The bytes `fgets` stores for a request of at most `n` bytes, and the
content left in the stream. -/
def fgetsChunk : Nat → List Nat → List Nat × List Nat
  | 0, content => ([], content)
  | _ + 1, [] => ([], [])
  | n + 1, c :: rest =>
    if c = 10 then ([c], rest)
    else (c :: (fgetsChunk n rest).1, (fgetsChunk n rest).2)

/-- The C library `fgets(line, size, file)`: `none` is the NULL result at end of file. -/
def fgets (size : Nat) (content : List Nat) : Option (List Nat × List Nat) :=
  if content = [] then none else some (fgetsChunk (size - 1) content)

/-- The system calls and handlers `process` uses, as transformers of a state `σ`.
`openOut s path append` is `open(path, O_CREAT|O_WRONLY[|O_APPEND], 0644)`,
`func bp s argc argv` the call `bp->func(argc, argv)`. -/
structure Sys (σ : Type) where
  openOut : σ → List Nat → Bool → σ × Option Nat
  fflush : σ → σ
  dup : σ → Nat → σ × Option Nat
  dup2 : σ → Nat → Nat → σ
  close : σ → Nat → σ
  func : Nat → σ → Nat → List (List Nat) → σ

/-- Why `process` returned. -/
inductive Stop where
  | eof
  | lineTooLong
  | nothingFound
  | tooManyArgs
  | openFailed
  | dupFailed
  | stuck
deriving DecidableEq

/-- The rest of the loop body once a line is accepted: redirect output when
`outfile` is set, call the handler, restore descriptor 1. -/
def invoke {σ : Type} (sys : Sys σ) (s : σ) (p : Parsed) : σ × Option Stop :=
  match p.args with
  | none => (s, some Stop.stuck)
  | some args =>
    match p.outfile with
    | none => (sys.func p.bp s p.argc args, none)
    | some o =>
      match cstr p.line o with
      | none => (s, some Stop.stuck)
      | some path =>
        match sys.openOut s path p.do_append with
        | (s1, none) => (s1, some Stop.openFailed)
        | (s1, some out_fd) =>
          match sys.dup (sys.fflush s1) 1 with
          | (s2, none) => (sys.close s2 out_fd, some Stop.dupFailed)
          | (s2, some saved_fd) =>
            let s3 := sys.close (sys.dup2 s2 out_fd 1) out_fd
            let s4 := sys.func p.bp s3 p.argc args
            (sys.close (sys.dup2 (sys.fflush s4) saved_fd 1) saved_fd, none)

/-- One iteration of `while (cp= fgets(line, sizeof(line), file), cp != NULL)`
on the chunk `fgets` delivered: `some` reason when `process` returns, `none`
when the loop goes on with the next line. -/
def processLine {σ : Type} (sys : Sys σ) (s : σ) (chunk : List Nat) : σ × Option Stop :=
  match strchrFrom 10 (chunk ++ [0]) 0 with
  | none => (s, some Stop.stuck)
  | some none => (s, some Stop.lineTooLong)
  | some (some _) =>
    match parseCmd (chunk ++ [0]) with
    | Parse.blank => (s, none)
    | Parse.nothingFound => (s, some Stop.nothingFound)
    | Parse.tooManyArgs => (s, some Stop.tooManyArgs)
    | Parse.stuck => (s, some Stop.stuck)
    | Parse.ok p => invoke sys s p

/-- The `while` loop of `process` on the content still to be read. -/
def drain {σ : Type} (sys : Sys σ) : Nat → σ → List Nat → σ × Stop
  | 0, s, _ => (s, Stop.stuck)
  | fuel + 1, s, content =>
    match fgets LINE_SIZE content with
    | none => (s, Stop.eof)
    | some (chunk, rest) =>
      match processLine sys s chunk with
      | (s1, some stop) => (s1, stop)
      | (s1, none) => drain sys fuel s1 rest

/-- Embeds `process(file)`: the final state and the reason the function returned. -/
def process {σ : Type} (sys : Sys σ) (s : σ) (content : List Nat) : σ × Stop :=
  drain sys (content.length + 1) s content

/-! ## A system that records what `process` does -/

/-- What the recording system writes down. -/
inductive Event where
  | opened (path : List Nat) (append : Bool)
  | openFailed (path : List Nat) (append : Bool)
  | flushed
  | duped (fd : Nat)
  | dup2ed (fd : Nat) (onto : Nat)
  | closed (fd : Nat)
  | called (bp : Nat) (argc : Nat) (argv : List (List Nat))
deriving DecidableEq

/-- A system whose state is the log of the calls made; `openOk` tells which
paths can be opened, descriptors 3 and 4 are the free ones. -/
def logSys (openOk : List Nat → Bool) : Sys (List Event) where
  openOut := fun s path append =>
    if openOk path then (s ++ [Event.opened path append], some 3)
    else (s ++ [Event.openFailed path append], none)
  fflush := fun s => s ++ [Event.flushed]
  dup := fun s fd => (s ++ [Event.duped fd], some 4)
  dup2 := fun s fd onto => s ++ [Event.dup2ed fd onto]
  close := fun s fd => s ++ [Event.closed fd]
  func := fun bp s argc argv => s ++ [Event.called bp argc argv]

/-- The handler invocations in a log. -/
def calls : List Event → List (Nat × Nat × List (List Nat))
  | [] => []
  | Event.called bp argc argv :: rest => (bp, argc, argv) :: calls rest
  | _ :: rest => calls rest

/-! ## Shapes of queue lines, and what the splitting loop makes of them -/

/-- A token: a non-empty run of bytes other than NUL and white space. -/
def IsTok (t : List Nat) : Prop := t ≠ [] ∧ ∀ c ∈ t, c ≠ 0 ∧ isspace c = false

instance (t : List Nat) : Decidable (IsTok t) := by
  unfold IsTok
  infer_instance

/-- A separator: a non-empty run of white space. -/
def IsWs (w : List Nat) : Prop := w ≠ [] ∧ ∀ c ∈ w, isspace c = true

instance (w : List Nat) : Decidable (IsWs w) := by
  unfold IsWs
  infer_instance

/-- A byte that ends a token: NUL or white space. -/
def IsEnd (x : Nat) : Prop := x = 0 ∨ isspace x = true

/-- The bytes of a sequence of tokens, each preceded by its separator. -/
def render : List (List Nat × List Nat) → List Nat
  | [] => []
  | wt :: rest => wt.1 ++ wt.2 ++ render rest

/-- What the splitting loop collects from a run of tokens. -/
structure TokOut where
  args : List (List Nat)
  redir : Option (List Nat)
  app : Bool
deriving DecidableEq

/-- The splitting loop read as a function on the tokens of a line without
quoted strings, the first token being the one at `argv[argc]` with `argc = k`.
The last token of a line is always an argument.  A token before it that begins
with `>` is a directive: the bytes after `>` or `>>` are the target, and when
there are none the next token is.  `none` stands for the "too arguments" exit. -/
def splitSpec : Nat → List (List Nat) → Option TokOut
  | _, [] => some ⟨[], none, false⟩
  | _, [t] => some ⟨[t], none, false⟩
  | k, t :: u :: rest =>
    if t.head? = some 62 then
      let dbl : Bool := decide (t.tail.head? = some 62)
      let path := if dbl then t.drop 2 else t.drop 1
      if path ≠ [] then
        match splitSpec k (u :: rest) with
        | none => none
        | some r =>
          some ⟨r.args, (match r.redir with | some q => some q | none => some path),
                dbl || r.app⟩
      else
        match splitSpec k rest with
        | none => none
        | some r =>
          some ⟨r.args, (match r.redir with | some q => some q | none => some u),
                dbl || r.app⟩
    else if k + 1 ≥ NARGS - 1 then none
    else
      match splitSpec (k + 1) (u :: rest) with
      | none => none
      | some r => some ⟨t :: r.args, r.redir, r.app⟩

/-- The separators and tokens a line may carry after its first token when it
has no quoted string. -/
def ValidToks (rest : List (List Nat × List Nat)) : Prop :=
  ∀ wt ∈ rest, IsWs wt.1 ∧ IsTok wt.2 ∧ wt.2.head? ≠ some 34

instance (rest : List (List Nat × List Nat)) : Decidable (ValidToks rest) := by
  unfold ValidToks
  infer_instance

/-- The state `fin` the splitting loop ends in, described relative to the state
it was entered in (argument count `k`, array `A`, target `o`, flag `d`, bytes
`pre` before the current token) and to what `splitSpec` collects. -/
def LoopPost (pre : List Nat) (k : Nat) (A : List Slot) (o : Option Nat) (d : Bool)
    (r : TokOut) (fin : Split) : Prop :=
  (∃ tl, fin.line = pre ++ tl) ∧
  fin.argv.length = NARGS ∧
  (∀ j, j < k → fin.argv[j]? = A[j]?) ∧
  fin.argc = k + r.args.length ∧
  fin.argc < NARGS ∧
  argStrings fin.line fin.argv k r.args.length = some r.args ∧
  (r.redir = none → fin.outfile = o) ∧
  (∀ path, r.redir = some path → ∃ q, fin.outfile = some q ∧ cstr fin.line q = some path) ∧
  fin.do_append = (r.app || d)

/-- A bare token: a token that begins neither with `"` nor with `>`. -/
def IsBare (t : List Nat) : Prop := IsTok t ∧ t.head? ≠ some 34 ∧ t.head? ≠ some 62

instance (t : List Nat) : Decidable (IsBare t) := by
  unfold IsBare
  infer_instance

/-- Separated bare tokens. -/
def BareToks (toks : List (List Nat × List Nat)) : Prop :=
  ∀ wt ∈ toks, IsWs wt.1 ∧ IsBare wt.2

instance (toks : List (List Nat × List Nat)) : Decidable (BareToks toks) := by
  unfold BareToks
  infer_instance

/-- The directive sign: `>` or `>>`. -/
def dirSign (dbl : Bool) : List Nat := if dbl then [62, 62] else [62]

/-- The tokens of a redirection directive that follows the separator `w`:
the sign with the target attached (`sep = none`), or the sign and, after the
separator `w1`, the target (`sep = some w1`). -/
def dirToks (dbl : Bool) (w : List Nat) (sep : Option (List Nat)) (path : List Nat) :
    List (List Nat × List Nat) :=
  match sep with
  | none => [(w, dirSign dbl ++ path)]
  | some w1 => [(w, dirSign dbl), (w1, path)]

/-- What a target has to be for the directive to be read as written: a token
that does not begin with `"`, and for the attached form `>PATH` not with `>`. -/
def IsTarget (dbl : Bool) (sep : Option (List Nat)) (path : List Nat) : Prop :=
  IsTok path ∧ path.head? ≠ some 34 ∧ (sep = none → dbl = false → path.head? ≠ some 62)

instance (dbl : Bool) (sep : Option (List Nat)) (path : List Nat) :
    Decidable (IsTarget dbl sep path) := by
  unfold IsTarget
  infer_instance

/-- The invocation record of an accepted line as the rest of `process` sees
it: registry entry, argument strings, output target and append flag. -/
structure Invocation where
  bp : Nat
  argv : List (List Nat)
  outfile : Option (List Nat)
  append : Bool
deriving DecidableEq

/-- The invocation record of an accepted line; `none` when a pointer does not
address a string. -/
def Parsed.record (p : Parsed) : Option Invocation :=
  match p.args with
  | none => none
  | some args =>
    match p.outfile with
    | none => some ⟨p.bp, args, none, p.do_append⟩
    | some o =>
      match cstr p.line o with
      | none => none
      | some path => some ⟨p.bp, args, some path, p.do_append⟩

/-- The invocation record the parser builds from the chunk `fgets` delivered,
`none` when the line is not accepted. -/
def parseRecord (chunk : List Nat) : Option Invocation :=
  match parseCmd (chunk ++ [0]) with
  | Parse.ok p => p.record
  | _ => none

/-- A line of the queue file within the read window: newline-terminated, no
other newline, no NUL byte (the file is text), at most 255 bytes with its
newline. -/
def IsLine (l : List Nat) : Prop :=
  l = l.dropLast ++ [10] ∧ (∀ c ∈ l.dropLast, c ≠ 10 ∧ c ≠ 0) ∧ l.length ≤ LINE_SIZE - 1

instance (l : List Nat) : Decidable (IsLine l) := by
  unfold IsLine
  infer_instance

/-- A line that is empty, holds only white space, or whose first byte after
the leading white space is `#`. -/
def isSkipped (l : List Nat) : Bool :=
  match l.dropWhile isspace with
  | [] => true
  | c :: _ => c == 35

/-- The content of a queue file made of the given lines. -/
def joinLines : List (List Nat) → List Nat
  | [] => []
  | l :: ls => l ++ joinLines ls

/-- The first entry of `builtin_cmds` whose name is a prefix of the bytes
given and is followed there by a single space. -/
def firstMatch (buf : List Nat) : Option Nat :=
  builtin_cmds.findIdx? (fun name => (name ++ [32]).isPrefixOf buf) 0

/-! ## Invariants of the splitting loop on arbitrary lines -/

/-- A buffer whose last byte is NUL. -/
def EndsNul (buf : List Nat) : Prop := 0 < buf.length ∧ buf[buf.length - 1]? = some 0

instance (buf : List Nat) : Decidable (EndsNul buf) := by
  unfold EndsNul
  infer_instance

/-- The number of bytes other than NUL from index `p` on: the measure that
decreases with every iteration of the splitting loop. -/
def nzFrom (buf : List Nat) (p : Nat) : Nat := (buf.drop p).countP (fun c => c != 0)

/-- What holds of the loop variables whenever the splitting loop is at the top
of its body, for a line of `len` bytes whose command name `nm` starts at index
`a0`. -/
def LoopInv (len a0 : Nat) (nm : List Nat) (s : Split) : Prop :=
  s.line.length = len ∧ EndsNul s.line ∧ s.cp < len ∧
  s.argv.length = NARGS ∧ s.argc ≤ NARGS - 1 ∧
  (s.argc < NARGS - 1 → ∃ a, s.argv[s.argc]? = some (Slot.ptr a) ∧ a < len) ∧
  (s.argc = NARGS - 1 → s.line[s.cp]? = some 0) ∧
  (∀ j, j < s.argc → ∃ a, s.argv[j]? = some (Slot.ptr a) ∧ a < len) ∧
  (∀ o, s.outfile = some o → o < len) ∧
  s.argv[0]? = some (Slot.ptr a0) ∧
  (∀ i, i < nm.length → s.line[a0 + i]? = nm[i]?) ∧
  a0 + nm.length ≤ s.cp ∧
  (s.argc = 0 → s.cp = a0 + nm.length) ∧
  (1 ≤ s.argc → s.line[a0 + nm.length]? = some 0)

/-- What holds of the loop variables when the splitting loop has ended. -/
def LoopEnd (len a0 : Nat) (nm : List Nat) (s : Split) : Prop :=
  s.line.length = len ∧ EndsNul s.line ∧
  s.argv.length = NARGS ∧ 1 ≤ s.argc ∧ s.argc ≤ NARGS ∧
  (s.argc < NARGS → ∀ j, j < s.argc → ∃ a, s.argv[j]? = some (Slot.ptr a) ∧ a < len) ∧
  (∀ o, s.outfile = some o → o < len) ∧
  s.argv[0]? = some (Slot.ptr a0) ∧
  (∀ i, i < nm.length → s.line[a0 + i]? = nm[i]?) ∧
  s.line[a0 + nm.length]? = some 0


/-! ## Recording the handler invocations of any system -/

/-- A handler invocation: registry entry, `argc`, and the argument strings. -/
abbrev Call : Type := Nat × Nat × List (List Nat)

/-- The system `sys` with a record of the handler invocations kept beside its state. -/
def recordCalls {σ : Type} (sys : Sys σ) : Sys (σ × List Call) where
  openOut := fun s path append =>
    (((sys.openOut s.1 path append).1, s.2), (sys.openOut s.1 path append).2)
  fflush := fun s => (sys.fflush s.1, s.2)
  dup := fun s fd => (((sys.dup s.1 fd).1, s.2), (sys.dup s.1 fd).2)
  dup2 := fun s fd onto => (sys.dup2 s.1 fd onto, s.2)
  close := fun s fd => (sys.close s.1 fd, s.2)
  func := fun bp s argc argv => (sys.func bp s.1 argc argv, s.2 ++ [(bp, argc, argv)])

/-- The chunks successive calls of `fgets(line, sizeof(line), file)` deliver
until end of file. -/
def chunks : Nat → List Nat → List (List Nat)
  | 0, _ => []
  | fuel + 1, content =>
    match fgets LINE_SIZE content with
    | none => []
    | some (chunk, rest) => chunk :: chunks fuel rest

/-- The lines of a queue file as `process` reads them. -/
def queueLines (content : List Nat) : List (List Nat) := chunks (content.length + 1) content

/-- The handler invocation the parser prepares for a chunk, `none` when the
line is not accepted. -/
def lineCall (chunk : List Nat) : Option Call :=
  match parseCmd (chunk ++ [0]) with
  | Parse.ok p =>
    match p.args with
    | some args => some (p.bp, p.argc, args)
    | none => none
  | _ => none

/-! ## A descriptor table -/

/-- The descriptor table of the process: `fds[d] = some st` when descriptor `d`
is open on stream `st`, `none` when it is closed; the length of the list is
the limit on open descriptors.  `fresh` names the next stream `open` creates. -/
structure Fds where
  fds : List (Option Nat)
  fresh : Nat
deriving DecidableEq

/-- The lowest-numbered descriptor not open, if there is one. -/
def lowestFree (fds : List (Option Nat)) : Option Nat := fds.findIdx? (fun e => e.isNone) 0

/-- POSIX `open` of a path that can (`ok`) or cannot be opened: the lowest
free descriptor, on a new stream; `none` is the result `-1`. -/
def fdOpen (ok : Bool) (t : Fds) : Fds × Option Nat :=
  if ok then
    match lowestFree t.fds with
    | none => (t, none)
    | some fd => ({ fds := t.fds.set fd (some t.fresh), fresh := t.fresh + 1 }, some fd)
  else (t, none)

/-- POSIX `dup(fd)`: the lowest free descriptor, on the stream of `fd`; `none`
(`-1`) when `fd` is not open or no descriptor is free. -/
def fdDup (t : Fds) (fd : Nat) : Fds × Option Nat :=
  match t.fds[fd]? with
  | some (some st) =>
    match lowestFree t.fds with
    | none => (t, none)
    | some nfd => ({ t with fds := t.fds.set nfd (some st) }, some nfd)
  | _ => (t, none)

/-- POSIX `dup2(fd, onto)`: `onto` is made to refer to the stream of `fd`
(whatever it referred to is closed first); nothing changes when `fd` is not
open, when `onto` is out of range, or when `fd = onto`. -/
def fdDup2 (t : Fds) (fd onto : Nat) : Fds :=
  match t.fds[fd]? with
  | some (some st) => { t with fds := t.fds.set onto (some st) }
  | _ => t

/-- POSIX `close(fd)`. -/
def fdClose (t : Fds) (fd : Nat) : Fds := { t with fds := t.fds.set fd none }

/-- The system calls of `process` on a descriptor table; `openOk` tells which
paths can be opened and `handler` is what the command handlers do to the table. -/
def fdSys (openOk : List Nat → Bool) (handler : Nat → Fds → Nat → List (List Nat) → Fds) :
    Sys Fds where
  openOut := fun t path _ => fdOpen (openOk path) t
  fflush := fun t => t
  dup := fdDup
  dup2 := fdDup2
  close := fdClose
  func := handler

/-- The descriptor `saved_fd` that `dup(1)` returns after the output file was
opened, when both calls succeed on the table `t`. -/
def saveSlot (t : Fds) : Option Nat := (fdDup (fdOpen true t).1 1).2

/-! ## Start-up -/

/-- The C library `strlcpy(dst, src, size)` on strings: what `dst` holds
afterwards, at most `size - 1` bytes of `src`. -/
def strlcpy (src : List Nat) (size : Nat) : List Nat := src.take (size - 1)

/-- The C library `strlcat(dst, src, size)` on strings: what `dst` holds
afterwards, `src` appended as far as `size - 1` bytes in all allow. -/
def strlcat (dst src : List Nat) (size : Nat) : List Nat :=
  dst ++ src.take (size - 1 - dst.length)

/-- How `ooqd_main` goes on after its argument checks: `usage` and `tooLong`
are the two `return 1` before the `for(;;)` loop (after `bb_show_usage()` and
after the report "filename too long"), `loop` is the entry into the loop with
the queue file name and the name built in `curr_qfile`; the first `rename` is
made there. -/
inductive Start where
  | usage
  | tooLong
  | loop (queue_file curr_qfile : List Nat)
deriving DecidableEq

/-- Embeds `ooqd_main(argc, argv)` up to the `for(;;)` loop; `argv` holds the
argument strings, the program name first. -/
def ooqd_main (argv : List (List Nat)) : Start :=
  if argv.length ≠ 2 then Start.usage
  else
    let queue_file := argv.getD 1 []
    if queue_file.length + SUFFIX.length + 1 > QFILE_SIZE then Start.tooLong
    else Start.loop queue_file (strlcat (strlcpy queue_file QFILE_SIZE) SUFFIX QFILE_SIZE)

/-- The name of the entry at which the lookup loop over the table `cmds`
breaks: `some none` when the table is exhausted. -/
def lookupName (line : List Nat) (cp : Nat) (cmds : List (List Nat)) :
    Option (Option (List Nat)) :=
  (findBuiltin line cp cmds 0).map (fun r => r.bind (fun i => cmds[i]?))

/-! ## The directives the splitting loop recognises -/

/-- A recognised redirection directive: whether its sign is `>>`, and the
pointer the iteration stores in `outfile`. -/
structure Dir where
  dbl : Bool
  target : Nat
deriving DecidableEq

/-- The directive recognised by the iteration of the splitting loop that starts
in state `s`: `some` when the iteration takes the branch
`if (argv[argc][0] == '>')`, with `dbl` the outcome of the test
`if (cp[0] == '>')` after the sign and `target` the value assigned to
`outfile` (`cp` when a file name follows the sign at once, `ncp` otherwise). -/
def stepDir (s : Split) : Option Dir :=
  match rd s.line s.cp with
  | none => none
  | some c =>
    if c = 0 then none
    else
      match skip_space s.line s.cp with
      | none => none
      | some ncp =>
        match wr s.line s.cp 0 with
        | none => none
        | some line =>
          match argvGet s.argv s.argc with
          | none => none
          | some a =>
            match rd line a with
            | none => none
            | some a0 =>
              if a0 = 62 then
                match rd line (a + 1) with
                | none => none
                | some c1 =>
                  let cp1 := if c1 = 62 then a + 2 else a + 1
                  match rd line cp1 with
                  | none => none
                  | some c2 =>
                    some { dbl := decide (c1 = 62), target := if c2 ≠ 0 then cp1 else ncp }
              else none

/-- The directives recognised by the iterations of the splitting loop run from
state `s`, in order. -/
def directives : Nat → Split → List Dir
  | 0, _ => []
  | fuel + 1, s =>
    match splitStep s with
    | none => []
    | some (Flow.done _) => (stepDir s).toList
    | some (Flow.again s1) => (stepDir s).toList ++ directives fuel s1

/-- The state in which `process` enters the splitting loop for the line
buffer `line`: the steps of `parseCmd` up to the loop. `none` when the line is
skipped, matches no command, or a step has no result. -/
def loopEntry (line : List Nat) : Option Split :=
  match skip_space line 0 with
  | none => none
  | some cp =>
    match rd line cp with
    | none => none
    | some c =>
      if c = 0 ∨ c = 35 then none
      else
        match findBuiltin line cp builtin_cmds 0 with
        | none => none
        | some none => none
        | some (some _) =>
          match strlen line cp with
          | none => none
          | some len =>
            match trimTrailing cp len line with
            | none => none
            | some line1 =>
              match argvSet (List.replicate NARGS Slot.uninit) 0 (Slot.ptr cp) with
              | none => none
              | some argv =>
                match skip_nonspace line1 cp with
                | none => none
                | some e =>
                  some { line := line1, cp := e, argc := 0, argv := argv,
                         outfile := none, do_append := false }

/-- The directives the parser recognises in the line buffer `line`, in order. -/
def lineDirs (line : List Nat) : List Dir :=
  match loopEntry line with
  | none => []
  | some s => directives (line.length + 1) s

/-- The loop variables an iteration ends with. -/
def Flow.state : Flow → Split
  | Flow.again s => s
  | Flow.done s => s
/-! ## Basic facts about the memory operations -/

theorem isspace_iff (c : Nat) : isspace c = true ↔ c = 32 ∨ (9 ≤ c ∧ c ≤ 13) := by
  simp [isspace]

theorem isspace_zero : isspace 0 = false := by decide

theorem rd_at (pre : List Nat) (c : Nat) (tl l : List Nat) (p : Nat)
    (hl : l = pre ++ c :: tl) (hp : p = pre.length) : rd l p = some c := by
  subst hl hp
  rw [rd, List.getElem?_append_right (Nat.le_refl _)]
  simp

theorem wr_at (pre : List Nat) (c : Nat) (tl l : List Nat) (p v : Nat)
    (hl : l = pre ++ c :: tl) (hp : p = pre.length) : wr l p v = some (pre ++ v :: tl) := by
  subst hl hp
  rw [wr, if_pos (by simp), List.set_append_right _ _ (Nat.le_refl _)]
  simp

theorem scanWhile_run (go : Nat → Bool) (a : List Nat) (c : Nat) (tl : List Nat) (p : Nat)
    (ha : ∀ x ∈ a, go x = true) (hc : go c = false) :
    scanWhile go (a ++ c :: tl) p = some (p + a.length) := by
  induction a generalizing p with
  | nil => simp [scanWhile, hc]
  | cons x a ih =>
    have hx : go x = true := ha x (by simp)
    have ha1 : ∀ y ∈ a, go y = true := fun y hy => ha y (by simp [hy])
    rw [List.cons_append, scanWhile, if_pos hx, ih (p + 1) ha1, List.length_cons]
    exact congrArg some (by omega)

theorem scan_at (go : Nat → Bool) (pre a : List Nat) (c : Nat) (tl l : List Nat) (p : Nat)
    (hl : l = pre ++ a ++ c :: tl) (hp : p = pre.length)
    (ha : ∀ x ∈ a, go x = true) (hc : go c = false) :
    scanWhile go (l.drop p) p = some (p + a.length) := by
  subst hl hp
  rw [List.append_assoc, List.drop_left]
  exact scanWhile_run go a c tl _ ha hc

theorem cstrFrom_run (t tl : List Nat) (ht : ∀ x ∈ t, x ≠ 0) :
    cstrFrom (t ++ 0 :: tl) = some t := by
  induction t with
  | nil => simp [cstrFrom]
  | cons x t ih =>
    have hx : x ≠ 0 := ht x (by simp)
    have ht1 : ∀ y ∈ t, y ≠ 0 := fun y hy => ht y (by simp [hy])
    simp [cstrFrom, hx, ih ht1]

theorem cstr_at (pre t tl l : List Nat) (p : Nat)
    (hl : l = pre ++ t ++ 0 :: tl) (hp : p = pre.length) (ht : ∀ x ∈ t, x ≠ 0) :
    cstr l p = some t := by
  subst hl hp
  rw [cstr, List.append_assoc, List.drop_left]
  exact cstrFrom_run t tl ht

/-! ## One iteration of the splitting loop on tokens -/

theorem IsWs.ne_zero {w : List Nat} (hw : IsWs w) : ∀ c ∈ w, (c != 0 && isspace c) = true := by
  intro c hc
  have h := hw.2 c hc
  have h0 : c ≠ 0 := by
    rintro rfl
    simp [isspace] at h
  simp [h, h0]

theorem IsTok.go {t : List Nat} (ht : IsTok t) : ∀ c ∈ t, (c != 0 && !isspace c) = true := by
  intro c hc
  have h := ht.2 c hc
  simp [h.1, h.2]

theorem IsTok.nz {t : List Nat} (ht : IsTok t) : ∀ c ∈ t, c ≠ 0 := fun c hc => (ht.2 c hc).1

theorem IsEnd.stop {x : Nat} (hx : IsEnd x) : (x != 0 && !isspace x) = false := by
  rcases hx with rfl | h
  · rfl
  · simp [h]

theorem tok_stop_space {t : List Nat} (ht : IsTok t) :
    ∃ c t1, t = c :: t1 ∧ c ≠ 0 ∧ isspace c = false ∧ (c != 0 && isspace c) = false := by
  obtain ⟨hne, h⟩ := ht
  cases t with
  | nil => exact absurd rfl hne
  | cons c t1 =>
    have hc := h c (by simp)
    exact ⟨c, t1, rfl, hc.1, hc.2, by simp [hc.2]⟩

theorem step_done (s : Split) (h : rd s.line s.cp = some 0) :
    splitStep s = some (Flow.done { s with argc := s.argc + 1 }) := by
  simp [splitStep, h]

theorem step_arg (pre t : List Nat) (w0 : Nat) (w u : List Nat) (x : Nat) (tl : List Nat)
    (A : List Slot) (k : Nat) (o : Option Nat) (d : Bool)
    (ht : IsTok t) (h62 : t.head? ≠ some 62) (hw : IsWs (w0 :: w)) (hu : IsTok u)
    (h34 : u.head? ≠ some 34) (hx : IsEnd x)
    (hA : A[k]? = some (Slot.ptr pre.length)) (hk : k + 1 < NARGS - 1)
    (hlen : A.length = NARGS) :
    splitStep ⟨pre ++ t ++ w0 :: w ++ u ++ x :: tl, pre.length + t.length, k, A, o, d⟩ =
      some (Flow.again ⟨pre ++ t ++ 0 :: w ++ u ++ x :: tl,
        pre.length + t.length + (w.length + 1) + u.length, k + 1,
        A.set (k + 1) (Slot.ptr (pre.length + t.length + (w.length + 1))), o, d⟩) := by
  obtain ⟨t0, t1, rfl, ht0, -, -⟩ := tok_stop_space ht
  obtain ⟨u0, u1, rfl, hu0, hu0s, hu0stop⟩ := tok_stop_space hu
  have hw0 : w0 ≠ 0 := by
    have h := hw.ne_zero w0 (by simp)
    rintro rfl
    simp at h
  have h1 : rd (pre ++ t0 :: t1 ++ w0 :: w ++ u0 :: u1 ++ x :: tl)
      (pre.length + (t0 :: t1).length) = some w0 :=
    rd_at (pre ++ t0 :: t1) w0 (w ++ u0 :: u1 ++ x :: tl) _ _ (by simp) (by simp)
  have h2 : skip_space (pre ++ t0 :: t1 ++ w0 :: w ++ u0 :: u1 ++ x :: tl)
      (pre.length + (t0 :: t1).length) = some (pre.length + (t0 :: t1).length + (w0 :: w).length) :=
    scan_at _ (pre ++ t0 :: t1) (w0 :: w) u0 (u1 ++ x :: tl) _ _ (by simp) (by simp)
      hw.ne_zero hu0stop
  have h3 : wr (pre ++ t0 :: t1 ++ w0 :: w ++ u0 :: u1 ++ x :: tl)
      (pre.length + (t0 :: t1).length) 0 = some (pre ++ t0 :: t1 ++ 0 :: (w ++ u0 :: u1 ++ x :: tl)) :=
    wr_at (pre ++ t0 :: t1) w0 (w ++ u0 :: u1 ++ x :: tl) _ _ 0 (by simp) (by simp)
  have h4 : argvGet A k = some pre.length := by simp [argvGet, hA]
  have h5 : rd (pre ++ t0 :: t1 ++ 0 :: (w ++ u0 :: u1 ++ x :: tl)) pre.length = some t0 :=
    rd_at pre t0 (t1 ++ 0 :: (w ++ u0 :: u1 ++ x :: tl)) _ _ (by simp) rfl
  have h62a : t0 ≠ 62 := by simpa using h62
  have h34a : u0 ≠ 34 := by simpa using h34
  have h6 : argvSet A (k + 1) (Slot.ptr (pre.length + (t0 :: t1).length + (w0 :: w).length))
      = some (A.set (k + 1) (Slot.ptr (pre.length + (t0 :: t1).length + (w0 :: w).length))) := by
    have : k + 1 < A.length := by rw [hlen]; simp [NARGS] at hk ⊢; omega
    simp [argvSet, this]
  have h7 : rd (pre ++ t0 :: t1 ++ 0 :: (w ++ u0 :: u1 ++ x :: tl))
      (pre.length + (t0 :: t1).length + (w0 :: w).length) = some u0 :=
    rd_at (pre ++ t0 :: t1 ++ 0 :: w) u0 (u1 ++ x :: tl) _ _ (by simp) (by simp; omega)
  have h8 : skip_nonspace (pre ++ t0 :: t1 ++ 0 :: (w ++ u0 :: u1 ++ x :: tl))
      (pre.length + (t0 :: t1).length + (w0 :: w).length)
      = some (pre.length + (t0 :: t1).length + (w0 :: w).length + (u0 :: u1).length) :=
    scan_at _ (pre ++ t0 :: t1 ++ 0 :: w) (u0 :: u1) x tl _ _ (by simp) (by simp; omega)
      hu.go hx.stop
  have hk' : ¬ (k + 1 ≥ NARGS - 1) := by omega
  simp only [splitStep, h1, hw0, if_false, h2, h3, h4, h5, h62a, afterArg, hk', nextArg, h6, h7,
    h34a, h8]
  simp

theorem step_redir_att (pre g p : List Nat) (w0 : Nat) (w u : List Nat) (x : Nat)
    (tl : List Nat) (A : List Slot) (k : Nat) (o : Option Nat) (d : Bool)
    (hg : (g = [62] ∧ p.head? ≠ some 62) ∨ g = [62, 62])
    (hp : IsTok p) (hw : IsWs (w0 :: w)) (hu : IsTok u)
    (h34 : u.head? ≠ some 34) (hx : IsEnd x)
    (hA : A[k]? = some (Slot.ptr pre.length)) (hk : k < NARGS - 1)
    (hlen : A.length = NARGS) :
    splitStep ⟨pre ++ (g ++ p) ++ w0 :: w ++ u ++ x :: tl, pre.length + (g ++ p).length,
        k, A, o, d⟩ =
      some (Flow.again ⟨pre ++ (g ++ p) ++ 0 :: w ++ u ++ x :: tl,
        pre.length + (g ++ p).length + (w.length + 1) + u.length, k,
        A.set k (Slot.ptr (pre.length + (g ++ p).length + (w.length + 1))),
        some (pre.length + g.length), decide (g = [62, 62]) || d⟩) := by
  obtain ⟨p0, p1, rfl, hp0, -, -⟩ := tok_stop_space hp
  obtain ⟨u0, u1, rfl, hu0, hu0s, hu0stop⟩ := tok_stop_space hu
  have hw0 : w0 ≠ 0 := by
    have h := hw.ne_zero w0 (by simp)
    rintro rfl
    simp at h
  have h1 : rd (pre ++ (g ++ p0 :: p1) ++ w0 :: w ++ u0 :: u1 ++ x :: tl)
      (pre.length + (g ++ p0 :: p1).length) = some w0 :=
    rd_at (pre ++ (g ++ p0 :: p1)) w0 (w ++ u0 :: u1 ++ x :: tl) _ _ (by simp) (by simp)
  have h2 : skip_space (pre ++ (g ++ p0 :: p1) ++ w0 :: w ++ u0 :: u1 ++ x :: tl)
      (pre.length + (g ++ p0 :: p1).length)
      = some (pre.length + (g ++ p0 :: p1).length + (w0 :: w).length) :=
    scan_at _ (pre ++ (g ++ p0 :: p1)) (w0 :: w) u0 (u1 ++ x :: tl) _ _ (by simp) (by simp)
      hw.ne_zero hu0stop
  have h3 : wr (pre ++ (g ++ p0 :: p1) ++ w0 :: w ++ u0 :: u1 ++ x :: tl)
      (pre.length + (g ++ p0 :: p1).length) 0
      = some (pre ++ (g ++ p0 :: p1) ++ 0 :: (w ++ u0 :: u1 ++ x :: tl)) :=
    wr_at (pre ++ (g ++ p0 :: p1)) w0 (w ++ u0 :: u1 ++ x :: tl) _ _ 0 (by simp) (by simp)
  have h4 : argvGet A k = some pre.length := by simp [argvGet, hA]
  have h34a : u0 ≠ 34 := by simpa using h34
  have h6 : argvSet A k (Slot.ptr (pre.length + (g ++ p0 :: p1).length + (w0 :: w).length))
      = some (A.set k (Slot.ptr (pre.length + (g ++ p0 :: p1).length + (w0 :: w).length))) := by
    have : k < A.length := by rw [hlen]; simp [NARGS] at hk ⊢; omega
    simp [argvSet, this]
  have h7 : rd (pre ++ (g ++ p0 :: p1) ++ 0 :: (w ++ u0 :: u1 ++ x :: tl))
      (pre.length + (g ++ p0 :: p1).length + (w0 :: w).length) = some u0 :=
    rd_at (pre ++ (g ++ p0 :: p1) ++ 0 :: w) u0 (u1 ++ x :: tl) _ _ (by simp) (by simp; omega)
  have h8 : skip_nonspace (pre ++ (g ++ p0 :: p1) ++ 0 :: (w ++ u0 :: u1 ++ x :: tl))
      (pre.length + (g ++ p0 :: p1).length + (w0 :: w).length)
      = some (pre.length + (g ++ p0 :: p1).length + (w0 :: w).length + (u0 :: u1).length) :=
    scan_at _ (pre ++ (g ++ p0 :: p1) ++ 0 :: w) (u0 :: u1) x tl _ _ (by simp) (by simp; omega)
      hu.go hx.stop
  have hk' : ¬ (k ≥ NARGS - 1) := by omega
  rcases hg with ⟨rfl, hp62⟩ | rfl
  · have hp62a : p0 ≠ 62 := by simpa using hp62
    have h5 : rd (pre ++ ([62] ++ p0 :: p1) ++ 0 :: (w ++ u0 :: u1 ++ x :: tl)) pre.length
        = some 62 :=
      rd_at pre 62 (p0 :: p1 ++ 0 :: (w ++ u0 :: u1 ++ x :: tl)) _ _ (by simp) rfl
    have h5a : rd (pre ++ ([62] ++ p0 :: p1) ++ 0 :: (w ++ u0 :: u1 ++ x :: tl))
        (pre.length + 1) = some p0 :=
      rd_at (pre ++ [62]) p0 (p1 ++ 0 :: (w ++ u0 :: u1 ++ x :: tl)) _ _ (by simp) (by simp)
    simp only [splitStep, h1, hw0, if_false, h2, h3, h4, h5, h5a, hp62a, hp0, afterArg, hk',
      nextArg, h6, h7, h34a, h8, if_true, ne_eq, not_false_eq_true]
    simp
  · have h5 : rd (pre ++ ([62, 62] ++ p0 :: p1) ++ 0 :: (w ++ u0 :: u1 ++ x :: tl)) pre.length
        = some 62 :=
      rd_at pre 62 (62 :: p0 :: p1 ++ 0 :: (w ++ u0 :: u1 ++ x :: tl)) _ _ (by simp) rfl
    have h5a : rd (pre ++ ([62, 62] ++ p0 :: p1) ++ 0 :: (w ++ u0 :: u1 ++ x :: tl))
        (pre.length + 1) = some 62 :=
      rd_at (pre ++ [62]) 62 (p0 :: p1 ++ 0 :: (w ++ u0 :: u1 ++ x :: tl)) _ _ (by simp)
        (by simp)
    have h5b : rd (pre ++ ([62, 62] ++ p0 :: p1) ++ 0 :: (w ++ u0 :: u1 ++ x :: tl))
        (pre.length + 2) = some p0 :=
      rd_at (pre ++ [62, 62]) p0 (p1 ++ 0 :: (w ++ u0 :: u1 ++ x :: tl)) _ _ (by simp)
        (by simp)
    simp only [splitStep, h1, hw0, if_false, h2, h3, h4, h5, h5a, h5b, hp0, afterArg, hk',
      nextArg, h6, h7, h34a, h8, if_true, ne_eq, not_false_eq_true]
    simp

theorem step_redir_sep_last (pre g : List Nat) (w0 : Nat) (w u tl : List Nat)
    (A : List Slot) (k : Nat) (o : Option Nat) (d : Bool)
    (hg : g = [62] ∨ g = [62, 62]) (hw : IsWs (w0 :: w)) (hu : IsTok u)
    (hA : A[k]? = some (Slot.ptr pre.length)) :
    splitStep ⟨pre ++ g ++ w0 :: w ++ u ++ 0 :: tl, pre.length + g.length, k, A, o, d⟩ =
      some (Flow.done ⟨pre ++ g ++ 0 :: w ++ u ++ 0 :: tl,
        pre.length + g.length + (w.length + 1) + u.length, k, A,
        some (pre.length + g.length + (w.length + 1)), decide (g = [62, 62]) || d⟩) := by
  obtain ⟨u0, u1, rfl, hu0, hu0s, hu0stop⟩ := tok_stop_space hu
  have hw0 : w0 ≠ 0 := by
    have h := hw.ne_zero w0 (by simp)
    rintro rfl
    simp at h
  have h1 : rd (pre ++ g ++ w0 :: w ++ u0 :: u1 ++ 0 :: tl) (pre.length + g.length) = some w0 :=
    rd_at (pre ++ g) w0 (w ++ u0 :: u1 ++ 0 :: tl) _ _ (by simp) (by simp)
  have h2 : skip_space (pre ++ g ++ w0 :: w ++ u0 :: u1 ++ 0 :: tl) (pre.length + g.length)
      = some (pre.length + g.length + (w0 :: w).length) :=
    scan_at _ (pre ++ g) (w0 :: w) u0 (u1 ++ 0 :: tl) _ _ (by simp) (by simp)
      hw.ne_zero hu0stop
  have h3 : wr (pre ++ g ++ w0 :: w ++ u0 :: u1 ++ 0 :: tl) (pre.length + g.length) 0
      = some (pre ++ g ++ 0 :: (w ++ u0 :: u1 ++ 0 :: tl)) :=
    wr_at (pre ++ g) w0 (w ++ u0 :: u1 ++ 0 :: tl) _ _ 0 (by simp) (by simp)
  have h4 : argvGet A k = some pre.length := by simp [argvGet, hA]
  have h8 : skip_nonspace (pre ++ g ++ 0 :: (w ++ u0 :: u1 ++ 0 :: tl))
      (pre.length + g.length + (w0 :: w).length)
      = some (pre.length + g.length + (w0 :: w).length + (u0 :: u1).length) :=
    scan_at _ (pre ++ g ++ 0 :: w) (u0 :: u1) 0 tl _ _ (by simp) (by simp; omega)
      hu.go (by rfl)
  have h9 : rd (pre ++ g ++ 0 :: (w ++ u0 :: u1 ++ 0 :: tl))
      (pre.length + g.length + (w0 :: w).length + (u0 :: u1).length) = some 0 :=
    rd_at (pre ++ g ++ 0 :: w ++ u0 :: u1) 0 tl _ _ (by simp) (by simp; omega)
  rcases hg with rfl | rfl
  · have h5 : rd (pre ++ [62] ++ 0 :: (w ++ u0 :: u1 ++ 0 :: tl)) pre.length = some 62 :=
      rd_at pre 62 (0 :: (w ++ u0 :: u1 ++ 0 :: tl)) _ _ (by simp) rfl
    have h5a : rd (pre ++ [62] ++ 0 :: (w ++ u0 :: u1 ++ 0 :: tl)) (pre.length + 1) = some 0 :=
      rd_at (pre ++ [62]) 0 (w ++ u0 :: u1 ++ 0 :: tl) _ _ (by simp) (by simp)
    have h062 : (0 : Nat) ≠ 62 := by decide
    simp only [splitStep, h1, hw0, if_false, h2, h3, h4, h5, h5a, h062, h8, h9, if_true, ne_eq,
      not_false_eq_true]
    simp
  · have h5 : rd (pre ++ [62, 62] ++ 0 :: (w ++ u0 :: u1 ++ 0 :: tl)) pre.length = some 62 :=
      rd_at pre 62 (62 :: 0 :: (w ++ u0 :: u1 ++ 0 :: tl)) _ _ (by simp) rfl
    have h5a : rd (pre ++ [62, 62] ++ 0 :: (w ++ u0 :: u1 ++ 0 :: tl)) (pre.length + 1)
        = some 62 :=
      rd_at (pre ++ [62]) 62 (0 :: (w ++ u0 :: u1 ++ 0 :: tl)) _ _ (by simp) (by simp)
    have h5b : rd (pre ++ [62, 62] ++ 0 :: (w ++ u0 :: u1 ++ 0 :: tl)) (pre.length + 2)
        = some 0 :=
      rd_at (pre ++ [62, 62]) 0 (w ++ u0 :: u1 ++ 0 :: tl) _ _ (by simp) (by simp)
    simp only [splitStep, h1, hw0, if_false, h2, h3, h4, h5, h5a, h5b, h8, h9, if_true, ne_eq,
      not_false_eq_true]
    simp

theorem step_redir_sep_more (pre g : List Nat) (w0 : Nat) (w u : List Nat) (v0 : Nat)
    (v y : List Nat) (x : Nat) (tl : List Nat)
    (A : List Slot) (k : Nat) (o : Option Nat) (d : Bool)
    (hg : g = [62] ∨ g = [62, 62]) (hw : IsWs (w0 :: w)) (hu : IsTok u)
    (hv : IsWs (v0 :: v)) (hy : IsTok y) (h34 : y.head? ≠ some 34) (hx : IsEnd x)
    (hA : A[k]? = some (Slot.ptr pre.length)) (hk : k < NARGS - 1)
    (hlen : A.length = NARGS) :
    splitStep ⟨pre ++ g ++ w0 :: w ++ u ++ v0 :: v ++ y ++ x :: tl, pre.length + g.length,
        k, A, o, d⟩ =
      some (Flow.again ⟨pre ++ g ++ 0 :: w ++ u ++ 0 :: v ++ y ++ x :: tl,
        pre.length + g.length + (w.length + 1) + u.length + (v.length + 1) + y.length, k,
        A.set k (Slot.ptr (pre.length + g.length + (w.length + 1) + u.length + (v.length + 1))),
        some (pre.length + g.length + (w.length + 1)), decide (g = [62, 62]) || d⟩) := by
  obtain ⟨u0, u1, rfl, hu0, hu0s, hu0stop⟩ := tok_stop_space hu
  obtain ⟨y0, y1, rfl, hy0, hy0s, hy0stop⟩ := tok_stop_space hy
  have hw0 : w0 ≠ 0 := by
    have h := hw.ne_zero w0 (by simp)
    rintro rfl
    simp at h
  have hv0 : v0 ≠ 0 := by
    have h := hv.ne_zero v0 (by simp)
    rintro rfl
    simp at h
  have hv0e : IsEnd v0 := Or.inr (hv.2 v0 (by simp))
  have h1 : rd (pre ++ g ++ w0 :: w ++ u0 :: u1 ++ v0 :: v ++ y0 :: y1 ++ x :: tl)
      (pre.length + g.length) = some w0 :=
    rd_at (pre ++ g) w0 (w ++ u0 :: u1 ++ v0 :: v ++ y0 :: y1 ++ x :: tl) _ _ (by simp) (by simp)
  have h2 : skip_space (pre ++ g ++ w0 :: w ++ u0 :: u1 ++ v0 :: v ++ y0 :: y1 ++ x :: tl)
      (pre.length + g.length) = some (pre.length + g.length + (w0 :: w).length) :=
    scan_at _ (pre ++ g) (w0 :: w) u0 (u1 ++ v0 :: v ++ y0 :: y1 ++ x :: tl) _ _ (by simp)
      (by simp) hw.ne_zero hu0stop
  have h3 : wr (pre ++ g ++ w0 :: w ++ u0 :: u1 ++ v0 :: v ++ y0 :: y1 ++ x :: tl)
      (pre.length + g.length) 0
      = some (pre ++ g ++ 0 :: (w ++ u0 :: u1 ++ v0 :: v ++ y0 :: y1 ++ x :: tl)) :=
    wr_at (pre ++ g) w0 (w ++ u0 :: u1 ++ v0 :: v ++ y0 :: y1 ++ x :: tl) _ _ 0 (by simp)
      (by simp)
  have h4 : argvGet A k = some pre.length := by simp [argvGet, hA]
  have h8 : skip_nonspace (pre ++ g ++ 0 :: (w ++ u0 :: u1 ++ v0 :: v ++ y0 :: y1 ++ x :: tl))
      (pre.length + g.length + (w0 :: w).length)
      = some (pre.length + g.length + (w0 :: w).length + (u0 :: u1).length) :=
    scan_at _ (pre ++ g ++ 0 :: w) (u0 :: u1) v0 (v ++ y0 :: y1 ++ x :: tl) _ _ (by simp)
      (by simp; omega) hu.go hv0e.stop
  have h9 : rd (pre ++ g ++ 0 :: (w ++ u0 :: u1 ++ v0 :: v ++ y0 :: y1 ++ x :: tl))
      (pre.length + g.length + (w0 :: w).length + (u0 :: u1).length) = some v0 :=
    rd_at (pre ++ g ++ 0 :: w ++ u0 :: u1) v0 (v ++ y0 :: y1 ++ x :: tl) _ _ (by simp)
      (by simp; omega)
  have h10 : skip_space (pre ++ g ++ 0 :: (w ++ u0 :: u1 ++ v0 :: v ++ y0 :: y1 ++ x :: tl))
      (pre.length + g.length + (w0 :: w).length + (u0 :: u1).length)
      = some (pre.length + g.length + (w0 :: w).length + (u0 :: u1).length + (v0 :: v).length) :=
    scan_at _ (pre ++ g ++ 0 :: w ++ u0 :: u1) (v0 :: v) y0 (y1 ++ x :: tl) _ _ (by simp)
      (by simp; omega) hv.ne_zero hy0stop
  have h11 : wr (pre ++ g ++ 0 :: (w ++ u0 :: u1 ++ v0 :: v ++ y0 :: y1 ++ x :: tl))
      (pre.length + g.length + (w0 :: w).length + (u0 :: u1).length) 0
      = some (pre ++ g ++ 0 :: w ++ u0 :: u1 ++ 0 :: (v ++ y0 :: y1 ++ x :: tl)) :=
    wr_at (pre ++ g ++ 0 :: w ++ u0 :: u1) v0 (v ++ y0 :: y1 ++ x :: tl) _ _ 0 (by simp)
      (by simp; omega)
  have h12 : rd (pre ++ g ++ 0 :: w ++ u0 :: u1 ++ 0 :: (v ++ y0 :: y1 ++ x :: tl))
      (pre.length + g.length + (w0 :: w).length + (u0 :: u1).length + (v0 :: v).length)
      = some y0 :=
    rd_at (pre ++ g ++ 0 :: w ++ u0 :: u1 ++ 0 :: v) y0 (y1 ++ x :: tl) _ _ (by simp)
      (by simp; omega)
  have h13 : skip_nonspace (pre ++ g ++ 0 :: w ++ u0 :: u1 ++ 0 :: (v ++ y0 :: y1 ++ x :: tl))
      (pre.length + g.length + (w0 :: w).length + (u0 :: u1).length + (v0 :: v).length)
      = some (pre.length + g.length + (w0 :: w).length + (u0 :: u1).length + (v0 :: v).length
          + (y0 :: y1).length) :=
    scan_at _ (pre ++ g ++ 0 :: w ++ u0 :: u1 ++ 0 :: v) (y0 :: y1) x tl _ _ (by simp)
      (by simp; omega) hy.go hx.stop
  have h34a : y0 ≠ 34 := by simpa using h34
  have h6 : argvSet A k (Slot.ptr (pre.length + g.length + (w0 :: w).length + (u0 :: u1).length
        + (v0 :: v).length))
      = some (A.set k (Slot.ptr (pre.length + g.length + (w0 :: w).length + (u0 :: u1).length
        + (v0 :: v).length))) := by
    have : k < A.length := by rw [hlen]; simp [NARGS] at hk ⊢; omega
    simp [argvSet, this]
  have hk' : ¬ (k ≥ NARGS - 1) := by omega
  rcases hg with rfl | rfl
  · have h5 : rd (pre ++ [62] ++ 0 :: (w ++ u0 :: u1 ++ v0 :: v ++ y0 :: y1 ++ x :: tl))
        pre.length = some 62 :=
      rd_at pre 62 (0 :: (w ++ u0 :: u1 ++ v0 :: v ++ y0 :: y1 ++ x :: tl)) _ _ (by simp) rfl
    have h5a : rd (pre ++ [62] ++ 0 :: (w ++ u0 :: u1 ++ v0 :: v ++ y0 :: y1 ++ x :: tl))
        (pre.length + 1) = some 0 :=
      rd_at (pre ++ [62]) 0 (w ++ u0 :: u1 ++ v0 :: v ++ y0 :: y1 ++ x :: tl) _ _ (by simp)
        (by simp)
    have h062 : (0 : Nat) ≠ 62 := by decide
    simp only [splitStep, h1, hw0, hv0, hy0, if_false, h2, h3, h4, h5, h5a, h062, h8, h9, h10,
      h11, h12, h13, afterArg, hk', nextArg, h6, h34a, if_true, ne_eq, not_false_eq_true]
    simp
  · have h5 : rd (pre ++ [62, 62] ++ 0 :: (w ++ u0 :: u1 ++ v0 :: v ++ y0 :: y1 ++ x :: tl))
        pre.length = some 62 :=
      rd_at pre 62 (62 :: 0 :: (w ++ u0 :: u1 ++ v0 :: v ++ y0 :: y1 ++ x :: tl)) _ _ (by simp)
        rfl
    have h5a : rd (pre ++ [62, 62] ++ 0 :: (w ++ u0 :: u1 ++ v0 :: v ++ y0 :: y1 ++ x :: tl))
        (pre.length + 1) = some 62 :=
      rd_at (pre ++ [62]) 62 (0 :: (w ++ u0 :: u1 ++ v0 :: v ++ y0 :: y1 ++ x :: tl)) _ _
        (by simp) (by simp)
    have h5b : rd (pre ++ [62, 62] ++ 0 :: (w ++ u0 :: u1 ++ v0 :: v ++ y0 :: y1 ++ x :: tl))
        (pre.length + 2) = some 0 :=
      rd_at (pre ++ [62, 62]) 0 (w ++ u0 :: u1 ++ v0 :: v ++ y0 :: y1 ++ x :: tl) _ _ (by simp)
        (by simp)
    simp only [splitStep, h1, hw0, hv0, hy0, if_false, h2, h3, h4, h5, h5a, h5b, h8, h9, h10,
      h11, h12, h13, afterArg, hk', nextArg, h6, h34a, if_true, ne_eq, not_false_eq_true]
    simp

/-! ## The splitting loop on a line without quoted strings -/

theorem render_head (rest : List (List Nat × List Nat)) (junk : List Nat)
    (hv : ValidToks rest) : ∃ x tl, render rest ++ 0 :: junk = x :: tl ∧ IsEnd x := by
  cases rest with
  | nil => exact ⟨0, junk, rfl, Or.inl rfl⟩
  | cons wt rest =>
    obtain ⟨hw, -, -⟩ := hv wt (by simp)
    obtain ⟨w, t⟩ := wt
    cases w with
    | nil => exact absurd rfl hw.1
    | cons w0 w =>
      exact ⟨w0, w ++ t ++ render rest ++ 0 :: junk, by simp [render], Or.inr (hw.2 w0 (by simp))⟩

theorem post_done (pre t junk : List Nat) (k : Nat) (A : List Slot) (o : Option Nat) (d : Bool)
    (ht : IsTok t) (hlen : A.length = NARGS) (hk : k < NARGS - 1)
    (hA : A[k]? = some (Slot.ptr pre.length)) :
    LoopPost pre k A o d ⟨[t], none, false⟩
      ⟨pre ++ t ++ 0 :: junk, pre.length + t.length, k + 1, A, o, d⟩ := by
  refine ⟨⟨t ++ 0 :: junk, by simp⟩, hlen, fun j _ => rfl, rfl, ?_, ?_, fun _ => rfl, ?_, ?_⟩
  · simp [NARGS] at hk ⊢
    omega
  · have h1 : argvGet A k = some pre.length := by simp [argvGet, hA]
    have h2 : cstr (pre ++ t ++ 0 :: junk) pre.length = some t :=
      cstr_at pre t junk _ _ rfl rfl ht.nz
    simp only [List.length_cons, List.length_nil, argStrings, h1, h2]
  · intro path h
    cases h
  · simp

theorem post_arg (pre t w tl0 : List Nat) (k : Nat) (A : List Slot) (v : Slot)
    (o : Option Nat) (d : Bool) (r : TokOut) (fin : Split) (ht : IsTok t)
    (hA : A[k]? = some (Slot.ptr pre.length))
    (h : LoopPost (pre ++ t ++ 0 :: w ++ tl0) (k + 1) (A.set (k + 1) v) o d r fin) :
    LoopPost pre k A o d ⟨t :: r.args, r.redir, r.app⟩ fin := by
  obtain ⟨⟨tl, hl⟩, hlen, hfr, hc, hlt, hargs, hr1, hr2, happ⟩ := h
  have hAk : fin.argv[k]? = some (Slot.ptr pre.length) := by
    rw [hfr k (Nat.lt_succ_self k), List.getElem?_set_ne (by omega)]
    exact hA
  refine ⟨⟨t ++ 0 :: w ++ tl0 ++ tl, by simp [hl]⟩, hlen, ?_, ?_, hlt, ?_, hr1, hr2, happ⟩
  · intro j hj
    rw [hfr j (by omega), List.getElem?_set_ne (by omega)]
  · simp [hc]
    omega
  · have h1 : argvGet fin.argv k = some pre.length := by simp [argvGet, hAk]
    have h2 : cstr fin.line pre.length = some t :=
      cstr_at pre t (w ++ tl0 ++ tl) _ _ (by simp [hl]) rfl ht.nz
    simp only [List.length_cons, argStrings, h1, h2, hargs]

theorem post_redir (pre g p tl0 : List Nat) (k : Nat) (A : List Slot) (v : Slot)
    (o : Option Nat) (d dbl : Bool) (r : TokOut) (fin : Split) (hp : IsTok p)
    (h : LoopPost (pre ++ g ++ p ++ 0 :: tl0) k (A.set k v) (some (pre.length + g.length))
      (dbl || d) r fin) :
    LoopPost pre k A o d
      ⟨r.args, (match r.redir with | some q => some q | none => some p), dbl || r.app⟩ fin := by
  obtain ⟨⟨tl, hl⟩, hlen, hfr, hc, hlt, hargs, hr1, hr2, happ⟩ := h
  refine ⟨⟨g ++ p ++ 0 :: tl0 ++ tl, by simp [hl]⟩, hlen, ?_, hc, hlt, hargs, ?_, ?_, ?_⟩
  · intro j hj
    rw [hfr j hj, List.getElem?_set_ne (by omega)]
  · intro hnone
    cases hr : r.redir <;> simp [hr] at hnone
  · intro path hpath
    cases hr : r.redir with
    | some q =>
      simp only [hr] at hpath
      cases hpath
      exact hr2 _ hr
    | none =>
      simp only [hr] at hpath
      cases hpath
      refine ⟨pre.length + g.length, hr1 hr, ?_⟩
      exact cstr_at (pre ++ g) p (tl0 ++ tl) _ _ (by simp [hl]) (by simp) hp.nz
  · rw [happ]
    cases dbl <;> cases d <;> cases r.app <;> rfl

theorem loop_last (pre t junk : List Nat) (k : Nat) (A : List Slot) (o : Option Nat) (d : Bool)
    (fuel : Nat) (ht : IsTok t) (hlen : A.length = NARGS) (hk : k < NARGS - 1)
    (hA : A[k]? = some (Slot.ptr pre.length)) :
    ∃ fin, splitLoop (fuel + 1) ⟨pre ++ t ++ 0 :: junk, pre.length + t.length, k, A, o, d⟩
        = some fin ∧ LoopPost pre k A o d ⟨[t], none, false⟩ fin := by
  have h1 : rd (pre ++ t ++ 0 :: junk) (pre.length + t.length) = some 0 :=
    rd_at (pre ++ t) 0 junk _ _ rfl (by simp)
  refine ⟨_, ?_, post_done pre t junk k A o d ht hlen hk hA⟩
  rw [splitLoop, step_done _ h1]

theorem post_sep_last (pre g w u tl : List Nat) (k : Nat) (A : List Slot) (o : Option Nat)
    (d dbl : Bool) (hu : IsTok u) (hlen : A.length = NARGS) (hk : k < NARGS - 1) :
    LoopPost pre k A o d ⟨[], some u, dbl || false⟩
      ⟨pre ++ g ++ 0 :: w ++ u ++ 0 :: tl, pre.length + g.length + (w.length + 1) + u.length,
        k, A, some (pre.length + g.length + (w.length + 1)), dbl || d⟩ := by
  refine ⟨⟨g ++ 0 :: w ++ u ++ 0 :: tl, by simp⟩, hlen, fun j _ => rfl, rfl, ?_, rfl,
    ?_, ?_, ?_⟩
  · simp [NARGS] at hk ⊢
    omega
  · intro h
    cases h
  · intro path hpath
    cases hpath
    exact ⟨_, rfl, cstr_at (pre ++ g ++ 0 :: w) _ tl _ _ (by simp) (by simp; omega) hu.nz⟩
  · simp

theorem tok_tail {c : Nat} {t : List Nat} (ht : IsTok (c :: t)) (hne : t ≠ []) : IsTok t :=
  ⟨hne, fun x hx => ht.2 x (by simp [hx])⟩

theorem splitLoop_tokens (n : Nat) :
    ∀ (rest : List (List Nat × List Nat)), rest.length ≤ n →
    ∀ (t pre junk line : List Nat) (cp k : Nat) (A : List Slot) (o : Option Nat) (d : Bool)
      (fuel : Nat) (r : TokOut),
      IsTok t → ValidToks rest → line = pre ++ t ++ render rest ++ 0 :: junk →
      cp = pre.length + t.length → A.length = NARGS → k < NARGS - 1 →
      A[k]? = some (Slot.ptr pre.length) → rest.length < fuel →
      splitSpec k (t :: rest.map Prod.snd) = some r →
      ∃ fin, splitLoop fuel ⟨line, cp, k, A, o, d⟩ = some fin ∧ LoopPost pre k A o d r fin := by
  induction n with
  | zero =>
    intro rest hn t pre junk line cp k A o d fuel r ht _ hl hcp hlen hk hA hfuel hspec
    have hr : rest = [] := List.length_eq_zero.mp (Nat.le_zero.mp hn)
    subst hr
    obtain ⟨f, rfl⟩ : ∃ f, fuel = f + 1 := ⟨fuel - 1, by simp at hfuel; omega⟩
    simp only [List.map_nil, splitSpec, Option.some.injEq] at hspec
    subst hspec hl hcp
    simpa [render] using loop_last pre t junk k A o d f ht hlen hk hA
  | succ n ih =>
    intro rest hn t pre junk line cp k A o d fuel r ht hv hl hcp hlen hk hA hfuel hspec
    cases rest with
    | nil =>
      obtain ⟨f, rfl⟩ : ∃ f, fuel = f + 1 := ⟨fuel - 1, by simp at hfuel; omega⟩
      simp only [List.map_nil, splitSpec, Option.some.injEq] at hspec
      subst hspec hl hcp
      simpa [render] using loop_last pre t junk k A o d f ht hlen hk hA
    | cons wu rest =>
      obtain ⟨w, u⟩ := wu
      obtain ⟨hw, hu, hu34⟩ := hv (w, u) (by simp)
      have hv1 : ValidToks rest := fun wt h => hv wt (by simp [h])
      have hn1 : rest.length ≤ n := by simpa using hn
      obtain ⟨f, rfl⟩ : ∃ f, fuel = f + 1 := ⟨fuel - 1, by simp at hfuel; omega⟩
      have hf1 : rest.length < f := by simpa using hfuel
      obtain ⟨x, tl, hxtl, hx⟩ := render_head rest junk hv1
      cases w with
      | nil => exact absurd rfl hw.1
      | cons w0 w =>
      have hline : line = pre ++ t ++ w0 :: w ++ u ++ x :: tl := by
        rw [hl, ← hxtl]
        simp [render]
      simp only [List.map_cons, splitSpec] at hspec
      by_cases h62 : t.head? = some 62
      · -- a token that begins with '>'
        have hk19 : ¬ (k ≥ NARGS - 1) := by omega
        -- the directive carries its target
        have att : ∀ (g p : List Nat) (r1 : TokOut), t = g ++ p →
            ((g = [62] ∧ p.head? ≠ some 62) ∨ g = [62, 62]) → IsTok p →
            splitSpec k (u :: rest.map Prod.snd) = some r1 →
            r = ⟨r1.args, (match r1.redir with | some q => some q | none => some p),
                  decide (g = [62, 62]) || r1.app⟩ →
            ∃ fin, splitLoop (f + 1) ⟨line, cp, k, A, o, d⟩ = some fin ∧
              LoopPost pre k A o d r fin := by
          intro g p r1 htg hg hp hs hr
          subst htg hr
          have hstep := step_redir_att pre g p w0 w u x tl A k o d hg hp hw hu hu34 hx hA
            (by omega) hlen
          obtain ⟨fin, hfin, hpost⟩ := ih rest hn1 u (pre ++ (g ++ p) ++ 0 :: w) junk
            (pre ++ (g ++ p) ++ 0 :: w ++ u ++ x :: tl)
            (pre.length + (g ++ p).length + (w.length + 1) + u.length) k
            (A.set k (Slot.ptr (pre.length + (g ++ p).length + (w.length + 1))))
            (some (pre.length + g.length)) (decide (g = [62, 62]) || d) f r1
            hu hv1 (by rw [← hxtl]; simp) (by simp; omega) (by simpa using hlen) hk
            (by
              rw [List.getElem?_set_self (by rw [hlen]; simp [NARGS] at hk ⊢; omega)]
              simp; omega) hf1 hs
          refine ⟨fin, ?_, ?_⟩
          · rw [splitLoop, hline, hcp, hstep]
            exact hfin
          · exact post_redir pre g p w k A _ o d _ r1 fin hp (by simpa using hpost)
        -- the directive is followed by its target
        have sep : ∀ (r1 : TokOut), (t = [62] ∨ t = [62, 62]) →
            splitSpec k (rest.map Prod.snd) = some r1 →
            r = ⟨r1.args, (match r1.redir with | some q => some q | none => some u),
                  decide (t = [62, 62]) || r1.app⟩ →
            ∃ fin, splitLoop (f + 1) ⟨line, cp, k, A, o, d⟩ = some fin ∧
              LoopPost pre k A o d r fin := by
          intro r1 hg hs hr
          subst hr
          cases rest with
          | nil =>
            simp only [List.map_nil, splitSpec, Option.some.injEq] at hs
            subst hs
            have hstep := step_redir_sep_last pre t w0 w u junk A k o d hg hw hu hA
            refine ⟨⟨pre ++ t ++ 0 :: w ++ u ++ 0 :: junk,
              pre.length + t.length + (w.length + 1) + u.length, k, A,
              some (pre.length + t.length + (w.length + 1)), decide (t = [62, 62]) || d⟩,
              ?_, ?_⟩
            · rw [splitLoop, hl, hcp]
              simp only [render, List.append_nil]
              rw [show pre ++ t ++ ((w0 :: w, u).1 ++ (w0 :: w, u).2) ++ 0 :: junk
                  = pre ++ t ++ w0 :: w ++ u ++ 0 :: junk by simp, hstep]
            · exact post_sep_last pre t w u junk k A o d _ hu hlen hk
          | cons vy rest2 =>
            obtain ⟨v, y⟩ := vy
            obtain ⟨hvw, hy, hy34⟩ := hv1 (v, y) (by simp)
            have hv2 : ValidToks rest2 := fun wt h => hv1 wt (by simp [h])
            obtain ⟨x2, tl2, hxtl2, hx2⟩ := render_head rest2 junk hv2
            cases v with
            | nil => exact absurd rfl hvw.1
            | cons v0 v =>
            have hline2 : line = pre ++ t ++ w0 :: w ++ u ++ v0 :: v ++ y ++ x2 :: tl2 := by
              rw [hl, ← hxtl2]
              simp [render]
            have hstep := step_redir_sep_more pre t w0 w u v0 v y x2 tl2 A k o d hg hw hu hvw hy
              hy34 hx2 hA hk hlen
            obtain ⟨fin, hfin, hpost⟩ := ih rest2 (by simp at hn1; omega) y
              (pre ++ t ++ 0 :: w ++ u ++ 0 :: v) junk
              (pre ++ t ++ 0 :: w ++ u ++ 0 :: v ++ y ++ x2 :: tl2)
              (pre.length + t.length + (w.length + 1) + u.length + (v.length + 1) + y.length) k
              (A.set k (Slot.ptr
                (pre.length + t.length + (w.length + 1) + u.length + (v.length + 1))))
              (some (pre.length + t.length + (w.length + 1))) (decide (t = [62, 62]) || d) f r1
              hy hv2 (by rw [← hxtl2]; simp) (by simp; omega) (by simpa using hlen) hk
              (by
                rw [List.getElem?_set_self (by rw [hlen]; simp [NARGS] at hk ⊢; omega)]
                simp; omega) (by simp at hf1; omega) (by simpa using hs)
            refine ⟨fin, ?_, ?_⟩
            · rw [splitLoop, hline2, hcp, hstep]
              exact hfin
            · have e : pre.length + t.length + (w.length + 1)
                  = pre.length + (t ++ 0 :: w).length := by simp; omega
              rw [e] at hpost
              exact post_redir pre (t ++ 0 :: w) u v k A _ o d _ r1 fin hu
                (by simpa using hpost)
        rw [if_pos h62] at hspec
        obtain ⟨t0, t1, rfl, -, -, -⟩ := tok_stop_space ht
        have ht0 : t0 = 62 := by simpa using h62
        subst ht0
        cases t1 with
        | nil =>
          cases hs : splitSpec k (rest.map Prod.snd) with
          | none => simp [hs] at hspec
          | some r1 =>
            simp [hs] at hspec
            exact sep r1 (Or.inl rfl) hs (by rw [← hspec]; simp)
        | cons c t2 =>
          by_cases hc : c = 62
          · subst hc
            cases t2 with
            | nil =>
              cases hs : splitSpec k (rest.map Prod.snd) with
              | none => simp [hs] at hspec
              | some r1 =>
                simp [hs] at hspec
                exact sep r1 (Or.inr rfl) hs (by rw [← hspec]; simp)
            | cons c2 t3 =>
              have hp : IsTok (c2 :: t3) :=
                tok_tail (tok_tail ht (by simp)) (by simp)
              cases hs : splitSpec k (u :: rest.map Prod.snd) with
              | none => simp [hs] at hspec
              | some r1 =>
                simp [hs] at hspec
                exact att [62, 62] (c2 :: t3) r1 rfl (Or.inr rfl) hp hs
                  (by rw [← hspec]; simp)
          · have hp : IsTok (c :: t2) := tok_tail ht (by simp)
            cases hs : splitSpec k (u :: rest.map Prod.snd) with
            | none => simp [hs, hc] at hspec
            | some r1 =>
              simp [hs, hc] at hspec
              exact att [62] (c :: t2) r1 rfl (Or.inl ⟨rfl, by simpa using hc⟩) hp hs
                (by rw [← hspec]; simp [hc])
      · -- an argument
        rw [if_neg h62] at hspec
        by_cases hk1 : k + 1 ≥ NARGS - 1
        · rw [if_pos hk1] at hspec
          cases hspec
        · rw [if_neg hk1] at hspec
          cases hs : splitSpec (k + 1) (u :: rest.map Prod.snd) with
          | none => rw [hs] at hspec; cases hspec
          | some r1 =>
            rw [hs] at hspec
            simp only [Option.some.injEq] at hspec
            subst hspec
            have hstep := step_arg pre t w0 w u x tl A k o d ht h62 hw hu hu34 hx hA
              (by omega) hlen
            obtain ⟨fin, hfin, hpost⟩ := ih rest hn1 u (pre ++ t ++ 0 :: w) junk
              (pre ++ t ++ 0 :: w ++ u ++ x :: tl)
              (pre.length + t.length + (w.length + 1) + u.length) (k + 1)
              (A.set (k + 1) (Slot.ptr (pre.length + t.length + (w.length + 1)))) o d f r1
              hu hv1 (by rw [← hxtl]; simp) (by simp; omega) (by simpa using hlen) (by omega)
              (by
                rw [List.getElem?_set_self (by rw [hlen]; simp [NARGS] at hk1 ⊢; omega)]
                simp; omega) hf1 hs
            refine ⟨fin, ?_, ?_⟩
            · rw [splitLoop, hline, hcp, hstep]
              exact hfin
            · have := post_arg pre t w [] k A _ o d r1 fin ht hA (by simpa using hpost)
              exact this

/-! ## The command lookup -/

theorem cmd_test (tl : List Nat) (name : List Nat) (h0 : ∀ c ∈ name, c ≠ 0) :
    ∀ s : List Nat,
      (strncmp_eq (s ++ 0 :: tl) name = some false ∧
        (name ++ [32]).isPrefixOf (s ++ 0 :: tl) = false) ∨
      (strncmp_eq (s ++ 0 :: tl) name = some true ∧
        ∃ c, (s ++ 0 :: tl)[name.length]? = some c ∧
          (name ++ [32]).isPrefixOf (s ++ 0 :: tl) = decide (c = 32)) := by
  induction name with
  | nil =>
    intro s
    right
    refine ⟨by simp [strncmp_eq], ?_⟩
    cases s with
    | nil => exact ⟨0, by simp, by simp [List.isPrefixOf]⟩
    | cons x s =>
      refine ⟨x, by simp, ?_⟩
      by_cases hx : x = 32
      · subst hx
        simp [List.isPrefixOf]
      · have hx' : ¬ (32 = x) := fun h => hx h.symm
        simp [List.isPrefixOf, hx, hx']
  | cons c name ih =>
    intro s
    have hc : c ≠ 0 := h0 c (by simp)
    have h1 : ∀ y ∈ name, y ≠ 0 := fun y hy => h0 y (by simp [hy])
    cases s with
    | nil =>
      left
      have : ¬ (0 = c) := fun h => hc h.symm
      simp [strncmp_eq, List.isPrefixOf, this, hc]
    | cons x s =>
      by_cases hx : x = c
      · subst hx
        rcases ih h1 s with ⟨ha, hb⟩ | ⟨ha, c1, hb, hc1⟩
        · left
          simp [strncmp_eq, List.isPrefixOf, hc, ha, hb]
        · right
          refine ⟨by simp [strncmp_eq, hc, ha], c1, by simpa using hb, ?_⟩
          simpa [List.isPrefixOf] using hc1
      · left
        have : ¬ (c = x) := fun h => hx h.symm
        simp [strncmp_eq, List.isPrefixOf, hx, this]

theorem findBuiltin_eq (line : List Nat) (cp : Nat) (s tl : List Nat)
    (hl : line.drop cp = s ++ 0 :: tl) (cmds : List (List Nat))
    (h0 : ∀ name ∈ cmds, ∀ c ∈ name, c ≠ 0) (i : Nat) :
    findBuiltin line cp cmds i
      = some (cmds.findIdx? (fun name => (name ++ [32]).isPrefixOf (line.drop cp)) i) := by
  induction cmds generalizing i with
  | nil => simp [findBuiltin, List.findIdx?]
  | cons name cmds ih =>
    have h1 : ∀ nm ∈ cmds, ∀ c ∈ nm, c ≠ 0 := fun nm h => h0 nm (by simp [h])
    have hrd : rd line (cp + name.length) = (s ++ 0 :: tl)[name.length]? := by
      rw [rd, ← hl, List.getElem?_drop]
    rcases cmd_test tl name (h0 name (by simp)) s with ⟨ha, hb⟩ | ⟨ha, c1, hb, hc1⟩
    · rw [findBuiltin, hl, ha, List.findIdx?, hb]
      simpa [hl] using ih h1 (i + 1)
    · rw [findBuiltin, hl, ha]
      simp only [hrd, hb]
      rw [List.findIdx?, hc1]
      by_cases h32 : c1 = 32
      · simp [h32]
      · simpa [h32, hl] using ih h1 (i + 1)

theorem builtin_cmds_ok : ∀ name ∈ builtin_cmds,
    IsTok name ∧ name.head? ≠ some 62 ∧ name.head? ≠ some 35 ∧ name.head? ≠ some 34 := by
  decide

theorem builtin_lookup : ∀ name ∈ builtin_cmds, ∀ more : List Nat,
    ∃ i, builtin_cmds.findIdx? (fun nm => (nm ++ [32]).isPrefixOf (name ++ 32 :: more)) 0 = some i
      ∧ builtin_cmds[i]? = some name := by
  intro name hname more
  simp only [builtin_cmds, List.mem_cons, List.mem_singleton, List.not_mem_nil, or_false]
    at hname
  rcases hname with rfl | rfl | rfl | rfl | rfl | rfl | rfl | rfl | rfl
  · exact ⟨0, by simp [builtin_cmds, bytes, List.findIdx?, List.isPrefixOf], rfl⟩
  · exact ⟨1, by simp [builtin_cmds, bytes, List.findIdx?, List.isPrefixOf], rfl⟩
  · exact ⟨2, by simp [builtin_cmds, bytes, List.findIdx?, List.isPrefixOf], rfl⟩
  · exact ⟨3, by simp [builtin_cmds, bytes, List.findIdx?, List.isPrefixOf], rfl⟩
  · exact ⟨4, by simp [builtin_cmds, bytes, List.findIdx?, List.isPrefixOf], rfl⟩
  · exact ⟨5, by simp [builtin_cmds, bytes, List.findIdx?, List.isPrefixOf], rfl⟩
  · exact ⟨6, by simp [builtin_cmds, bytes, List.findIdx?, List.isPrefixOf], rfl⟩
  · exact ⟨7, by simp [builtin_cmds, bytes, List.findIdx?, List.isPrefixOf], rfl⟩
  · exact ⟨8, by simp [builtin_cmds, bytes, List.findIdx?, List.isPrefixOf], rfl⟩

/-! ## From the line buffer to the splitting loop -/

theorem strlen_at (pre s tl l : List Nat) (p : Nat) (hl : l = pre ++ s ++ 0 :: tl)
    (hp : p = pre.length) (hs : ∀ x ∈ s, x ≠ 0) : strlen l p = some s.length := by
  have h := scan_at (fun c => c != 0) pre s 0 tl l p hl hp (fun x hx => by simp [hs x hx])
    (by simp)
  simp [strlen, h]

theorem trimTrailing_run (lead body : List Nat) (c : Nat) (hc : isspace c = false) :
    ∀ (trail zeros : List Nat), (∀ x ∈ trail, isspace x = true) →
      trimTrailing lead.length ((body ++ [c]).length + trail.length)
        (lead ++ (body ++ [c]) ++ trail ++ zeros)
        = some (lead ++ (body ++ [c]) ++ List.replicate trail.length 0 ++ zeros) := by
  intro trail
  induction trail using List.reverseRecOn with
  | nil =>
    intro zeros _
    have h1 : rd (lead ++ (body ++ [c]) ++ [] ++ zeros) (lead.length + body.length) = some c :=
      rd_at (lead ++ body) c zeros _ _ (by simp) (by simp)
    simp only [List.length_append, List.length_singleton, List.length_nil, Nat.add_zero]
    rw [trimTrailing, h1]
    simp [hc]
  | append_singleton tr x ih =>
    intro zeros hws
    have hx : isspace x = true := hws x (by simp)
    have htr : ∀ y ∈ tr, isspace y = true := fun y hy => hws y (by simp [hy])
    have h1 : rd (lead ++ (body ++ [c]) ++ (tr ++ [x]) ++ zeros)
        (lead.length + ((body ++ [c]).length + tr.length)) = some x :=
      rd_at (lead ++ (body ++ [c]) ++ tr) x zeros _ _ (by simp) (by simp; omega)
    have h2 : wr (lead ++ (body ++ [c]) ++ (tr ++ [x]) ++ zeros)
        (lead.length + ((body ++ [c]).length + tr.length)) 0
        = some (lead ++ (body ++ [c]) ++ tr ++ 0 :: zeros) :=
      wr_at (lead ++ (body ++ [c]) ++ tr) x zeros _ _ 0 (by simp) (by simp; omega)
    have e : (body ++ [c]).length + (tr ++ [x]).length
        = ((body ++ [c]).length + tr.length) + 1 := by simp; omega
    rw [e, trimTrailing, h1]
    simp only [hx, if_true, h2]
    rw [ih (0 :: zeros) htr]
    simp [List.replicate_succ']

theorem render_nz (rest : List (List Nat × List Nat)) (hv : ValidToks rest) :
    ∀ x ∈ render rest, x ≠ 0 := by
  induction rest with
  | nil => simp [render]
  | cons wt rest ih =>
    obtain ⟨hw, ht, -⟩ := hv wt (by simp)
    have hv1 : ValidToks rest := fun a h => hv a (by simp [h])
    intro x hx
    simp only [render, List.mem_append] at hx
    rcases hx with (hx | hx) | hx
    · have := hw.ne_zero x hx
      rintro rfl
      simp at this
    · exact ht.nz x hx
    · exact ih hv1 x hx

theorem ws_nz {w : List Nat} (hw : ∀ c ∈ w, isspace c = true) : ∀ x ∈ w, x ≠ 0 := by
  intro x hx
  have := hw x hx
  rintro rfl
  simp [isspace] at this

theorem render_last (rest : List (List Nat × List Nat)) :
    ∀ t : List Nat, IsTok t → ValidToks rest →
      ∃ b c, t ++ render rest = b ++ [c] ∧ isspace c = false := by
  induction rest with
  | nil =>
    intro t ht _
    refine ⟨t.dropLast, t.getLast ht.1, ?_, (ht.2 _ (List.getLast_mem ht.1)).2⟩
    simp [render, List.dropLast_append_getLast]
  | cons wt rest ih =>
    intro t _ hv
    obtain ⟨-, hu, -⟩ := hv wt (by simp)
    have hv1 : ValidToks rest := fun a h => hv a (by simp [h])
    obtain ⟨b, c, hbc, hc⟩ := ih wt.2 hu hv1
    exact ⟨t ++ wt.1 ++ b, c, by simp [render, ← hbc], hc⟩

theorem render_length (rest : List (List Nat × List Nat)) (hv : ValidToks rest) :
    rest.length ≤ (render rest).length := by
  induction rest with
  | nil => simp
  | cons wt rest ih =>
    obtain ⟨-, ht, -⟩ := hv wt (by simp)
    have hv1 : ValidToks rest := fun a h => hv a (by simp [h])
    have h1 := ih hv1
    have h2 : 0 < wt.2.length := List.length_pos.mpr ht.1
    simp [render]
    omega

theorem argStrings_set (line : List Nat) (argv : List Slot) (j : Nat) (v : Slot) :
    ∀ (n i : Nat), i + n ≤ j →
      argStrings line (argv.set j v) i n = argStrings line argv i n := by
  intro n
  induction n with
  | zero => intro i _; simp [argStrings]
  | succ n ih =>
    intro i h
    have h1 : argvGet (argv.set j v) i = argvGet argv i := by
      simp only [argvGet]
      rw [List.getElem?_set_ne (by omega)]
    simp only [argStrings, h1, ih (i + 1) (by omega)]

/-- The parser on a line without quoted strings: leading white space, a
registered name followed by a space, tokens separated by white space, trailing
white space.  The result is what `splitSpec` collects from the tokens. -/
theorem parseCmd_tokens (lead name trail : List Nat) (rest : List (List Nat × List Nat))
    (r : TokOut)
    (hlead : ∀ c ∈ lead, isspace c = true) (hname : name ∈ builtin_cmds)
    (hv : ValidToks rest) (htrail : ∀ c ∈ trail, isspace c = true)
    (hsp : (render rest ++ trail).head? = some 32)
    (hspec : splitSpec 0 (name :: rest.map Prod.snd) = some r) :
    ∃ p, parseCmd (lead ++ name ++ render rest ++ trail ++ [0]) = Parse.ok p ∧
      builtin_cmds[p.bp]? = some name ∧ p.argc = r.args.length ∧ p.args = some r.args ∧
      p.argv[p.argc]? = some Slot.null ∧ p.target = r.redir.map some ∧
      p.do_append = r.app := by
  obtain ⟨hnt, -, h35, -⟩ := builtin_cmds_ok name hname
  obtain ⟨n0, n1, hn01, hn0, hn0s, hn0stop⟩ := tok_stop_space hnt
  have h35a : n0 ≠ 35 := by
    rw [hn01] at h35
    simpa using h35
  have hleadgo : ∀ c ∈ lead, (c != 0 && isspace c) = true := by
    intro c hc
    simp [hlead c hc, ws_nz hlead c hc]
  -- the bytes of the command
  have hsnz : ∀ x ∈ name ++ render rest ++ trail, x ≠ 0 := by
    intro x hx
    simp only [List.mem_append] at hx
    rcases hx with (hx | hx) | hx
    · exact hnt.nz x hx
    · exact render_nz rest hv x hx
    · exact ws_nz htrail x hx
  obtain ⟨more, hmore⟩ : ∃ more, render rest ++ trail = 32 :: more := by
    cases h : render rest ++ trail with
    | nil => simp [h] at hsp
    | cons a more =>
      rw [h] at hsp
      simp at hsp
      exact ⟨more, by rw [hsp]⟩
  have h1 : skip_space (lead ++ name ++ render rest ++ trail ++ [0]) 0 = some lead.length := by
    have := scan_at (fun c => c != 0 && isspace c) [] lead n0
      (n1 ++ render rest ++ trail ++ [0]) (lead ++ name ++ render rest ++ trail ++ [0]) 0
      (by simp [hn01]) rfl hleadgo hn0stop
    simpa [skip_space] using this
  have h2 : rd (lead ++ name ++ render rest ++ trail ++ [0]) lead.length = some n0 :=
    rd_at lead n0 (n1 ++ render rest ++ trail ++ [0]) _ _ (by simp [hn01]) rfl
  have hdrop : (lead ++ name ++ render rest ++ trail ++ [0]).drop lead.length
      = (name ++ render rest ++ trail) ++ 0 :: [] := by
    simp [List.append_assoc]
  obtain ⟨i, hi, hiname⟩ := builtin_lookup name hname (more ++ [0])
  have h3 : findBuiltin (lead ++ name ++ render rest ++ trail ++ [0]) lead.length builtin_cmds 0
      = some (some i) := by
    rw [findBuiltin_eq _ _ _ _ hdrop builtin_cmds
      (fun nm h => (builtin_cmds_ok nm h).1.nz) 0, hdrop]
    have e : name ++ render rest ++ trail ++ [0] = name ++ 32 :: (more ++ [0]) := by
      rw [List.append_assoc name, hmore]
      simp
    rw [e, hi]
  have h4 : strlen (lead ++ name ++ render rest ++ trail ++ [0]) lead.length
      = some (name ++ render rest ++ trail).length :=
    strlen_at lead (name ++ render rest ++ trail) [] _ _ (by simp) rfl hsnz
  -- trimming
  obtain ⟨b, c, hbc, hc⟩ := render_last rest name hnt hv
  have h5 : trimTrailing lead.length (name ++ render rest ++ trail).length
      (lead ++ name ++ render rest ++ trail ++ [0])
      = some (lead ++ name ++ render rest ++ 0 :: List.replicate trail.length 0) := by
    have := trimTrailing_run lead b c hc trail [0] htrail
    rw [← hbc] at this
    have e1 : (name ++ render rest ++ trail).length
        = (name ++ render rest).length + trail.length := List.length_append _ _
    have e2 : lead ++ name ++ render rest ++ trail ++ [0]
        = lead ++ (name ++ render rest) ++ trail ++ [0] := by simp
    rw [e1, e2, this]
    congr 1
    simp only [List.append_assoc]
    congr 3
    rw [← List.replicate_succ', List.replicate_succ]
  have h6 : argvSet (List.replicate NARGS Slot.uninit) 0 (Slot.ptr lead.length)
      = some (Slot.ptr lead.length :: List.replicate 19 Slot.uninit) := rfl
  obtain ⟨x, tl, hxtl, hx⟩ := render_head rest (List.replicate trail.length 0) hv
  have h7 : skip_nonspace (lead ++ name ++ render rest ++ 0 :: List.replicate trail.length 0)
      lead.length = some (lead.length + name.length) :=
    scan_at _ lead name x tl _ _ (by rw [← hxtl]; simp) rfl hnt.go hx.stop
  obtain ⟨fin, hfin, ⟨tlf, hline⟩, hlen, -, hargc, hlt, hargs, hr1, hr2, happ⟩ :=
    splitLoop_tokens rest.length rest (Nat.le_refl _) name lead (List.replicate trail.length 0)
      (lead ++ name ++ render rest ++ 0 :: List.replicate trail.length 0)
      (lead.length + name.length) 0 (Slot.ptr lead.length :: List.replicate 19 Slot.uninit)
      none false ((lead ++ name ++ render rest ++ trail ++ [0]).length + 1) r hnt hv rfl rfl
      (by simp [NARGS]) (by simp [NARGS]) (by simp)
      (by
        have := render_length rest hv
        simp
        omega) hspec
  have hlt' : ¬ (fin.argc ≥ NARGS) := by omega
  have h8 : argvSet fin.argv fin.argc Slot.null = some (fin.argv.set fin.argc Slot.null) := by
    simp [argvSet, hlen, hlt]
  refine ⟨⟨i, fin.argc, fin.argv.set fin.argc Slot.null, fin.line, fin.outfile, fin.do_append⟩,
    ?_, hiname, by simpa using hargc, ?_, ?_, ?_, by simpa using happ⟩
  · have hn0' : ¬ (n0 = 0 ∨ n0 = 35) := by simp [hn0, h35a]
    simp only [parseCmd, h1, h2, hn0', if_false, h3, h4, h5, h6, h7, hfin, hlt', h8]
  · simp only [Parsed.args]
    rw [argStrings_set _ _ _ _ _ _ (by omega), hargc]
    simpa using hargs
  · simp [hlen, hlt]
  · simp only [Parsed.target]
    cases hr : r.redir with
    | none => simp [hr1 hr]
    | some path =>
      obtain ⟨q, hq, hqs⟩ := hr2 path hr
      simp [hq, hqs]

/-! ## What `splitSpec` collects from particular lines -/

theorem splitSpec_bare (ts : List (List Nat)) :
    ∀ k, (∀ t ∈ ts, t.head? ≠ some 62) → k + ts.length ≤ NARGS - 1 →
      splitSpec k ts = some ⟨ts, none, false⟩ := by
  induction ts with
  | nil => intro k _ _; rfl
  | cons t ts ih =>
    intro k hb hk
    cases ts with
    | nil => rfl
    | cons u ts =>
      have h62 : t.head? ≠ some 62 := hb t (by simp)
      have hk1 : ¬ (k + 1 ≥ NARGS - 1) := by
        simp [NARGS] at hk ⊢
        omega
      rw [splitSpec, if_neg h62, if_neg hk1,
        ih (k + 1) (fun a h => hb a (by simp [h])) (by simp at hk ⊢; omega)]

theorem splitSpec_args (as rest : List (List Nat)) (hrest : rest ≠ []) :
    ∀ k, (∀ t ∈ as, t.head? ≠ some 62) → k + as.length < NARGS - 1 →
      splitSpec k (as ++ rest)
        = (splitSpec (k + as.length) rest).map (fun r => ⟨as ++ r.args, r.redir, r.app⟩) := by
  induction as with
  | nil =>
    intro k _ _
    cases h : splitSpec k rest <;> simp [h]
  | cons a as ih =>
    intro k hb hk
    have h62 : a.head? ≠ some 62 := hb a (by simp)
    have hk1 : ¬ (k + 1 ≥ NARGS - 1) := by
      simp [NARGS] at hk ⊢
      omega
    obtain ⟨u, tl, hu⟩ : ∃ u tl, as ++ rest = u :: tl := by
      cases h : as ++ rest with
      | nil => simp [hrest] at h
      | cons u tl => exact ⟨u, tl, rfl⟩
    have hih := ih (k + 1) (fun a h => hb a (by simp [h])) (by simp at hk ⊢; omega)
    rw [List.cons_append, hu, splitSpec, if_neg h62, if_neg hk1, ← hu, hih]
    have e : k + 1 + as.length = k + (a :: as).length := by simp; omega
    rw [e]
    cases h : splitSpec (k + (a :: as).length) rest <;> simp [h]

theorem splitSpec_dir (dbl : Bool) (w : List Nat) (sep : Option (List Nat)) (path : List Nat)
    (rest : List (List Nat)) (k : Nat) (hp : IsTarget dbl sep path)
    (hrest : sep = none → rest ≠ []) :
    splitSpec k ((dirToks dbl w sep path).map Prod.snd ++ rest)
      = (splitSpec k rest).map (fun r =>
          ⟨r.args, (match r.redir with | some q => some q | none => some path), dbl || r.app⟩) := by
  obtain ⟨p0, p1, rfl, -, -, -⟩ := tok_stop_space hp.1
  cases sep with
  | none =>
    obtain ⟨u, tl, rfl⟩ : ∃ u tl, rest = u :: tl := by
      cases rest with
      | nil => exact absurd rfl (hrest rfl)
      | cons u tl => exact ⟨u, tl, rfl⟩
    cases dbl with
    | false =>
      have h62 : p0 ≠ 62 := by simpa using hp.2.2 rfl rfl
      cases h : splitSpec k (u :: tl) <;> simp [dirToks, dirSign, splitSpec, h, h62]
    | true =>
      cases h : splitSpec k (u :: tl) <;> simp [dirToks, dirSign, splitSpec, h]
  | some w1 =>
    cases dbl with
    | false => cases h : splitSpec k rest <;> simp [dirToks, dirSign, splitSpec, h]
    | true => cases h : splitSpec k rest <;> simp [dirToks, dirSign, splitSpec, h]

theorem BareToks.valid {toks : List (List Nat × List Nat)} (h : BareToks toks) :
    ValidToks toks :=
  fun wt hwt => ⟨(h wt hwt).1, (h wt hwt).2.1, (h wt hwt).2.2.1⟩

theorem BareToks.no_dir {toks : List (List Nat × List Nat)} (h : BareToks toks) :
    ∀ t ∈ toks.map Prod.snd, t.head? ≠ some 62 := by
  intro t ht
  obtain ⟨wt, hwt, rfl⟩ := List.mem_map.mp ht
  exact (h wt hwt).2.2.2

theorem target_none {p : Parsed} (h : p.target = none) : p.outfile = none := by
  cases ho : p.outfile with
  | none => rfl
  | some o => simp [Parsed.target, ho] at h

theorem render_append (as bs : List (List Nat × List Nat)) :
    render (as ++ bs) = render as ++ render bs := by
  induction as with
  | nil => rfl
  | cons a as ih => simp [render, ih]

theorem ValidToks.append {as bs : List (List Nat × List Nat)} (ha : ValidToks as)
    (hb : ValidToks bs) : ValidToks (as ++ bs) := by
  intro wt h
  rcases List.mem_append.mp h with h | h
  · exact ha wt h
  · exact hb wt h

theorem dirSign_tok (dbl : Bool) (path : List Nat) (hp : ∀ c ∈ path, c ≠ 0 ∧ isspace c = false) :
    IsTok (dirSign dbl ++ path) ∧ (dirSign dbl ++ path).head? ≠ some 34 := by
  have h62 : (62 : Nat) ≠ 0 ∧ isspace 62 = false := by decide
  cases dbl
  · refine ⟨⟨by simp [dirSign], ?_⟩, by simp [dirSign]⟩
    intro c hc
    simp only [dirSign, Bool.false_eq_true, if_false, List.singleton_append, List.mem_cons] at hc
    rcases hc with rfl | hc
    · exact h62
    · exact hp c hc
  · refine ⟨⟨by simp [dirSign], ?_⟩, by simp [dirSign]⟩
    intro c hc
    simp only [dirSign, if_true, List.cons_append, List.nil_append, List.mem_cons] at hc
    rcases hc with rfl | rfl | hc
    · exact h62
    · exact h62
    · exact hp c hc

theorem dirToks_valid (dbl : Bool) (w : List Nat) (sep : Option (List Nat)) (path : List Nat)
    (hw : IsWs w) (hsep : ∀ w1, sep = some w1 → IsWs w1) (hp : IsTarget dbl sep path) :
    ValidToks (dirToks dbl w sep path) := by
  cases sep with
  | none =>
    intro wt h
    simp only [dirToks, List.mem_singleton] at h
    subst h
    exact ⟨hw, (dirSign_tok dbl path hp.1.2).1, (dirSign_tok dbl path hp.1.2).2⟩
  | some w1 =>
    intro wt h
    simp only [dirToks, List.mem_cons, List.mem_singleton, List.not_mem_nil, or_false] at h
    rcases h with rfl | rfl
    · have := dirSign_tok dbl [] (by simp)
      exact ⟨hw, by simpa using this.1, by simpa using this.2⟩
    · exact ⟨hsep w1 rfl, hp.1, hp.2.1⟩

theorem bare_target {path : List Nat} (h : IsBare path) (dbl : Bool) (sep : Option (List Nat)) :
    IsTarget dbl sep path :=
  ⟨h.1, h.2.1, fun _ _ => h.2.2⟩

/-! ## Reading lines -/

theorem fgetsChunk_line (body rest : List Nat) (h10 : ∀ c ∈ body, c ≠ 10) :
    ∀ n, body.length < n → fgetsChunk n (body ++ 10 :: rest) = (body ++ [10], rest) := by
  induction body with
  | nil =>
    intro n hn
    obtain ⟨m, rfl⟩ : ∃ m, n = m + 1 := ⟨n - 1, by simp at hn; omega⟩
    simp [fgetsChunk]
  | cons c body ih =>
    intro n hn
    obtain ⟨m, rfl⟩ : ∃ m, n = m + 1 := ⟨n - 1, by simp at hn; omega⟩
    have hc : c ≠ 10 := h10 c (by simp)
    have := ih (fun x hx => h10 x (by simp [hx])) m (by simp at hn; omega)
    simp [fgetsChunk, hc, this]

theorem fgets_line (body rest : List Nat) (h10 : ∀ c ∈ body, c ≠ 10)
    (hlen : body.length + 1 ≤ LINE_SIZE - 1) :
    fgets LINE_SIZE (body ++ 10 :: rest) = some (body ++ [10], rest) := by
  have := fgetsChunk_line body rest h10 (LINE_SIZE - 1) (by omega)
  simp [fgets, this]

/-! ## The drain loop -/

theorem IsLine.body {l : List Nat} (h : IsLine l) :
    ∃ body, l = body ++ [10] ∧ (∀ c ∈ body, c ≠ 10) ∧ (∀ c ∈ body, c ≠ 0) ∧
      body.length + 1 ≤ LINE_SIZE - 1 := by
  obtain ⟨h1, h2, h3⟩ := h
  refine ⟨l.dropLast, h1, fun c hc => (h2 c hc).1, fun c hc => (h2 c hc).2, ?_⟩
  have : l.length = l.dropLast.length + 1 := by
    conv_lhs => rw [h1]
    simp
  omega

theorem fgets_isLine (l rest : List Nat) (h : IsLine l) :
    fgets LINE_SIZE (l ++ rest) = some (l, rest) := by
  obtain ⟨body, rfl, h10, -, hlen⟩ := h.body
  have := fgets_line body rest h10 hlen
  simpa using this

theorem fgetsChunk_append (n : Nat) (content : List Nat) :
    (fgetsChunk n content).1 ++ (fgetsChunk n content).2 = content := by
  induction n generalizing content with
  | zero => simp [fgetsChunk]
  | succ n ih =>
    cases content with
    | nil => simp [fgetsChunk]
    | cons c rest =>
      by_cases hc : c = 10
      · simp [fgetsChunk, hc]
      · simp [fgetsChunk, hc, ih rest]

theorem fgetsChunk_pos (n : Nat) (c : Nat) (content : List Nat) :
    0 < (fgetsChunk (n + 1) (c :: content)).1.length := by
  by_cases hc : c = 10 <;> simp [fgetsChunk, hc]

theorem fgets_shorter (content chunk rest : List Nat)
    (h : fgets LINE_SIZE content = some (chunk, rest)) :
    chunk ++ rest = content ∧ rest.length < content.length := by
  cases content with
  | nil => simp [fgets] at h
  | cons c content =>
    simp only [fgets, LINE_SIZE] at h
    simp only [reduceCtorEq, if_false, Option.some.injEq] at h
    have h1 := fgetsChunk_append 255 (c :: content)
    have h2 := fgetsChunk_pos 254 c content
    rw [h] at h1 h2
    refine ⟨h1, ?_⟩
    have := congrArg List.length h1
    simp only [List.length_append] at this
    simp only at h2
    omega

theorem drain_fuel {σ : Type} (sys : Sys σ) :
    ∀ (f1 f2 : Nat) (s : σ) (content : List Nat), content.length < f1 → content.length < f2 →
      drain sys f1 s content = drain sys f2 s content := by
  intro f1
  induction f1 with
  | zero => intro f2 s content h; omega
  | succ f1 ih =>
    intro f2 s content h1 h2
    obtain ⟨g, rfl⟩ : ∃ g, f2 = g + 1 := ⟨f2 - 1, by omega⟩
    rw [drain, drain]
    cases hf : fgets LINE_SIZE content with
    | none => rfl
    | some cr =>
      obtain ⟨chunk, rest⟩ := cr
      obtain ⟨-, hlt⟩ := fgets_shorter content chunk rest hf
      simp only []
      cases hp : processLine sys s chunk with
      | mk s1 st =>
        cases st with
        | some stop => rfl
        | none => exact ih g s1 rest (by omega) (by omega)

theorem process_line {σ : Type} (sys : Sys σ) (s : σ) (l rest : List Nat) (h : IsLine l) :
    process sys s (l ++ rest)
      = match processLine sys s l with
        | (s1, some stop) => (s1, stop)
        | (s1, none) => process sys s1 rest := by
  rw [process, drain, fgets_isLine l rest h]
  simp only []
  cases hp : processLine sys s l with
  | mk s1 st =>
    cases st with
    | some stop => rfl
    | none =>
      simp only []
      rw [process]
      have hpos : 0 < l.length := by
        obtain ⟨body, rfl, -⟩ := h.body
        simp
      exact drain_fuel sys _ _ s1 rest (by simp; omega) (by simp)

theorem strchr_none (chunk : List Nat) (h10 : ∀ c ∈ chunk, c ≠ 10) (h0 : ∀ c ∈ chunk, c ≠ 0) :
    ∀ k, strchrFrom 10 (chunk ++ [0]) k = some none := by
  induction chunk with
  | nil => intro k; simp [strchrFrom]
  | cons c chunk ih =>
    intro k
    have hc10 : c ≠ 10 := h10 c (by simp)
    have hc0 : c ≠ 0 := h0 c (by simp)
    simp [strchrFrom, hc10, hc0,
      ih (fun x hx => h10 x (by simp [hx])) (fun x hx => h0 x (by simp [hx]))]

theorem strchr_some (chunk : List Nat) (h10 : 10 ∈ chunk) (h0 : ∀ c ∈ chunk, c ≠ 0) :
    ∀ k, ∃ j, strchrFrom 10 (chunk ++ [0]) k = some (some j) := by
  induction chunk with
  | nil => simp at h10
  | cons c chunk ih =>
    intro k
    by_cases hc : c = 10
    · exact ⟨k, by simp [strchrFrom, hc]⟩
    · have hc0 : c ≠ 0 := h0 c (by simp)
      have h10' : 10 ∈ chunk := by
        rcases List.mem_cons.mp h10 with h | h
        · exact absurd h.symm hc
        · exact h
      obtain ⟨j, hj⟩ := ih h10' (fun x hx => h0 x (by simp [hx])) (k + 1)
      exact ⟨j, by simp [strchrFrom, hc, hc0, hj]⟩

theorem skip_space_takeWhile (l : List Nat) :
    skip_space (l ++ [0]) 0 = some (l.takeWhile isspace).length := by
  have hsplit : l ++ [0] = [] ++ l.takeWhile isspace ++ (l.dropWhile isspace ++ [0]) := by
    simp [← List.append_assoc, List.takeWhile_append_dropWhile]
  have hgo : ∀ x ∈ l.takeWhile isspace, (x != 0 && isspace x) = true := by
    intro x hx
    have hs : isspace x = true := List.mem_takeWhile_imp hx
    have h0 : x ≠ 0 := by
      rintro rfl
      simp [isspace] at hs
    simp [hs, h0]
  cases hd : l.dropWhile isspace with
  | nil =>
    rw [hd] at hsplit
    have := scan_at (fun c => c != 0 && isspace c) [] (l.takeWhile isspace) 0 [] (l ++ [0]) 0
      (by simpa using hsplit) rfl hgo (by rfl)
    simpa [skip_space] using this
  | cons c tl =>
    rw [hd] at hsplit
    have hc : isspace c = false := by
      have := List.head_dropWhile_not isspace l (by simp [hd])
      simpa [hd] using this
    have := scan_at (fun c => c != 0 && isspace c) [] (l.takeWhile isspace) c (tl ++ [0])
      (l ++ [0]) 0 (by simpa using hsplit) rfl hgo (by simp [hc])
    simpa [skip_space] using this

theorem rd_after_space (l : List Nat) :
    rd (l ++ [0]) (l.takeWhile isspace).length = some ((l.dropWhile isspace ++ [0]).headD 0) := by
  cases hd : l.dropWhile isspace with
  | nil =>
    exact rd_at (l.takeWhile isspace) 0 [] _ _
      (by
        conv_lhs => rw [← List.takeWhile_append_dropWhile isspace l, hd]
        simp) rfl
  | cons c tl =>
    exact rd_at (l.takeWhile isspace) c (tl ++ [0]) _ _
      (by
        conv_lhs => rw [← List.takeWhile_append_dropWhile isspace l, hd]
        simp) rfl

theorem parseCmd_skipped (l : List Nat) (h : isSkipped l = true) :
    parseCmd (l ++ [0]) = Parse.blank := by
  have h1 := skip_space_takeWhile l
  have h2 := rd_after_space l
  have h3 : (l.dropWhile isspace ++ [0]).headD 0 = 0 ∨ (l.dropWhile isspace ++ [0]).headD 0 = 35 := by
    unfold isSkipped at h
    cases hd : l.dropWhile isspace with
    | nil => simp
    | cons c tl =>
      rw [hd] at h
      right
      simpa using h
  simp only [parseCmd, h1, h2, h3, if_true]

theorem processLine_skipped {σ : Type} (sys : Sys σ) (s : σ) (l : List Nat) (hl : IsLine l)
    (h : isSkipped l = true) : processLine sys s l = (s, none) := by
  obtain ⟨body, rfl, -, h0, -⟩ := hl.body
  obtain ⟨j, hj⟩ := strchr_some (body ++ [10]) (by simp)
    (by
      intro c hc
      rcases List.mem_append.mp hc with hc | hc
      · exact h0 c hc
      · simp at hc
        omega) 0
  simp only [processLine, hj, parseCmd_skipped _ h]

/-! ## A quoted string as the only argument -/

theorem quoted_parse (cmd s : List Nat) (hcmd : cmd ∈ builtin_cmds)
    (h34 : ∀ c ∈ s, c ≠ 34) (h0 : ∀ c ∈ s, c ≠ 0) :
    ∃ p, parseCmd (cmd ++ [32, 34] ++ s ++ [34, 10] ++ [0]) = Parse.ok p ∧
      builtin_cmds[p.bp]? = some cmd ∧ p.argc = 2 ∧ p.args = some [cmd, s] ∧
      p.argv[p.argc]? = some Slot.null ∧ p.outfile = none ∧ p.do_append = false := by
  obtain ⟨hnt, h62, h35, -⟩ := builtin_cmds_ok cmd hcmd
  obtain ⟨n0, n1, hn01, hn0, hn0s, hn0stop⟩ := tok_stop_space hnt
  have h35a : n0 ≠ 35 := by
    rw [hn01] at h35
    simpa using h35
  have h62a : n0 ≠ 62 := by
    rw [hn01] at h62
    simpa using h62
  have hsgo : ∀ c ∈ s, (c != 0 && c != 34) = true := by
    intro c hc
    simp [h34 c hc, h0 c hc]
  have h1 : skip_space (cmd ++ [32, 34] ++ s ++ [34, 10] ++ [0]) 0 = some 0 := by
    have := scan_at (fun c => c != 0 && isspace c) [] [] n0
      (n1 ++ [32, 34] ++ s ++ [34, 10] ++ [0]) (cmd ++ [32, 34] ++ s ++ [34, 10] ++ [0]) 0
      (by simp [hn01]) rfl (by simp) hn0stop
    simpa [skip_space] using this
  have h2 : rd (cmd ++ [32, 34] ++ s ++ [34, 10] ++ [0]) 0 = some n0 :=
    rd_at [] n0 (n1 ++ [32, 34] ++ s ++ [34, 10] ++ [0]) _ _ (by simp [hn01]) rfl
  have hdrop : (cmd ++ [32, 34] ++ s ++ [34, 10] ++ [0]).drop 0
      = (cmd ++ [32, 34] ++ s ++ [34, 10]) ++ 0 :: [] := by simp
  obtain ⟨i, hi, hiname⟩ := builtin_lookup cmd hcmd (34 :: (s ++ [34, 10] ++ [0]))
  have h3 : findBuiltin (cmd ++ [32, 34] ++ s ++ [34, 10] ++ [0]) 0 builtin_cmds 0
      = some (some i) := by
    rw [findBuiltin_eq _ _ _ _ hdrop builtin_cmds
      (fun nm h => (builtin_cmds_ok nm h).1.nz) 0, hdrop]
    have e : cmd ++ [32, 34] ++ s ++ [34, 10] ++ [0] = cmd ++ 32 :: 34 :: (s ++ [34, 10] ++ [0]) := by
      simp
    rw [e, hi]
  have hsnz : ∀ x ∈ cmd ++ [32, 34] ++ s ++ [34, 10], x ≠ 0 := by
    intro x hx
    simp only [List.mem_append, List.mem_cons, List.mem_singleton, List.not_mem_nil,
      or_false] at hx
    rcases hx with ((hx | hx | hx) | hx) | hx | hx
    · exact hnt.nz x hx
    · omega
    · omega
    · exact h0 x hx
    · omega
    · omega
  have h4 : strlen (cmd ++ [32, 34] ++ s ++ [34, 10] ++ [0]) 0
      = some (cmd ++ [32, 34] ++ s ++ [34, 10]).length :=
    strlen_at [] (cmd ++ [32, 34] ++ s ++ [34, 10]) [] _ _ (by simp) rfl hsnz
  have h5 : trimTrailing 0 (cmd ++ [32, 34] ++ s ++ [34, 10]).length
      (cmd ++ [32, 34] ++ s ++ [34, 10] ++ [0])
      = some (cmd ++ [32, 34] ++ s ++ [34, 0, 0]) := by
    have := trimTrailing_run [] (cmd ++ [32, 34] ++ s) 34 (by decide) [10] [0] (by decide)
    simp only [List.length_nil, List.nil_append, List.length_singleton, List.replicate_one] at this
    have e1 : (cmd ++ [32, 34] ++ s ++ [34, 10]).length
        = (cmd ++ [32, 34] ++ s ++ [34]).length + 1 := by simp; omega
    have e2 : cmd ++ [32, 34] ++ s ++ [34, 10] ++ [0]
        = cmd ++ [32, 34] ++ s ++ [34] ++ [10] ++ [0] := by simp
    rw [e1, e2, this]
    simp
  have h6 : argvSet (List.replicate NARGS Slot.uninit) 0 (Slot.ptr 0)
      = some (Slot.ptr 0 :: List.replicate 19 Slot.uninit) := rfl
  have h7 : skip_nonspace (cmd ++ [32, 34] ++ s ++ [34, 0, 0]) 0 = some (0 + cmd.length) :=
    scan_at _ [] cmd 32 (34 :: (s ++ [34, 0, 0])) _ _ (by simp) rfl hnt.go (by decide)
  -- first iteration: the name ends, the quoted string is scanned
  have i1 : rd (cmd ++ [32, 34] ++ s ++ [34, 0, 0]) (0 + cmd.length) = some 32 :=
    rd_at cmd 32 (34 :: (s ++ [34, 0, 0])) _ _ (by simp) (by simp)
  have i2 : skip_space (cmd ++ [32, 34] ++ s ++ [34, 0, 0]) (0 + cmd.length)
      = some (0 + cmd.length + [32].length) :=
    scan_at _ cmd [32] 34 (s ++ [34, 0, 0]) _ _ (by simp) (by simp) (by decide) (by decide)
  have i3 : wr (cmd ++ [32, 34] ++ s ++ [34, 0, 0]) (0 + cmd.length) 0
      = some (cmd ++ 0 :: (34 :: (s ++ [34, 0, 0]))) :=
    wr_at cmd 32 (34 :: (s ++ [34, 0, 0])) _ _ 0 (by simp) (by simp)
  have i4 : argvGet (Slot.ptr 0 :: List.replicate 19 Slot.uninit) 0 = some 0 := rfl
  have i5 : rd (cmd ++ 0 :: (34 :: (s ++ [34, 0, 0]))) 0 = some n0 :=
    rd_at [] n0 (n1 ++ 0 :: (34 :: (s ++ [34, 0, 0]))) _ _ (by simp [hn01]) rfl
  have i6 : argvSet (Slot.ptr 0 :: List.replicate 19 Slot.uninit) 1
      (Slot.ptr (0 + cmd.length + [32].length))
      = some (Slot.ptr 0 :: Slot.ptr (0 + cmd.length + [32].length)
          :: List.replicate 18 Slot.uninit) := rfl
  have i7 : rd (cmd ++ 0 :: (34 :: (s ++ [34, 0, 0]))) (0 + cmd.length + [32].length)
      = some 34 :=
    rd_at (cmd ++ [0]) 34 (s ++ [34, 0, 0]) _ _ (by simp) (by simp)
  have i8 : find_eos (cmd ++ 0 :: (34 :: (s ++ [34, 0, 0]))) (0 + cmd.length + [32].length + 1)
      = some (0 + cmd.length + [32].length + 1 + s.length) :=
    scan_at _ (cmd ++ [0, 34]) s 34 [0, 0] _ _ (by simp) (by simp) hsgo (by decide)
  have i9 : rd (cmd ++ 0 :: (34 :: (s ++ [34, 0, 0])))
      (0 + cmd.length + [32].length + 1 + s.length) = some 34 :=
    rd_at (cmd ++ [0, 34] ++ s) 34 [0, 0] _ _ (by simp) (by simp; omega)
  have i10 : argvSet (Slot.ptr 0 :: Slot.ptr (0 + cmd.length + [32].length)
        :: List.replicate 18 Slot.uninit) 1 (Slot.ptr (0 + cmd.length + [32].length + 1))
      = some (Slot.ptr 0 :: Slot.ptr (0 + cmd.length + [32].length + 1)
          :: List.replicate 18 Slot.uninit) := rfl
  have i11 : wr (cmd ++ 0 :: (34 :: (s ++ [34, 0, 0])))
      (0 + cmd.length + [32].length + 1 + s.length) 0
      = some (cmd ++ [0, 34] ++ s ++ 0 :: [0, 0]) :=
    wr_at (cmd ++ [0, 34] ++ s) 34 [0, 0] _ _ 0 (by simp) (by simp; omega)
  have hstep1 : splitStep ⟨cmd ++ [32, 34] ++ s ++ [34, 0, 0], 0 + cmd.length, 0,
      Slot.ptr 0 :: List.replicate 19 Slot.uninit, none, false⟩
      = some (Flow.again ⟨cmd ++ [0, 34] ++ s ++ 0 :: [0, 0],
          0 + cmd.length + [32].length + 1 + s.length + 1, 1,
          Slot.ptr 0 :: Slot.ptr (0 + cmd.length + [32].length + 1)
            :: List.replicate 18 Slot.uninit, none, false⟩) := by
    have h32 : (32 : Nat) ≠ 0 := by decide
    have hk : ¬ (0 + 1 ≥ NARGS - 1) := by decide
    simp only [splitStep, i1, h32, if_false, i2, i3, i4, i5, h62a, afterArg, hk, nextArg, i6,
      i7, if_true, i8, i9, ne_eq, not_true_eq_false, i10, i11]
  -- second iteration: end of list
  have j1 : rd (cmd ++ [0, 34] ++ s ++ 0 :: [0, 0])
      (0 + cmd.length + [32].length + 1 + s.length + 1) = some 0 :=
    rd_at (cmd ++ [0, 34] ++ s ++ [0]) 0 [0] _ _ (by simp) (by simp; omega)
  obtain ⟨k, hk⟩ : ∃ k, (cmd ++ [32, 34] ++ s ++ [34, 10] ++ [0]).length + 1 = k + 1 + 1 :=
    ⟨(cmd ++ [32, 34] ++ s ++ [34, 10]).length, by simp; omega⟩
  have hloop : splitLoop ((cmd ++ [32, 34] ++ s ++ [34, 10] ++ [0]).length + 1)
      ⟨cmd ++ [32, 34] ++ s ++ [34, 0, 0], 0 + cmd.length, 0,
        Slot.ptr 0 :: List.replicate 19 Slot.uninit, none, false⟩
      = some ⟨cmd ++ [0, 34] ++ s ++ 0 :: [0, 0],
          0 + cmd.length + [32].length + 1 + s.length + 1, 2,
          Slot.ptr 0 :: Slot.ptr (0 + cmd.length + [32].length + 1)
            :: List.replicate 18 Slot.uninit, none, false⟩ := by
    rw [hk, splitLoop, hstep1]
    simp only []
    rw [splitLoop, step_done _ j1]
  have c1 : cstr (cmd ++ [0, 34] ++ s ++ 0 :: [0, 0]) 0 = some cmd :=
    cstr_at [] cmd (34 :: (s ++ 0 :: [0, 0])) _ _ (by simp) rfl hnt.nz
  have c2 : cstr (cmd ++ [0, 34] ++ s ++ 0 :: [0, 0]) (0 + cmd.length + [32].length + 1)
      = some s :=
    cstr_at (cmd ++ [0, 34]) s [0, 0] _ _ (by simp) (by simp) h0
  refine ⟨⟨i, 2, (Slot.ptr 0 :: Slot.ptr (0 + cmd.length + [32].length + 1)
      :: List.replicate 18 Slot.uninit).set 2 Slot.null, cmd ++ [0, 34] ++ s ++ 0 :: [0, 0],
      none, false⟩, ?_, hiname, rfl, ?_, rfl, rfl, rfl⟩
  · have hn0' : ¬ (n0 = 0 ∨ n0 = 35) := by simp [hn0, h35a]
    have hlt : ¬ (2 ≥ NARGS) := by decide
    simp only [parseCmd, h1, h2, hn0', if_false, h3, h4, h5, h6, h7, hloop, hlt]
    rfl
  · have g0 : argvGet ((Slot.ptr 0 :: Slot.ptr (0 + cmd.length + [32].length + 1)
        :: List.replicate 18 Slot.uninit).set 2 Slot.null) 0 = some 0 := rfl
    have g1 : argvGet ((Slot.ptr 0 :: Slot.ptr (0 + cmd.length + [32].length + 1)
        :: List.replicate 18 Slot.uninit).set 2 Slot.null) 1
        = some (0 + cmd.length + [32].length + 1) := rfl
    simp only [Parsed.args, argStrings, g0, g1, c1, c2]

/-! ## Chunks with and without a newline -/

theorem fgetsChunk_length_le (n : Nat) (content : List Nat) :
    (fgetsChunk n content).1.length ≤ n := by
  induction n generalizing content with
  | zero => simp [fgetsChunk]
  | succ n ih =>
    cases content with
    | nil => simp [fgetsChunk]
    | cons c rest =>
      by_cases hc : c = 10
      · simp [fgetsChunk, hc]
      · have := ih rest
        simp [fgetsChunk, hc]
        omega

theorem fgetsChunk_newline (n : Nat) (content : List Nat) :
    10 ∈ (fgetsChunk n content).1 ↔ 10 ∈ content.take n := by
  induction n generalizing content with
  | zero => simp [fgetsChunk]
  | succ n ih =>
    cases content with
    | nil => simp [fgetsChunk]
    | cons c rest =>
      by_cases hc : c = 10
      · simp [fgetsChunk, hc]
      · have hc' : ¬ (10 = c) := fun h => hc h.symm
        simp [fgetsChunk, hc, hc', ih rest]

theorem invoke_stop {σ : Type} (sys : Sys σ) (s : σ) (p : Parsed) :
    (invoke sys s p).2 ≠ some Stop.lineTooLong := by
  unfold invoke
  split
  · simp
  · split
    · simp
    · split
      · simp
      · split
        · simp
        · split <;> simp

theorem processLine_tooLong {σ : Type} (sys : Sys σ) (s : σ) (chunk : List Nat)
    (h0 : ∀ c ∈ chunk, c ≠ 0) :
    (processLine sys s chunk).2 = some Stop.lineTooLong ↔ 10 ∉ chunk := by
  constructor
  · intro h hmem
    obtain ⟨j, hj⟩ := strchr_some chunk hmem h0 0
    simp only [processLine, hj] at h
    cases hp : parseCmd (chunk ++ [0]) with
    | blank => simp [hp] at h
    | nothingFound => simp [hp] at h
    | tooManyArgs => simp [hp] at h
    | stuck => simp [hp] at h
    | ok p =>
      simp only [hp] at h
      exact invoke_stop sys s p h
  · intro h
    have := strchr_none chunk (fun c hc hc10 => h (hc10 ▸ hc)) h0 0
    simp [processLine, this]

/-! ## The lookup on a line -/

theorem drop_after_space (l : List Nat) :
    (l ++ [0]).drop (l.takeWhile isspace).length = l.dropWhile isspace ++ [0] := by
  have e : l ++ [0] = l.takeWhile isspace ++ (l.dropWhile isspace ++ [0]) := by
    rw [← List.append_assoc, List.takeWhile_append_dropWhile]
  rw [e, List.drop_left]

theorem findBuiltin_line (l : List Nat) :
    findBuiltin (l ++ [0]) (l.takeWhile isspace).length builtin_cmds 0
      = some (builtin_cmds.findIdx?
          (fun name => (name ++ [32]).isPrefixOf (l.dropWhile isspace ++ [0])) 0) := by
  rw [findBuiltin_eq _ _ (l.dropWhile isspace) [] (drop_after_space l) builtin_cmds
    (fun nm h => (builtin_cmds_ok nm h).1.nz) 0, drop_after_space]

theorem parseCmd_bp (l : List Nat) (p : Parsed) (h : parseCmd (l ++ [0]) = Parse.ok p) :
    builtin_cmds.findIdx? (fun name => (name ++ [32]).isPrefixOf (l.dropWhile isspace ++ [0])) 0
      = some p.bp := by
  have h1 := skip_space_takeWhile l
  have h2 := rd_after_space l
  have h3 := findBuiltin_line l
  simp only [parseCmd, h1, h2, h3] at h
  split at h
  · cases h
  · cases hfi : builtin_cmds.findIdx?
        (fun name => (name ++ [32]).isPrefixOf (l.dropWhile isspace ++ [0])) 0 with
    | none =>
      rw [hfi] at h
      cases h
    | some e =>
      rw [hfi] at h
      simp only [] at h
      repeat' split at h
      all_goals
        cases h
        try rfl

theorem parseCmd_nothing (l : List Nat) (h0 : ∀ c ∈ l, c ≠ 0) (hs : isSkipped l = false)
    (hf : builtin_cmds.findIdx?
      (fun name => (name ++ [32]).isPrefixOf (l.dropWhile isspace ++ [0])) 0 = none) :
    parseCmd (l ++ [0]) = Parse.nothingFound := by
  have h1 := skip_space_takeWhile l
  have h2 := rd_after_space l
  have h3 := findBuiltin_line l
  have h4 : ¬ ((l.dropWhile isspace ++ [0]).headD 0 = 0 ∨
      (l.dropWhile isspace ++ [0]).headD 0 = 35) := by
    unfold isSkipped at hs
    cases hd : l.dropWhile isspace with
    | nil => simp [hd] at hs
    | cons c tl =>
      rw [hd] at hs
      have hc : isspace c = false := by
        have := List.head_dropWhile_not isspace l (by simp [hd])
        simpa [hd] using this
      have hc0 : c ≠ 0 :=
        h0 c ((List.dropWhile_sublist isspace).subset (by simp [hd]))
      simp at hs
      simp [hs, hc0]
  simp only [parseCmd, h1, h2, h4, if_false, h3, hf]

/-! ## Scans and stores on arbitrary buffers -/

theorem rd_some (buf : List Nat) (p : Nat) (hp : p < buf.length) : ∃ c, rd buf p = some c :=
  ⟨buf[p], by simp [rd, hp]⟩

theorem wr_some (buf : List Nat) (p v : Nat) (hp : p < buf.length) :
    wr buf p v = some (buf.set p v) := by
  simp [wr, hp]

theorem EndsNul.set {buf : List Nat} (h : EndsNul buf) (p : Nat) : EndsNul (buf.set p 0) := by
  obtain ⟨hpos, hlast⟩ := h
  refine ⟨by simpa using hpos, ?_⟩
  rw [List.length_set, List.getElem?_set]
  split
  · next hp => simp [hp ▸ (by omega : buf.length - 1 < buf.length)]
  · exact hlast

theorem EndsNul.not_last {buf : List Nat} (h : EndsNul buf) {p c : Nat}
    (hp : buf[p]? = some c) (hc : c ≠ 0) : p + 1 < buf.length := by
  obtain ⟨hpos, hlast⟩ := h
  have hlt : p < buf.length := by
    by_contra hge
    rw [List.getElem?_eq_none (by omega)] at hp
    cases hp
  by_contra hge
  have : p = buf.length - 1 := by omega
  rw [this, hlast] at hp
  exact hc (by cases hp; rfl)

theorem scan_total (go : Nat → Bool) (hgo : go 0 = false) (buf : List Nat) (h : EndsNul buf) :
    ∀ (n p : Nat), buf.length - p ≤ n → p < buf.length →
      ∃ q, scanWhile go (buf.drop p) p = some q ∧ p ≤ q ∧ q < buf.length ∧
        (∃ c, buf[q]? = some c ∧ go c = false) ∧
        (∀ i, p ≤ i → i < q → ∃ c, buf[i]? = some c ∧ go c = true) := by
  intro n
  induction n with
  | zero => intro p hn hp; omega
  | succ n ih =>
    intro p hn hp
    rw [List.drop_eq_getElem_cons hp, scanWhile]
    by_cases hg : go buf[p] = true
    · have hne : buf[p] ≠ 0 := by
        intro h0
        rw [h0, hgo] at hg
        cases hg
      have hp1 : p + 1 < buf.length := h.not_last (List.getElem?_eq_getElem hp) hne
      obtain ⟨q, hq, hle, hlt, hstop, hall⟩ := ih (p + 1) (by omega) hp1
      refine ⟨q, by rw [if_pos hg]; exact hq, by omega, hlt, hstop, ?_⟩
      intro i hi1 hi2
      by_cases hip : i = p
      · subst hip
        exact ⟨buf[i], List.getElem?_eq_getElem hp, hg⟩
      · exact hall i (by omega) hi2
    · refine ⟨p, by rw [if_neg hg], Nat.le_refl _, hp,
        ⟨buf[p], List.getElem?_eq_getElem hp, by simpa using hg⟩, ?_⟩
      intro i hi1 hi2
      omega

theorem skip_space_total (buf : List Nat) (h : EndsNul buf) (p : Nat) (hp : p < buf.length) :
    ∃ q, skip_space buf p = some q ∧ p ≤ q ∧ q < buf.length ∧
      (∃ c, buf[q]? = some c ∧ (c != 0 && isspace c) = false) ∧
      (∀ i, p ≤ i → i < q → ∃ c, buf[i]? = some c ∧ (c != 0 && isspace c) = true) :=
  scan_total _ (by rfl) buf h _ p (Nat.le_refl _) hp

theorem skip_nonspace_total (buf : List Nat) (h : EndsNul buf) (p : Nat) (hp : p < buf.length) :
    ∃ q, skip_nonspace buf p = some q ∧ p ≤ q ∧ q < buf.length ∧
      (∃ c, buf[q]? = some c ∧ (c != 0 && !isspace c) = false) ∧
      (∀ i, p ≤ i → i < q → ∃ c, buf[i]? = some c ∧ (c != 0 && !isspace c) = true) :=
  scan_total _ (by rfl) buf h _ p (Nat.le_refl _) hp

theorem find_eos_total (buf : List Nat) (h : EndsNul buf) (p : Nat) (hp : p < buf.length) :
    ∃ q, find_eos buf p = some q ∧ p ≤ q ∧ q < buf.length ∧
      (∃ c, buf[q]? = some c ∧ (c != 0 && c != 34) = false) ∧
      (∀ i, p ≤ i → i < q → ∃ c, buf[i]? = some c ∧ (c != 0 && c != 34) = true) :=
  scan_total _ (by rfl) buf h _ p (Nat.le_refl _) hp

/-! ## The measure -/

theorem countP_set_zero_le (l : List Nat) (i : Nat) :
    (l.set i 0).countP (fun c => c != 0) ≤ l.countP (fun c => c != 0) := by
  induction l generalizing i with
  | nil => simp
  | cons x l ih =>
    cases i with
    | zero =>
      simp only [List.set_cons_zero, List.countP_cons]
      simp
    | succ i =>
      simp only [List.set_cons_succ, List.countP_cons]
      have := ih i
      omega

theorem nzFrom_set_le (buf : List Nat) (i p : Nat) :
    nzFrom (buf.set i 0) p ≤ nzFrom buf p := by
  unfold nzFrom
  rw [List.drop_set]
  split
  · exact Nat.le_refl _
  · exact countP_set_zero_le _ _

theorem nzFrom_mono (buf : List Nat) {p q : Nat} (h : p ≤ q) : nzFrom buf q ≤ nzFrom buf p := by
  unfold nzFrom
  obtain ⟨d, rfl⟩ : ∃ d, q = p + d := ⟨q - p, by omega⟩
  rw [← List.drop_drop]
  exact (List.drop_sublist d _).countP_le _

theorem nzFrom_set_lt (buf : List Nat) (p c : Nat) (hp : buf[p]? = some c) (hc : c ≠ 0) :
    nzFrom (buf.set p 0) p < nzFrom buf p := by
  have hlt : p < buf.length := by
    by_contra hge
    rw [List.getElem?_eq_none (by omega)] at hp
    cases hp
  have hc' : buf[p] = c := by
    rw [List.getElem?_eq_getElem hlt] at hp
    exact Option.some.inj hp
  unfold nzFrom
  rw [List.drop_set, if_neg (by omega), Nat.sub_self, List.drop_eq_getElem_cons hlt]
  simp [List.countP_cons, hc', hc]

/-! ## One iteration of the splitting loop on an arbitrary line -/

theorem getElem?_lt {buf : List Nat} {p c : Nat} (h : buf[p]? = some c) : p < buf.length := by
  by_contra hge
  rw [List.getElem?_eq_none (by omega)] at h
  cases h

theorem set_zero_keeps {buf : List Nat} (e i : Nat) (c : Option Nat)
    (h : buf[i]? = c) (hne : i ≠ e ∨ c = some 0) : (buf.set e 0)[i]? = c := by
  rw [List.getElem?_set]
  split
  · next hei =>
    subst hei
    rcases hne with hne | hc
    · exact absurd rfl hne
    · subst hc
      rw [if_pos (getElem?_lt h)]
  · exact h

theorem inv_next (len a0 : Nat) (nm : List Nat) (s : Split) (buf : List Nat) (cp1 a1 : Nat)
    (hlen : buf.length = len) (hend : EndsNul buf) (hcp : cp1 < len) (ha1 : a1 < len)
    (hargv : s.argv.length = NARGS) (hargc1 : 1 ≤ s.argc) (hargc : s.argc < NARGS - 1)
    (hslots : ∀ j, j < s.argc → ∃ a, s.argv[j]? = some (Slot.ptr a) ∧ a < len)
    (hout : ∀ o, s.outfile = some o → o < len)
    (h0 : s.argv[0]? = some (Slot.ptr a0))
    (hname : ∀ i, i < nm.length → buf[a0 + i]? = nm[i]?)
    (hle : a0 + nm.length ≤ cp1) (hz : buf[a0 + nm.length]? = some 0) :
    LoopInv len a0 nm { s with line := buf, cp := cp1, argv := s.argv.set s.argc (Slot.ptr a1) } := by
  have hlt : s.argc < s.argv.length := by
    rw [hargv]
    simp [NARGS] at hargc ⊢
    omega
  refine ⟨hlen, hend, hcp, by simpa using hargv, Nat.le_of_lt hargc, ?_, ?_, ?_, hout, ?_,
    hname, hle, ?_, fun _ => hz⟩
  · intro _
    exact ⟨a1, by simp [hlt], ha1⟩
  · intro h
    simp only at h
    omega
  · intro j hj
    simp only at hj
    obtain ⟨a, ha, hal⟩ := hslots j hj
    exact ⟨a, by simp only; rw [List.getElem?_set_ne (by omega)]; exact ha, hal⟩
  · simp only
    rw [List.getElem?_set_ne (by omega)]
    exact h0
  · intro h
    simp only at h
    omega

theorem nextArg_inv (len a0 : Nat) (nm : List Nat) (s : Split) (ncp : Nat)
    (hlen : s.line.length = len) (hend : EndsNul s.line) (hncp : ncp < len)
    (hargv : s.argv.length = NARGS) (hargc1 : 1 ≤ s.argc) (hargc : s.argc < NARGS - 1)
    (hslots : ∀ j, j < s.argc → ∃ a, s.argv[j]? = some (Slot.ptr a) ∧ a < len)
    (hout : ∀ o, s.outfile = some o → o < len)
    (h0 : s.argv[0]? = some (Slot.ptr a0))
    (hname : ∀ i, i < nm.length → s.line[a0 + i]? = nm[i]?)
    (hle : a0 + nm.length ≤ ncp) (hz : s.line[a0 + nm.length]? = some 0) :
    ∃ s1, nextArg s ncp = some (Flow.again s1) ∧ LoopInv len a0 nm s1 ∧
      nzFrom s1.line s1.cp ≤ nzFrom s.line ncp := by
  have hlt : s.argc < s.argv.length := by
    rw [hargv]
    simp [NARGS] at hargc ⊢
    omega
  have hset : ∀ v, argvSet s.argv s.argc v = some (s.argv.set s.argc v) := by
    intro v
    simp [argvSet, hlt]
  have hset2 : ∀ v w, argvSet (s.argv.set s.argc v) s.argc w = some (s.argv.set s.argc w) := by
    intro v w
    simp [argvSet, hlt]
  obtain ⟨q, hrd⟩ := rd_some s.line ncp (by omega)
  by_cases hq : q = 34
  · -- a quoted string
    have hncp1 : ncp + 1 < s.line.length :=
      hend.not_last hrd (by rw [hq]; decide)
    obtain ⟨e, he, hle1, hlt1, ⟨c, hc, hcstop⟩, -⟩ := find_eos_total s.line hend (ncp + 1) hncp1
    have hrde : rd s.line e = some c := hc
    by_cases hc34 : c = 34
    · subst hc34
      have he1 : e + 1 < s.line.length := hend.not_last hc (by decide)
      refine ⟨{ s with line := s.line.set e 0, cp := e + 1,
                       argv := s.argv.set s.argc (Slot.ptr (ncp + 1)) }, ?_, ?_, ?_⟩
      · simp only [nextArg, hset, hrd, hq, if_true, he, hrde, hset2, wr_some _ _ _ hlt1,
          ne_eq, not_true_eq_false, if_false]
      · exact inv_next len a0 nm s _ _ _ (by simpa using hlen) (hend.set e) (by omega)
          (by omega) hargv hargc1 hargc hslots hout h0
          (fun i hi => set_zero_keeps e _ _ (hname i hi) (Or.inl (by omega))) (by omega)
          (set_zero_keeps e _ _ hz (Or.inr rfl))
      · simp only
        exact Nat.le_trans (nzFrom_set_le _ _ _) (nzFrom_mono _ (by omega))
    · refine ⟨{ s with cp := ncp, argv := s.argv.set s.argc (Slot.ptr ncp) }, ?_, ?_, ?_⟩
      · simp only [nextArg, hset, hrd, hq, if_true, he, hrde, ne_eq, hc34, not_false_eq_true]
      · exact inv_next len a0 nm s _ _ _ hlen hend hncp hncp hargv hargc1 hargc hslots hout h0
          hname hle hz
      · exact Nat.le_refl _
  · -- a bare word
    obtain ⟨e, he, hle1, hlt1, -, -⟩ := skip_nonspace_total s.line hend ncp (by omega)
    refine ⟨{ s with cp := e, argv := s.argv.set s.argc (Slot.ptr ncp) }, ?_, ?_, ?_⟩
    · simp only [nextArg, hset, hrd, hq, if_false, he]
    · exact inv_next len a0 nm s _ _ _ hlen hend (by omega) hncp hargv hargc1 hargc hslots hout
        h0 hname (by omega) hz
    · exact nzFrom_mono _ hle1

theorem afterArg_lt (s : Split) (ncp : Nat) (h : s.argc < NARGS - 1) :
    afterArg s ncp = nextArg s ncp := by
  unfold afterArg
  rw [if_neg (by omega)]

theorem afterArg_ge (s : Split) (ncp : Nat) (h : s.argc ≥ NARGS - 1) :
    afterArg s ncp = some (Flow.again s) := by
  unfold afterArg
  rw [if_pos h]

theorem step_inv (len a0 : Nat) (nm : List Nat) (hnm : nm ≠ []) (h62 : nm.head? ≠ some 62)
    (s : Split) (h : LoopInv len a0 nm s) :
    (∃ fin, splitStep s = some (Flow.done fin) ∧ LoopEnd len a0 nm fin) ∨
    (∃ s1, splitStep s = some (Flow.again s1) ∧ LoopInv len a0 nm s1 ∧
      nzFrom s1.line s1.cp < nzFrom s.line s.cp) := by
  obtain ⟨hlen, hend, hcp, hargv, hargc, hcur, h19, hslots, hout, h0, hname, hle, hzero0, hz⟩ := h
  have hcplt : s.cp < s.line.length := by omega
  obtain ⟨c, hrd⟩ := rd_some s.line s.cp hcplt
  have hc : s.line[s.cp]? = some c := hrd
  have hnmpos : 0 < nm.length := List.length_pos.mpr hnm
  by_cases hc0 : c = 0
  · -- End of list
    subst hc0
    left
    refine ⟨{ s with argc := s.argc + 1 }, step_done s hrd, hlen, hend, hargv, by simp,
      by simp [NARGS] at hargc ⊢; omega, ?_, hout, h0, hname, ?_⟩
    · intro hlt j hj
      simp only at hlt hj
      by_cases hjc : j = s.argc
      · subst hjc
        exact hcur (by simp [NARGS] at hlt ⊢; omega)
      · exact hslots j (by omega)
    · by_cases hz0 : s.argc = 0
      · rw [← hzero0 hz0]
        exact hc
      · exact hz (by omega)
  · have hargc' : s.argc < NARGS - 1 := by
      by_contra hge
      have := h19 (by omega)
      rw [hc] at this
      exact hc0 (by cases this; rfl)
    obtain ⟨a, ha, halt⟩ := hcur hargc'
    obtain ⟨ncp, hncp, hncple, hncplt, -, -⟩ := skip_space_total s.line hend s.cp hcplt
    have hwr := wr_some s.line s.cp 0 hcplt
    have hend1 : EndsNul (s.line.set s.cp 0) := hend.set s.cp
    have hlen1 : (s.line.set s.cp 0).length = len := by simpa using hlen
    have hget : argvGet s.argv s.argc = some a := by simp [argvGet, ha]
    obtain ⟨a1, hrda⟩ := rd_some (s.line.set s.cp 0) a (by omega)
    have hname1 : ∀ i, i < nm.length → (s.line.set s.cp 0)[a0 + i]? = nm[i]? :=
      fun i hi => set_zero_keeps s.cp _ _ (hname i hi) (Or.inl (by omega))
    have hz1 : 1 ≤ s.argc → (s.line.set s.cp 0)[a0 + nm.length]? = some 0 :=
      fun h1 => set_zero_keeps s.cp _ _ (hz h1) (Or.inr rfl)
    have hmeas : nzFrom (s.line.set s.cp 0) s.cp < nzFrom s.line s.cp :=
      nzFrom_set_lt s.line s.cp c hc hc0
    by_cases h62a : a1 = 62
    · -- Special case for '>'
      subst h62a
      have hargc1 : 1 ≤ s.argc := by
        by_contra h0c
        have hz0 : s.argc = 0 := by omega
        rw [hz0, h0] at ha
        have haa : a = a0 := by cases ha; rfl
        subst haa
        have h1 := hname1 0 hnmpos
        have h2 : (s.line.set s.cp 0)[a]? = some 62 := hrda
        rw [Nat.add_zero, h2] at h1
        apply h62
        rw [List.head?_eq_getElem?]
        exact h1.symm
      have ha1 : a + 1 < (s.line.set s.cp 0).length := hend1.not_last hrda (by decide)
      obtain ⟨c1, hrd1⟩ := rd_some (s.line.set s.cp 0) (a + 1) ha1
      have hcp1 : (if c1 = 62 then a + 2 else a + 1) < (s.line.set s.cp 0).length := by
        split
        · next h => exact hend1.not_last hrd1 (by rw [h]; decide)
        · exact ha1
      obtain ⟨c2, hrd2⟩ := rd_some (s.line.set s.cp 0) (if c1 = 62 then a + 2 else a + 1) hcp1
      by_cases hc2 : c2 = 0
      · -- Get the next argument
        subst hc2
        obtain ⟨e, he, hele, helt, -, -⟩ :=
          skip_nonspace_total (s.line.set s.cp 0) hend1 ncp (by omega)
        obtain ⟨c3, hrd3⟩ := rd_some (s.line.set s.cp 0) e helt
        by_cases hc3 : c3 = 0
        · subst hc3
          left
          refine ⟨{ s with line := s.line.set s.cp 0, cp := e,
                           do_append := if c1 = 62 then true else s.do_append,
                           outfile := some ncp }, ?_, hlen1, hend1, hargv, hargc1,
            by simp [NARGS] at hargc' ⊢; omega, fun _ => hslots, ?_, h0, hname1, hz1 hargc1⟩
          · simp only [splitStep, hrd, hc0, if_false, hncp, hwr, hget, hrda, if_true, hrd1, hrd2,
              ne_eq, not_true_eq_false, he, hrd3]
          · intro o ho
            simp only [Option.some.injEq] at ho
            omega
        · obtain ⟨ncp2, hncp2, hncp2le, hncp2lt, -, -⟩ :=
            skip_space_total (s.line.set s.cp 0) hend1 e helt
          have hwr2 := wr_some (s.line.set s.cp 0) e 0 helt
          have hend2 : EndsNul ((s.line.set s.cp 0).set e 0) := hend1.set e
          have hlen2 : ((s.line.set s.cp 0).set e 0).length = len := by simpa using hlen
          obtain ⟨c4, hrd4⟩ := rd_some ((s.line.set s.cp 0).set e 0) ncp2 (by omega)
          have hname2 : ∀ i, i < nm.length → ((s.line.set s.cp 0).set e 0)[a0 + i]? = nm[i]? :=
            fun i hi => set_zero_keeps e _ _ (hname1 i hi) (Or.inl (by omega))
          have hz2 : ((s.line.set s.cp 0).set e 0)[a0 + nm.length]? = some 0 :=
            set_zero_keeps e _ _ (hz1 hargc1) (Or.inr rfl)
          have hout2 : ∀ o, some ncp = some o → o < len := by
            intro o ho
            simp only [Option.some.injEq] at ho
            omega
          by_cases hc4 : c4 = 0
          · subst hc4
            left
            refine ⟨{ s with line := (s.line.set s.cp 0).set e 0, cp := e,
                             do_append := if c1 = 62 then true else s.do_append,
                             outfile := some ncp }, ?_, hlen2, hend2, hargv, hargc1,
              by simp [NARGS] at hargc' ⊢; omega, fun _ => hslots, hout2, h0, hname2, hz2⟩
            simp only [splitStep, hrd, hc0, if_false, hncp, hwr, hget, hrda, if_true, hrd1, hrd2,
              ne_eq, not_true_eq_false, he, hrd3, hc3, hncp2, hwr2, hrd4]
          · right
            obtain ⟨s1, hs1, hinv, hnz⟩ := nextArg_inv len a0 nm
              { s with line := (s.line.set s.cp 0).set e 0, cp := e,
                       do_append := if c1 = 62 then true else s.do_append,
                       outfile := some ncp } ncp2 hlen2 hend2 (by omega) hargv hargc1 hargc'
              hslots hout2 h0 hname2 (by omega) hz2
            refine ⟨s1, ?_, hinv, ?_⟩
            · simp only [splitStep, hrd, hc0, if_false, hncp, hwr, hget, hrda, if_true, hrd1,
                hrd2, ne_eq, not_true_eq_false, he, hrd3, hc3, hncp2, hwr2, hrd4, hc4]
              refine (afterArg_lt _ _ ?_).trans hs1
              exact hargc'
            · have h1 : nzFrom ((s.line.set s.cp 0).set e 0) ncp2
                  ≤ nzFrom (s.line.set s.cp 0) s.cp :=
                Nat.le_trans (nzFrom_set_le _ _ _) (nzFrom_mono _ (by omega))
              simp only at hnz
              omega
      · -- Filename immediately follows '>'
        right
        obtain ⟨s1, hs1, hinv, hnz⟩ := nextArg_inv len a0 nm
          { s with line := s.line.set s.cp 0, cp := if c1 = 62 then a + 2 else a + 1,
                   do_append := if c1 = 62 then true else s.do_append,
                   outfile := some (if c1 = 62 then a + 2 else a + 1) } ncp hlen1 hend1
          (by omega) hargv hargc1 hargc' hslots
          (by
            intro o ho
            simp only [Option.some.injEq] at ho
            omega) h0 hname1 (by omega) (hz1 hargc1)
        refine ⟨s1, ?_, hinv, ?_⟩
        · simp only [splitStep, hrd, hc0, if_false, hncp, hwr, hget, hrda, if_true, hrd1, hrd2,
            ne_eq, hc2, not_false_eq_true]
          refine (afterArg_lt _ _ ?_).trans hs1
          exact hargc'
        · have h1 : nzFrom (s.line.set s.cp 0) ncp ≤ nzFrom (s.line.set s.cp 0) s.cp :=
            nzFrom_mono _ hncple
          simp only at hnz
          omega
    · -- an argument ends
      right
      have hz1' : (s.line.set s.cp 0)[a0 + nm.length]? = some 0 := by
        by_cases hz0 : s.argc = 0
        · rw [← hzero0 hz0]
          simp [hcplt]
        · exact hz1 (by omega)
      have hslots1 : ∀ j, j < s.argc + 1 → ∃ a, s.argv[j]? = some (Slot.ptr a) ∧ a < len := by
        intro j hj
        by_cases hjc : j = s.argc
        · subst hjc
          exact ⟨a, ha, halt⟩
        · exact hslots j (by omega)
      by_cases hk : s.argc + 1 ≥ NARGS - 1
      · refine ⟨{ s with line := s.line.set s.cp 0, argc := s.argc + 1 }, ?_, ?_, hmeas⟩
        · simp only [splitStep, hrd, hc0, if_false, hncp, hwr, hget, hrda, h62a]
          exact afterArg_ge _ _ hk
        · refine ⟨hlen1, hend1, hcp, hargv, by simp [NARGS] at hargc' ⊢; omega, ?_, ?_, hslots1,
            hout, h0, hname1, hle, ?_, fun _ => hz1'⟩
          · intro hlt
            simp only at hlt
            omega
          · intro _
            simp [hcplt]
          · intro h
            simp only at h
            omega
      · obtain ⟨s1, hs1, hinv, hnz⟩ := nextArg_inv len a0 nm
          { s with line := s.line.set s.cp 0, argc := s.argc + 1 } ncp hlen1 hend1 (by omega)
          hargv (by simp) (by simp only; omega) hslots1 hout h0 hname1 (by omega) hz1'
        refine ⟨s1, ?_, hinv, ?_⟩
        · simp only [splitStep, hrd, hc0, if_false, hncp, hwr, hget, hrda, h62a]
          rw [afterArg_lt _ _ (by simp only; omega)]
          exact hs1
        · have h1 : nzFrom (s.line.set s.cp 0) ncp ≤ nzFrom (s.line.set s.cp 0) s.cp :=
            nzFrom_mono _ hncple
          simp only at hnz
          omega

/-! ## The loop as a whole, and the steps before it -/

theorem nzFrom_le_length (buf : List Nat) (p : Nat) : nzFrom buf p ≤ buf.length := by
  unfold nzFrom
  exact Nat.le_trans (List.countP_le_length _) (by rw [List.length_drop]; omega)

theorem splitLoop_inv (len a0 : Nat) (nm : List Nat) (hnm : nm ≠ []) (h62 : nm.head? ≠ some 62) :
    ∀ (fuel : Nat) (s : Split), LoopInv len a0 nm s → nzFrom s.line s.cp < fuel →
      ∃ fin, splitLoop fuel s = some fin ∧ LoopEnd len a0 nm fin := by
  intro fuel
  induction fuel with
  | zero => intro s _ h; omega
  | succ fuel ih =>
    intro s hinv hfuel
    rcases step_inv len a0 nm hnm h62 s hinv with ⟨fin, hstep, hfin⟩ | ⟨s1, hstep, hinv1, hlt⟩
    · exact ⟨fin, by simp [splitLoop, hstep], hfin⟩
    · obtain ⟨fin, hloop, hfin⟩ := ih s1 hinv1 (by omega)
      exact ⟨fin, by simp [splitLoop, hstep, hloop], hfin⟩

theorem drop_ends (buf : List Nat) (h : EndsNul buf) (p : Nat) (hp : p < buf.length) :
    ∃ s, buf.drop p = s ++ [0] := by
  have hne : buf.drop p ≠ [] := by
    intro h0
    have := congrArg List.length h0
    simp at this
    omega
  refine ⟨(buf.drop p).dropLast, ?_⟩
  have hlast : (buf.drop p).getLast hne = 0 := by
    have h1 : (buf.drop p).getLast? = some 0 := by
      rw [List.getLast?_eq_getElem?, List.getElem?_drop, List.length_drop]
      have : p + (buf.length - p - 1) = buf.length - 1 := by omega
      rw [this]
      exact h.2
    rw [List.getLast?_eq_getLast _ hne] at h1
    exact Option.some.inj h1
  rw [← hlast]
  exact (List.dropLast_append_getLast hne).symm

theorem findIdx_some {α : Type} (p : α → Bool) :
    ∀ (l : List α) (s i : Nat), l.findIdx? p s = some i →
      s ≤ i ∧ ∃ x, l[i - s]? = some x ∧ p x = true := by
  intro l
  induction l with
  | nil => intro s i h; simp [List.findIdx?] at h
  | cons x xs ih =>
    intro s i h
    rw [List.findIdx?_cons] at h
    by_cases hx : p x = true
    · rw [if_pos hx] at h
      cases h
      exact ⟨Nat.le_refl _, x, by simp, hx⟩
    · rw [if_neg hx] at h
      obtain ⟨hle, y, hy, hpy⟩ := ih (s + 1) i h
      refine ⟨by omega, y, ?_, hpy⟩
      have : i - s = (i - (s + 1)) + 1 := by omega
      rw [this, List.getElem?_cons_succ]
      exact hy

theorem isPrefixOf_get (nm buf : List Nat) (p : Nat)
    (h : (nm ++ [32]).isPrefixOf (buf.drop p) = true) :
    (∀ i, i < nm.length → buf[p + i]? = nm[i]?) ∧ buf[p + nm.length]? = some 32 := by
  rw [List.isPrefixOf_iff_prefix] at h
  obtain ⟨t, ht⟩ := h
  have hget : ∀ i, buf[p + i]? = (nm ++ [32] ++ t)[i]? := by
    intro i
    rw [ht, List.getElem?_drop]
  constructor
  · intro i hi
    rw [hget, List.append_assoc, List.getElem?_append_left hi]
  · rw [hget, List.append_assoc, List.getElem?_append_right (Nat.le_refl _)]
    simp

theorem trim_total (cp : Nat) : ∀ (len : Nat) (buf : List Nat), cp + len ≤ buf.length →
    ∃ line1, trimTrailing cp len buf = some line1 ∧ line1.length = buf.length ∧
      ∀ i : Nat, line1[i]? = buf[i]? ∨
        (line1[i]? = some 0 ∧ ∃ c, buf[i]? = some c ∧ isspace c = true) := by
  intro len
  induction len with
  | zero => intro buf _; exact ⟨buf, rfl, rfl, fun i => Or.inl rfl⟩
  | succ len ih =>
    intro buf h
    have hlt : cp + len < buf.length := by omega
    obtain ⟨c, hc⟩ := rd_some buf (cp + len) hlt
    by_cases hsp : isspace c = true
    · obtain ⟨line1, h1, hl1, hp1⟩ := ih (buf.set (cp + len) 0) (by simp; omega)
      refine ⟨line1, ?_, by simpa using hl1, ?_⟩
      · simp only [trimTrailing, hc, hsp, if_true, wr_some buf (cp + len) 0 hlt, h1]
      · intro i
        by_cases hi : i = cp + len
        · subst hi
          right
          refine ⟨?_, c, hc, hsp⟩
          rcases hp1 (cp + len) with h2 | ⟨h2, -⟩
          · rw [h2]; simp [hlt]
          · exact h2
        · rcases hp1 i with h2 | ⟨h2, c2, hc2, hs2⟩
          · left
            rw [h2, List.getElem?_set_ne (Ne.symm hi)]
          · right
            refine ⟨h2, c2, ?_, hs2⟩
            rw [← hc2, List.getElem?_set_ne (Ne.symm hi)]
    · refine ⟨buf, ?_, rfl, fun i => Or.inl rfl⟩
      simp only [trimTrailing, hc, hsp]
      simp

theorem strlen_total (buf : List Nat) (h : EndsNul buf) (p : Nat) (hp : p < buf.length) :
    ∃ len, strlen buf p = some len ∧ p + len < buf.length := by
  obtain ⟨q, hq, hle, hlt, -, -⟩ :=
    scan_total (fun c => c != 0) (by rfl) buf h _ p (Nat.le_refl _) hp
  exact ⟨q - p, by simp [strlen, hq], by omega⟩

theorem entry_inv (buf : List Nat) (hend : EndsNul buf) (cp : Nat) (hcp : cp < buf.length)
    (nm : List Nat) (hnm : IsTok nm) (hpre : (nm ++ [32]).isPrefixOf (buf.drop cp) = true) :
    ∃ len line1, strlen buf cp = some len ∧ trimTrailing cp len buf = some line1 ∧
      skip_nonspace line1 cp = some (cp + nm.length) ∧
      LoopInv buf.length cp nm
        { line := line1, cp := cp + nm.length, argc := 0,
          argv := (List.replicate NARGS Slot.uninit).set 0 (Slot.ptr cp),
          outfile := none, do_append := false } := by
  obtain ⟨hname, h32⟩ := isPrefixOf_get nm buf cp hpre
  obtain ⟨len, hlen, hlenlt⟩ := strlen_total buf hend cp hcp
  obtain ⟨line1, htrim, hl1, hpt⟩ := trim_total cp len buf (by omega)
  have hend1 : EndsNul line1 := by
    refine ⟨by rw [hl1]; exact hend.1, ?_⟩
    rw [hl1]
    rcases hpt (buf.length - 1) with h | ⟨h, -⟩
    · rw [h]; exact hend.2
    · exact h
  have hname1 : ∀ i, i < nm.length → line1[cp + i]? = nm[i]? := by
    intro i hi
    rcases hpt (cp + i) with h | ⟨-, c, hc, hsp⟩
    · rw [h]; exact hname i hi
    · rw [hname i hi, List.getElem?_eq_getElem hi] at hc
      have := (hnm.2 _ (List.getElem_mem hi)).2
      rw [Option.some.inj hc] at this
      rw [this] at hsp
      cases hsp
  have hstop : ∃ c, line1[cp + nm.length]? = some c ∧ (c != 0 && !isspace c) = false := by
    rcases hpt (cp + nm.length) with h | ⟨h, -⟩
    · exact ⟨32, by rw [h]; exact h32, by decide⟩
    · exact ⟨0, h, by decide⟩
  have hnmlt : cp + nm.length < buf.length := by
    have := (List.getElem?_eq_some_iff.mp h32).1
    exact this
  obtain ⟨q, hq, hqle, hqlt, ⟨cq, hcq, hgq⟩, hbefore⟩ :=
    skip_nonspace_total line1 hend1 cp (by omega)
  have hqeq : q = cp + nm.length := by
    rcases Nat.lt_trichotomy q (cp + nm.length) with h | h | h
    · exfalso
      have h1 := hname1 (q - cp) (by omega)
      have hq' : cp + (q - cp) = q := by omega
      rw [hq', hcq, List.getElem?_eq_getElem (by omega)] at h1
      have hmem := hnm.2 _ (List.getElem_mem (show q - cp < nm.length by omega))
      rw [← Option.some.inj h1] at hmem
      simp [hmem.1, hmem.2] at hgq
    · exact h
    · exfalso
      obtain ⟨c, hc, hgo⟩ := hbefore (cp + nm.length) (by omega) h
      obtain ⟨c1, hc1, hgo1⟩ := hstop
      rw [hc] at hc1
      rw [Option.some.inj hc1, hgo1] at hgo
      cases hgo
  subst hqeq
  refine ⟨len, line1, hlen, htrim, hq, hl1, hend1, hnmlt, by simp, by simp [NARGS],
    ?_, ?_, ?_, ?_, ?_, hname1, Nat.le_refl _, fun _ => rfl, ?_⟩
  · intro _
    exact ⟨cp, by simp [NARGS], hcp⟩
  · intro h
    simp [NARGS] at h
  · intro j hj
    simp at hj
  · intro o ho
    simp at ho
  · simp [NARGS]
  · intro h
    simp at h

theorem cstrFrom_total : ∀ (l : List Nat), 0 ∈ l → ∃ s, cstrFrom l = some s := by
  intro l
  induction l with
  | nil => intro h; simp at h
  | cons c rest ih =>
    intro h
    by_cases hc : c = 0
    · exact ⟨[], by simp [cstrFrom, hc]⟩
    · have hr : 0 ∈ rest := by
        rcases List.mem_cons.mp h with h1 | h1
        · exact absurd h1.symm hc
        · exact h1
      obtain ⟨s, hs⟩ := ih hr
      exact ⟨c :: s, by simp [cstrFrom, hc, hs]⟩

theorem cstr_total (buf : List Nat) (h : EndsNul buf) (p : Nat) (hp : p < buf.length) :
    ∃ s, cstr buf p = some s := by
  obtain ⟨s, hs⟩ := drop_ends buf h p hp
  exact cstrFrom_total _ (by rw [hs]; simp)

theorem cstr_name (buf nm : List Nat) (a0 : Nat) (h0 : ∀ c ∈ nm, c ≠ 0)
    (hname : ∀ i, i < nm.length → buf[a0 + i]? = nm[i]?)
    (hz : buf[a0 + nm.length]? = some 0) : cstr buf a0 = some nm := by
  have hlt : a0 + nm.length < buf.length := (List.getElem?_eq_some_iff.mp hz).1
  have hdrop : buf.drop a0 = nm ++ 0 :: buf.drop (a0 + nm.length + 1) := by
    apply List.ext_getElem?
    intro i
    rw [List.getElem?_drop]
    by_cases hi : i < nm.length
    · rw [List.getElem?_append_left hi]
      exact hname i hi
    · rw [List.getElem?_append_right (by omega)]
      by_cases hi2 : i = nm.length
      · subst hi2
        simpa using hz
      · have : i - nm.length = (i - nm.length - 1) + 1 := by omega
        rw [this, List.getElem?_cons_succ, List.getElem?_drop]
        congr 1
        omega
  rw [cstr, hdrop]
  exact cstrFrom_run nm _ h0

theorem argStrings_total (buf : List Nat) (hend : EndsNul buf) (argv : List Slot) :
    ∀ (n i : Nat), (∀ j, i ≤ j → j < i + n → ∃ a, argv[j]? = some (Slot.ptr a) ∧ a < buf.length) →
      ∃ l, argStrings buf argv i n = some l ∧ l.length = n := by
  intro n
  induction n with
  | zero => intro i _; exact ⟨[], rfl, rfl⟩
  | succ n ih =>
    intro i h
    obtain ⟨a, ha, halt⟩ := h i (Nat.le_refl _) (by omega)
    obtain ⟨s, hs⟩ := cstr_total buf hend a halt
    obtain ⟨l, hl, hlen⟩ := ih (i + 1) (fun j h1 h2 => h j (by omega) (by omega))
    exact ⟨s :: l, by simp [argStrings, argvGet, ha, hs, hl], by simp [hlen]⟩

theorem lookup_some (buf : List Nat) (hend : EndsNul buf) (cp : Nat) (hcp : cp < buf.length)
    (bp : Nat) (h : findBuiltin buf cp builtin_cmds 0 = some (some bp)) :
    ∃ nm, builtin_cmds[bp]? = some nm ∧ (nm ++ [32]).isPrefixOf (buf.drop cp) = true := by
  obtain ⟨s, hs⟩ := drop_ends buf hend cp hcp
  rw [findBuiltin_eq buf cp s [] hs builtin_cmds
    (fun name hn c hc => ((builtin_cmds_ok name hn).1.2 c hc).1) 0] at h
  obtain ⟨-, nm, hnm, hp⟩ := findIdx_some _ _ _ _ (Option.some.inj h)
  exact ⟨nm, by simpa using hnm, hp⟩

theorem loop_from_entry (buf : List Nat) (hend : EndsNul buf) (cp : Nat) (hcp : cp < buf.length)
    (nm : List Nat) (hmem : nm ∈ builtin_cmds)
    (hpre : (nm ++ [32]).isPrefixOf (buf.drop cp) = true) :
    ∃ len line1 fin, strlen buf cp = some len ∧ trimTrailing cp len buf = some line1 ∧
      skip_nonspace line1 cp = some (cp + nm.length) ∧
      splitLoop (buf.length + 1)
        { line := line1, cp := cp + nm.length, argc := 0,
          argv := (List.replicate NARGS Slot.uninit).set 0 (Slot.ptr cp),
          outfile := none, do_append := false } = some fin ∧
      LoopEnd buf.length cp nm fin := by
  obtain ⟨htok, h62, -, -⟩ := builtin_cmds_ok nm hmem
  obtain ⟨len, line1, hlen, htrim, hskip, hinv⟩ := entry_inv buf hend cp hcp nm htok hpre
  obtain ⟨fin, hloop, hfin⟩ := splitLoop_inv buf.length cp nm htok.1 h62 (buf.length + 1) _ hinv
    (by
      have h1 := nzFrom_le_length line1 (cp + nm.length)
      have h2 : line1.length = buf.length := hinv.1
      simp only
      omega)
  exact ⟨len, line1, fin, hlen, htrim, hskip, hloop, hfin⟩

theorem parseCmd_total (buf : List Nat) (hend : EndsNul buf) :
    parseCmd buf = Parse.blank ∨ parseCmd buf = Parse.nothingFound ∨
    parseCmd buf = Parse.tooManyArgs ∨
    ∃ p nm a0, parseCmd buf = Parse.ok p ∧ builtin_cmds[p.bp]? = some nm ∧
      p.argv.length = NARGS ∧ 1 ≤ p.argc ∧ p.argc < NARGS ∧
      p.argv[p.argc]? = some Slot.null ∧
      (∀ j, j < p.argc → ∃ a, p.argv[j]? = some (Slot.ptr a) ∧ a < p.line.length) ∧
      EndsNul p.line ∧ p.line.length = buf.length ∧
      (∀ o, p.outfile = some o → o < p.line.length) ∧
      p.argv[0]? = some (Slot.ptr a0) ∧
      (∀ i, i < nm.length → p.line[a0 + i]? = nm[i]?) ∧
      p.line[a0 + nm.length]? = some 0 := by
  obtain ⟨cp, hcp, -, hcplt, -, -⟩ := skip_space_total buf hend 0 hend.1
  obtain ⟨c, hc⟩ := rd_some buf cp hcplt
  by_cases hblank : c = 0 ∨ c = 35
  · left
    simp only [parseCmd, hcp, hc, hblank, if_true]
  · obtain ⟨s, hs⟩ := drop_ends buf hend cp hcplt
    have hfind := findBuiltin_eq buf cp s [] hs builtin_cmds
      (fun name hn c hc => ((builtin_cmds_ok name hn).1.2 c hc).1) 0
    cases hidx : builtin_cmds.findIdx? (fun name => (name ++ [32]).isPrefixOf (buf.drop cp)) 0 with
    | none =>
      right; left
      rw [hidx] at hfind
      simp only [parseCmd, hcp, hc, hblank, if_false, hfind]
    | some bp =>
      rw [hidx] at hfind
      obtain ⟨nm, hnm, hpre⟩ := lookup_some buf hend cp hcplt bp hfind
      have hmem : nm ∈ builtin_cmds := List.getElem?_mem hnm
      obtain ⟨len, line1, fin, hlen, htrim, hskip, hloop, hfin⟩ :=
        loop_from_entry buf hend cp hcplt nm hmem hpre
      obtain ⟨hl, hfend, hargv, h1, hle, hslots, hout, h0, hname, hz⟩ := hfin
      have hset : argvSet (List.replicate NARGS Slot.uninit) 0 (Slot.ptr cp)
          = some ((List.replicate NARGS Slot.uninit).set 0 (Slot.ptr cp)) := by
        simp [argvSet, NARGS]
      by_cases hmany : fin.argc ≥ NARGS
      · right; right; left
        simp only [parseCmd, hcp, hc, hblank, if_false, hfind, hlen, htrim, hset, hskip, hloop,
          hmany, if_true]
      · right; right; right
        have hlt : fin.argc < NARGS := by omega
        have hset2 : argvSet fin.argv fin.argc Slot.null
            = some (fin.argv.set fin.argc Slot.null) := by
          simp [argvSet, hargv, hlt]
        refine ⟨{ bp := bp, argc := fin.argc, argv := fin.argv.set fin.argc Slot.null,
                  line := fin.line, outfile := fin.outfile, do_append := fin.do_append },
          nm, cp, ?_, hnm, by simp [hargv], h1, hlt, by simp [hargv, hlt], ?_, hfend, hl, ?_,
          ?_, hname, hz⟩
        · simp only [parseCmd, hcp, hc, hblank, if_false, hfind, hlen, htrim, hset, hskip, hloop,
            hmany, hset2]
        · intro j hj
          obtain ⟨a, ha, halt⟩ := hslots hlt j hj
          refine ⟨a, ?_, by simp only; omega⟩
          simp only at hj ⊢
          rw [List.getElem?_set_ne (by omega)]
          exact ha
        · intro o ho
          have := hout o ho
          simp only
          omega
        · simp only
          rw [List.getElem?_set_ne (by omega)]
          exact h0

theorem parsed_args (p : Parsed) (nm : List Nat) (a0 : Nat) (hnm : ∀ c ∈ nm, c ≠ 0)
    (h1 : 1 ≤ p.argc)
    (hslots : ∀ j, j < p.argc → ∃ a, p.argv[j]? = some (Slot.ptr a) ∧ a < p.line.length)
    (hend : EndsNul p.line) (h0 : p.argv[0]? = some (Slot.ptr a0))
    (hname : ∀ i, i < nm.length → p.line[a0 + i]? = nm[i]?)
    (hz : p.line[a0 + nm.length]? = some 0) :
    ∃ rest, p.args = some (nm :: rest) ∧ rest.length + 1 = p.argc := by
  obtain ⟨n, hn⟩ : ∃ n, p.argc = n + 1 := ⟨p.argc - 1, by omega⟩
  obtain ⟨l, hl, hlen⟩ := argStrings_total p.line hend p.argv n 1
    (fun j _ hj => hslots j (by omega))
  refine ⟨l, ?_, by omega⟩
  simp [Parsed.args, hn, argStrings, argvGet, h0, cstr_name p.line nm a0 hnm hname hz, hl]

/-! ## Handler invocations -/

theorem invoke_calls {σ : Type} (sys : Sys σ) (s : σ) (log : List Call) (p : Parsed) :
    (invoke (recordCalls sys) (s, log) p).1.2 = log ∨
    ((invoke (recordCalls sys) (s, log) p).2 = none ∧
      ∃ args, p.args = some args ∧
        (invoke (recordCalls sys) (s, log) p).1.2 = log ++ [(p.bp, p.argc, args)]) := by
  cases hargs : p.args with
  | none => left; simp [invoke, hargs]
  | some args =>
    cases hout : p.outfile with
    | none => right; simp [invoke, hargs, hout, recordCalls]
    | some o =>
      cases hpath : cstr p.line o with
      | none => left; simp [invoke, hargs, hout, hpath]
      | some path =>
        rcases hopen : sys.openOut s path p.do_append with ⟨s1, _ | out_fd⟩
        · left
          simp [invoke, hargs, hout, hpath, recordCalls, hopen]
        · rcases hdup : sys.dup (sys.fflush s1) 1 with ⟨s2, _ | saved_fd⟩
          · left
            simp [invoke, hargs, hout, hpath, recordCalls, hopen, hdup]
          · right
            simp [invoke, hargs, hout, hpath, recordCalls, hopen, hdup]

theorem processLine_calls {σ : Type} (sys : Sys σ) (s : σ) (log : List Call)
    (chunk : List Nat) :
    (processLine (recordCalls sys) (s, log) chunk).1.2 = log ∨
    ((processLine (recordCalls sys) (s, log) chunk).2 = none ∧
      ∃ call, lineCall chunk = some call ∧
        (processLine (recordCalls sys) (s, log) chunk).1.2 = log ++ [call]) := by
  unfold processLine lineCall
  cases strchrFrom 10 (chunk ++ [0]) 0 with
  | none => left; rfl
  | some r =>
    cases r with
    | none => left; rfl
    | some k =>
      cases hp : parseCmd (chunk ++ [0]) with
      | blank => left; rfl
      | nothingFound => left; rfl
      | tooManyArgs => left; rfl
      | stuck => left; rfl
      | ok p =>
        rcases invoke_calls sys s log p with h | ⟨h1, args, hargs, h2⟩
        · left; exact h
        · right
          exact ⟨h1, (p.bp, p.argc, args), by simp [hargs], h2⟩

theorem drain_calls {σ : Type} (sys : Sys σ) :
    ∀ (fuel : Nat) (s : σ) (log : List Call) (content : List Nat),
      ∃ idx : List Nat, idx.Pairwise (fun i j => i < j) ∧
        (∀ i ∈ idx, i < (chunks fuel content).length) ∧
        ((drain (recordCalls sys) fuel (s, log) content).1.2).map some
          = log.map some ++ idx.map (fun i => (chunks fuel content)[i]?.bind lineCall) := by
  intro fuel
  induction fuel with
  | zero => intro s log content; exact ⟨[], List.Pairwise.nil, by simp, by simp [drain]⟩
  | succ fuel ih =>
    intro s log content
    cases hget : fgets LINE_SIZE content with
    | none => exact ⟨[], List.Pairwise.nil, by simp, by simp [drain, hget]⟩
    | some cr =>
      obtain ⟨chunk, rest⟩ := cr
      have hchunks : chunks (fuel + 1) content = chunk :: chunks fuel rest := by
        simp [chunks, hget]
      rcases hline : processLine (recordCalls sys) (s, log) chunk with ⟨⟨s1, log1⟩, stop⟩
      have hcalls := processLine_calls sys s log chunk
      rw [hline] at hcalls
      simp only at hcalls
      cases stop with
      | some st =>
        have hdrain : (drain (recordCalls sys) (fuel + 1) (s, log) content).1.2 = log1 := by
          simp [drain, hget, hline]
        rcases hcalls with h | ⟨h, -⟩
        · exact ⟨[], List.Pairwise.nil, by simp, by simp [hdrain, h]⟩
        · cases h
      | none =>
        have hdrain : drain (recordCalls sys) (fuel + 1) (s, log) content
            = drain (recordCalls sys) fuel (s1, log1) rest := by
          simp [drain, hget, hline]
        obtain ⟨idx, hpw, hrange, hmap⟩ := ih s1 log1 rest
        have hshift : List.map (fun i => (chunks (fuel + 1) content)[i]?.bind lineCall)
            (idx.map (fun i => i + 1))
            = idx.map (fun i => (chunks fuel rest)[i]?.bind lineCall) := by
          rw [List.map_map]
          apply List.map_congr_left
          intro i _
          simp [hchunks]
        have hpw1 : (idx.map (fun i => i + 1)).Pairwise (fun i j => i < j) := by
          rw [List.pairwise_map]
          exact hpw.imp (fun h => Nat.succ_lt_succ h)
        have hrange1 : ∀ i ∈ idx.map (fun i => i + 1), i < (chunks (fuel + 1) content).length := by
          intro i hi
          obtain ⟨j, hj, rfl⟩ := List.mem_map.mp hi
          have := hrange j hj
          simp [hchunks]
          omega
        rcases hcalls with h | ⟨-, call, hcall, h⟩
        · refine ⟨idx.map (fun i => i + 1), hpw1, hrange1, ?_⟩
          rw [hdrain, hmap, hshift, h]
        · refine ⟨0 :: idx.map (fun i => i + 1), ?_, ?_, ?_⟩
          · rw [List.pairwise_cons]
            refine ⟨?_, hpw1⟩
            intro i hi
            obtain ⟨j, -, rfl⟩ := List.mem_map.mp hi
            omega
          · intro i hi
            rcases List.mem_cons.mp hi with h0 | h1
            · subst h0; simp [hchunks]
            · exact hrange1 i h1
          · rw [hdrain, hmap, List.map_cons, hshift, h]
            simp [hchunks, hcall]

theorem lineCall_name (chunk : List Nat) (call : Call) (h : lineCall chunk = some call) :
    ∃ nm rest, builtin_cmds[call.1]? = some nm ∧ call.2.2 = nm :: rest ∧
      call.2.1 = rest.length + 1 ∧ call.2.1 < NARGS := by
  unfold lineCall at h
  have hend : EndsNul (chunk ++ [0]) := ⟨by simp, by simp⟩
  rcases parseCmd_total (chunk ++ [0]) hend with h1 | h1 | h1 |
    ⟨p, nm, a0, hp, hnm, -, h1, hlt, -, hslots, hpend, -, -, h0, hname, hz⟩
  · rw [h1] at h; cases h
  · rw [h1] at h; cases h
  · rw [h1] at h; cases h
  · obtain ⟨rest, hargs, hlen⟩ := parsed_args p nm a0
      (fun c hc => ((builtin_cmds_ok nm (List.getElem?_mem hnm)).1.2 c hc).1)
      h1 hslots hpend h0 hname hz
    rw [hp] at h
    simp only [hargs] at h
    cases h
    exact ⟨nm, rest, hnm, rfl, hlen.symm, hlt⟩

theorem IsLine.pos (l : List Nat) (h : IsLine l) : 0 < l.length := by
  rw [h.1]
  simp

theorem joinLines_length (ls : List (List Nat)) (h : ∀ l ∈ ls, IsLine l) :
    ls.length ≤ (joinLines ls).length := by
  induction ls with
  | nil => simp
  | cons l ls ih =>
    have h1 := IsLine.pos l (h l (by simp))
    have h2 := ih (fun x hx => h x (by simp [hx]))
    simp only [joinLines, List.length_cons, List.length_append]
    omega

theorem chunks_joinLines : ∀ (ls : List (List Nat)) (fuel : Nat), (∀ l ∈ ls, IsLine l) →
    ls.length < fuel → chunks fuel (joinLines ls) = ls := by
  intro ls
  induction ls with
  | nil =>
    intro fuel _ hf
    obtain ⟨f, rfl⟩ : ∃ f, fuel = f + 1 := ⟨fuel - 1, by omega⟩
    simp [chunks, joinLines, fgets]
  | cons l ls ih =>
    intro fuel h hf
    obtain ⟨f, rfl⟩ : ∃ f, fuel = f + 1 := ⟨fuel - 1, by omega⟩
    have hl := fgets_isLine l (joinLines ls) (h l (by simp))
    have hrest := ih f (fun x hx => h x (by simp [hx])) (by simpa using hf)
    simp [chunks, joinLines, hl, hrest]

/-- The chunks `process` reads from a file made of lines within the read
window are those lines. -/
theorem queueLines_joinLines (ls : List (List Nat)) (h : ∀ l ∈ ls, IsLine l) :
    queueLines (joinLines ls) = ls :=
  chunks_joinLines ls _ h (Nat.lt_succ_of_le (joinLines_length ls h))

/-! ## The redirection harness on a descriptor table -/

theorem lowestFree_spec (l : List (Option Nat)) (i : Nat) (h : lowestFree l = some i) :
    l[i]? = some none := by
  obtain ⟨-, x, hx, hnone⟩ := findIdx_some _ _ _ _ h
  cases x with
  | none => simpa using hx
  | some v => simp at hnone

theorem harness_restores (openOk : List Nat → Bool)
    (handler : Nat → Fds → Nat → List (List Nat) → Fds) (t : Fds) (st : Nat) (p : Parsed)
    (h1 : t.fds[1]? = some (some st))
    (hk : ∀ fd, fd = 1 ∨ saveSlot t = some fd →
      ∀ bp u argc args s, u.fds[fd]? = some (some s) →
        (handler bp u argc args).fds[fd]? = some (some s)) :
    (invoke (recordCalls (fdSys openOk handler)) (t, []) p).1.1.fds[1]? = t.fds[1]? ∧
    ((invoke (recordCalls (fdSys openOk handler)) (t, []) p).2 = some Stop.openFailed ∨
      (invoke (recordCalls (fdSys openOk handler)) (t, []) p).2 = some Stop.dupFailed →
      (invoke (recordCalls (fdSys openOk handler)) (t, []) p).1.2 = []) := by
  cases hargs : p.args with
  | none => simp [invoke, hargs]
  | some args =>
    cases hout : p.outfile with
    | none =>
      simp [invoke, hargs, hout, recordCalls, fdSys]
      rw [h1]
      exact hk 1 (Or.inl rfl) _ _ _ _ _ h1
    | some o =>
      cases hpath : cstr p.line o with
      | none => simp [invoke, hargs, hout, hpath]
      | some path =>
        cases hok : openOk path with
        | false => simp [invoke, hargs, hout, hpath, recordCalls, fdSys, fdOpen, hok]
        | true =>
          cases hfree : lowestFree t.fds with
          | none => simp [invoke, hargs, hout, hpath, recordCalls, fdSys, fdOpen, hok, hfree]
          | some ofd =>
            have hofd := lowestFree_spec _ _ hfree
            have hofd1 : ofd ≠ 1 := by
              intro h
              rw [h, h1] at hofd
              cases hofd
            have hlen1 : 1 < t.fds.length := (List.getElem?_eq_some_iff.mp h1).1
            have hget1 : (t.fds.set ofd (some t.fresh))[1]? = some (some st) := by
              rw [List.getElem?_set_ne hofd1]
              exact h1
            cases hfree2 : lowestFree (t.fds.set ofd (some t.fresh)) with
            | none =>
              simp [invoke, hargs, hout, hpath, recordCalls, fdSys, fdOpen, hok, hfree, fdDup,
                hget1, hfree2, fdClose]
              rw [List.getElem?_set_ne hofd1]
            | some sv =>
              have hsv := lowestFree_spec _ _ hfree2
              have hsv1 : sv ≠ 1 := by
                intro h
                rw [h, hget1] at hsv
                cases hsv
              have hsvo : sv ≠ ofd := by
                intro h
                have hlt : ofd < t.fds.length := (List.getElem?_eq_some_iff.mp hofd).1
                rw [h, List.getElem?_set_self hlt] at hsv
                cases hsv
              have hslot : saveSlot t = some sv := by
                simp [saveSlot, fdOpen, hfree, fdDup, hget1, hfree2]
              have hkeep := hk sv (Or.inr hslot)
              have hkeep1 := hk 1 (Or.inl rfl)
              have hsvlt : sv < t.fds.length := by
                have := (List.getElem?_eq_some_iff.mp hsv).1
                simpa using this
              have hofdlt : ofd < t.fds.length := (List.getElem?_eq_some_iff.mp hofd).1
              have hget2 : ((t.fds.set ofd (some t.fresh)).set sv (some st))[ofd]?
                  = some (some t.fresh) := by
                rw [List.getElem?_set_ne hsvo, List.getElem?_set_self hofdlt]
              simp only [invoke, hargs, hout, hpath, recordCalls, fdSys, fdOpen, hok, if_true,
                hfree, fdDup, hget1, hfree2, fdDup2, hget2, fdClose]
              have hu3 : ((((t.fds.set ofd (some t.fresh)).set sv (some st)).set 1
                  (some t.fresh)).set ofd none)[sv]? = some (some st) := by
                rw [List.getElem?_set_ne (Ne.symm hsvo), List.getElem?_set_ne (Ne.symm hsv1),
                  List.getElem?_set_self (by simpa using hsvlt)]
              have hu31 : ((((t.fds.set ofd (some t.fresh)).set sv (some st)).set 1
                  (some t.fresh)).set ofd none)[1]? = some (some t.fresh) := by
                rw [List.getElem?_set_ne hofd1, List.getElem?_set_self (by simpa using hlen1)]
              rw [hkeep _ _ _ _ _ hu3]
              simp only
              refine ⟨?_, by simp⟩
              have h4 := hkeep1 p.bp ⟨(((t.fds.set ofd (some t.fresh)).set sv (some st)).set 1
                  (some t.fresh)).set ofd none, t.fresh + 1⟩ p.argc args _ hu31
              have hlen4 := (List.getElem?_eq_some_iff.mp h4).1
              rw [List.getElem?_set_ne hsv1, List.getElem?_set_self hlen4, h1]

theorem fdOpen_keeps (ok : Bool) (u : Fds) (fd s : Nat) (h : u.fds[fd]? = some (some s)) :
    (fdOpen ok u).1.fds[fd]? = some (some s) := by
  unfold fdOpen
  cases ok with
  | false => exact h
  | true =>
    cases hfree : lowestFree u.fds with
    | none => exact h
    | some ofd =>
      have hofd := lowestFree_spec _ _ hfree
      have hne : ofd ≠ fd := by
        intro he
        rw [he, h] at hofd
        cases hofd
      simp only [if_true]
      rw [List.getElem?_set_ne hne]
      exact h

/-! ## Lines with a quoted string after the name -/

theorem step_name_quote (cmd s tl : List Nat) (hcmd : IsTok cmd) (h62 : cmd.head? ≠ some 62)
    (h34 : ∀ c ∈ s, c ≠ 34) (h0 : ∀ c ∈ s, c ≠ 0) :
    splitStep ⟨cmd ++ [32, 34] ++ s ++ 34 :: tl, cmd.length, 0,
        Slot.ptr 0 :: List.replicate 19 Slot.uninit, none, false⟩
      = some (Flow.again ⟨cmd ++ [0, 34] ++ s ++ 0 :: tl, cmd.length + 2 + s.length + 1, 1,
          Slot.ptr 0 :: Slot.ptr (cmd.length + 2) :: List.replicate 18 Slot.uninit,
          none, false⟩) := by
  obtain ⟨n0, n1, hn01, hn0, -, -⟩ := tok_stop_space hcmd
  have h62a : n0 ≠ 62 := by
    rw [hn01] at h62
    simpa using h62
  have hsgo : ∀ c ∈ s, (c != 0 && c != 34) = true := by
    intro c hc
    simp [h34 c hc, h0 c hc]
  have i1 : rd (cmd ++ [32, 34] ++ s ++ 34 :: tl) cmd.length = some 32 :=
    rd_at cmd 32 (34 :: (s ++ 34 :: tl)) _ _ (by simp) rfl
  have i2 : skip_space (cmd ++ [32, 34] ++ s ++ 34 :: tl) cmd.length
      = some (cmd.length + [32].length) :=
    scan_at _ cmd [32] 34 (s ++ 34 :: tl) _ _ (by simp) rfl (by decide) (by decide)
  have i3 : wr (cmd ++ [32, 34] ++ s ++ 34 :: tl) cmd.length 0
      = some (cmd ++ 0 :: (34 :: (s ++ 34 :: tl))) :=
    wr_at cmd 32 (34 :: (s ++ 34 :: tl)) _ _ 0 (by simp) rfl
  have i4 : argvGet (Slot.ptr 0 :: List.replicate 19 Slot.uninit) 0 = some 0 := rfl
  have i5 : rd (cmd ++ 0 :: (34 :: (s ++ 34 :: tl))) 0 = some n0 :=
    rd_at [] n0 (n1 ++ 0 :: (34 :: (s ++ 34 :: tl))) _ _ (by simp [hn01]) rfl
  have i6 : argvSet (Slot.ptr 0 :: List.replicate 19 Slot.uninit) 1
      (Slot.ptr (cmd.length + [32].length))
      = some (Slot.ptr 0 :: Slot.ptr (cmd.length + [32].length)
          :: List.replicate 18 Slot.uninit) := rfl
  have i7 : rd (cmd ++ 0 :: (34 :: (s ++ 34 :: tl))) (cmd.length + [32].length) = some 34 :=
    rd_at (cmd ++ [0]) 34 (s ++ 34 :: tl) _ _ (by simp) (by simp)
  have i8 : find_eos (cmd ++ 0 :: (34 :: (s ++ 34 :: tl))) (cmd.length + [32].length + 1)
      = some (cmd.length + [32].length + 1 + s.length) :=
    scan_at _ (cmd ++ [0, 34]) s 34 tl _ _ (by simp) (by simp) hsgo (by decide)
  have i9 : rd (cmd ++ 0 :: (34 :: (s ++ 34 :: tl))) (cmd.length + [32].length + 1 + s.length)
      = some 34 :=
    rd_at (cmd ++ [0, 34] ++ s) 34 tl _ _ (by simp) (by simp; omega)
  have i10 : argvSet (Slot.ptr 0 :: Slot.ptr (cmd.length + [32].length)
        :: List.replicate 18 Slot.uninit) 1 (Slot.ptr (cmd.length + [32].length + 1))
      = some (Slot.ptr 0 :: Slot.ptr (cmd.length + [32].length + 1)
          :: List.replicate 18 Slot.uninit) := rfl
  have i11 : wr (cmd ++ 0 :: (34 :: (s ++ 34 :: tl))) (cmd.length + [32].length + 1 + s.length) 0
      = some (cmd ++ [0, 34] ++ s ++ 0 :: tl) :=
    wr_at (cmd ++ [0, 34] ++ s) 34 tl _ _ 0 (by simp) (by simp; omega)
  have h32 : (32 : Nat) ≠ 0 := by decide
  have hk : ¬ (0 + 1 ≥ NARGS - 1) := by decide
  simp only [splitStep, i1, h32, if_false, i2, i3, i4, i5, h62a, afterArg, hk, nextArg, i6,
    i7, if_true, i8, i9, ne_eq, not_true_eq_false, i10, i11]
  simp

theorem parse_of_loop (cmd r : List Nat) (hcmd : cmd ∈ builtin_cmds) (len : Nat)
    (line1 : List Nat) (fin : Split)
    (hlen : strlen (cmd ++ 32 :: r ++ [0]) 0 = some len)
    (htrim : trimTrailing 0 len (cmd ++ 32 :: r ++ [0]) = some line1)
    (hskip : skip_nonspace line1 0 = some cmd.length)
    (hloop : splitLoop ((cmd ++ 32 :: r ++ [0]).length + 1)
      ⟨line1, cmd.length, 0, Slot.ptr 0 :: List.replicate 19 Slot.uninit, none, false⟩
        = some fin)
    (hargc : fin.argc < NARGS) (hargv : fin.argv.length = NARGS) :
    ∃ i, builtin_cmds[i]? = some cmd ∧
      parseCmd (cmd ++ 32 :: r ++ [0]) = Parse.ok ⟨i, fin.argc, fin.argv.set fin.argc Slot.null,
        fin.line, fin.outfile, fin.do_append⟩ := by
  obtain ⟨hnt, -, h35, -⟩ := builtin_cmds_ok cmd hcmd
  obtain ⟨n0, n1, hn01, hn0, hn0s, hn0stop⟩ := tok_stop_space hnt
  have h35a : n0 ≠ 35 := by
    rw [hn01] at h35
    simpa using h35
  have h1 : skip_space (cmd ++ 32 :: r ++ [0]) 0 = some 0 := by
    have := scan_at (fun c => c != 0 && isspace c) [] [] n0 (n1 ++ 32 :: r ++ [0])
      (cmd ++ 32 :: r ++ [0]) 0 (by simp [hn01]) rfl (by simp) hn0stop
    simpa [skip_space] using this
  have h2 : rd (cmd ++ 32 :: r ++ [0]) 0 = some n0 :=
    rd_at [] n0 (n1 ++ 32 :: r ++ [0]) _ _ (by simp [hn01]) rfl
  have hdrop : (cmd ++ 32 :: r ++ [0]).drop 0 = (cmd ++ 32 :: r) ++ 0 :: [] := by simp
  obtain ⟨i, hi, hiname⟩ := builtin_lookup cmd hcmd (r ++ [0])
  have h3 : findBuiltin (cmd ++ 32 :: r ++ [0]) 0 builtin_cmds 0 = some (some i) := by
    rw [findBuiltin_eq _ _ _ _ hdrop builtin_cmds
      (fun nm h => (builtin_cmds_ok nm h).1.nz) 0, hdrop]
    have e : cmd ++ 32 :: r ++ [] ++ [0] = cmd ++ 32 :: (r ++ [0]) := by simp
    simp only [List.append_assoc, List.cons_append, List.nil_append] at hi ⊢
    rw [hi]
  have h6 : argvSet (List.replicate NARGS Slot.uninit) 0 (Slot.ptr 0)
      = some (Slot.ptr 0 :: List.replicate 19 Slot.uninit) := rfl
  have hset : argvSet fin.argv fin.argc Slot.null = some (fin.argv.set fin.argc Slot.null) := by
    simp [argvSet, hargv, hargc]
  have hn0' : ¬ (n0 = 0 ∨ n0 = 35) := by simp [hn0, h35a]
  have hlt : ¬ (fin.argc ≥ NARGS) := by omega
  refine ⟨i, hiname, ?_⟩
  simp only [parseCmd, h1, h2, hn0', if_false, h3, hlen, htrim, h6, hskip, hloop, hlt, hset]

theorem quoted_directive_parse (cmd s y : List Nat) (hcmd : cmd ∈ builtin_cmds)
    (hs : s ≠ []) (hs62 : s.head? ≠ some 62) (h34 : ∀ c ∈ s, c ≠ 34) (h0 : ∀ c ∈ s, c ≠ 0)
    (hy : IsTok y) (hy34 : y.head? ≠ some 34) :
    ∃ p, parseCmd (cmd ++ [32, 34, 62] ++ s ++ [34, 32] ++ y ++ [10] ++ [0]) = Parse.ok p ∧
      builtin_cmds[p.bp]? = some cmd ∧ p.argc = 2 ∧ p.args = some [cmd, y] ∧
      p.argv[p.argc]? = some Slot.null ∧ p.target = some (some s) ∧ p.do_append = false := by
  obtain ⟨hnt, h62, -, -⟩ := builtin_cmds_ok cmd hcmd
  obtain ⟨s0, s1, rfl⟩ : ∃ s0 s1, s = s0 :: s1 := by
    cases s with
    | nil => exact absurd rfl hs
    | cons a b => exact ⟨a, b, rfl⟩
  have hs0 : s0 ≠ 0 := h0 s0 (by simp)
  have hs62a : s0 ≠ 62 := by simpa using hs62
  obtain ⟨y0, y1, hy01, hy0, hy0s, hy0stop⟩ := tok_stop_space hy
  have hy34a : y0 ≠ 34 := by
    rw [hy01] at hy34
    simpa using hy34
  have hyc : isspace (y.getLast hy.1) = false := (hy.2 _ (List.getLast_mem hy.1)).2
  have hysplit : y = y.dropLast ++ [y.getLast hy.1] := (List.dropLast_append_getLast hy.1).symm
  have hq34 : ∀ c ∈ 62 :: s0 :: s1, c ≠ 34 := by
    intro c hc
    rcases List.mem_cons.mp hc with h | h
    · omega
    · exact h34 c h
  have hq0 : ∀ c ∈ 62 :: s0 :: s1, c ≠ 0 := by
    intro c hc
    rcases List.mem_cons.mp hc with h | h
    · omega
    · exact h0 c h
  -- the steps before the loop
  have hbuf : cmd ++ [32, 34, 62] ++ s0 :: s1 ++ [34, 32] ++ y ++ [10] ++ [0]
      = cmd ++ 32 :: ([34, 62] ++ s0 :: s1 ++ [34, 32] ++ y ++ [10]) ++ [0] := by simp
  have hnz : ∀ x ∈ cmd ++ [32, 34, 62] ++ s0 :: s1 ++ [34, 32] ++ y ++ [10], x ≠ 0 := by
    intro x hx
    simp only [List.mem_append, List.mem_cons, List.mem_singleton, List.not_mem_nil,
      or_false] at hx
    rcases hx with ((((hx | hx | hx | hx) | hx | hx) | hx | hx) | hx) | hx
    · exact hnt.nz x hx
    · omega
    · omega
    · omega
    · omega
    · exact h0 x (by simp [hx])
    · omega
    · omega
    · exact hy.nz x hx
    · omega
  have hlen : strlen (cmd ++ [32, 34, 62] ++ s0 :: s1 ++ [34, 32] ++ y ++ [10] ++ [0]) 0
      = some (cmd ++ [32, 34, 62] ++ s0 :: s1 ++ [34, 32] ++ y ++ [10]).length :=
    strlen_at [] _ [] _ _ (by simp) rfl hnz
  have htrim : trimTrailing 0 (cmd ++ [32, 34, 62] ++ s0 :: s1 ++ [34, 32] ++ y ++ [10]).length
      (cmd ++ [32, 34, 62] ++ s0 :: s1 ++ [34, 32] ++ y ++ [10] ++ [0])
      = some (cmd ++ [32, 34] ++ (62 :: s0 :: s1) ++ 34 :: (32 :: (y ++ [0, 0]))) := by
    have := trimTrailing_run [] (cmd ++ [32, 34, 62] ++ s0 :: s1 ++ [34, 32] ++ y.dropLast)
      (y.getLast hy.1) hyc [10] [0] (by decide)
    simp only [List.length_nil, List.nil_append, List.length_singleton, List.replicate_one,
      List.append_assoc, ← hysplit] at this
    simp only [List.append_assoc, List.length_append, List.length_cons, List.length_nil,
      List.cons_append, List.nil_append] at this ⊢
    rw [← this]
    congr 1
  have hskip : skip_nonspace (cmd ++ [32, 34] ++ (62 :: s0 :: s1) ++ 34 :: (32 :: (y ++ [0, 0]))) 0
      = some cmd.length := by
    have := scan_at (fun c => c != 0 && !isspace c) [] cmd 32
      (34 :: ((62 :: s0 :: s1) ++ 34 :: (32 :: (y ++ [0, 0]))))
      (cmd ++ [32, 34] ++ (62 :: s0 :: s1) ++ 34 :: (32 :: (y ++ [0, 0]))) 0 (by simp) rfl
      hnt.go (by decide)
    simpa [skip_nonspace] using this
  -- second iteration: the quoted string begins with `>`
  have j1 : rd (cmd ++ [0, 34] ++ (62 :: s0 :: s1) ++ 0 :: (32 :: (y ++ [0, 0])))
      (cmd.length + 2 + (62 :: s0 :: s1).length + 1) = some 32 :=
    rd_at (cmd ++ [0, 34] ++ (62 :: s0 :: s1) ++ [0]) 32 (y ++ [0, 0]) _ _ (by simp)
      (by simp; omega)
  have j2 : skip_space (cmd ++ [0, 34] ++ (62 :: s0 :: s1) ++ 0 :: (32 :: (y ++ [0, 0])))
      (cmd.length + 2 + (62 :: s0 :: s1).length + 1)
      = some (cmd.length + 2 + (62 :: s0 :: s1).length + 1 + [32].length) :=
    scan_at _ (cmd ++ [0, 34] ++ (62 :: s0 :: s1) ++ [0]) [32] y0 (y1 ++ [0, 0]) _ _
      (by simp [hy01]) (by simp; omega) (by decide) hy0stop
  have j3 : wr (cmd ++ [0, 34] ++ (62 :: s0 :: s1) ++ 0 :: (32 :: (y ++ [0, 0])))
      (cmd.length + 2 + (62 :: s0 :: s1).length + 1) 0
      = some (cmd ++ [0, 34] ++ (62 :: s0 :: s1) ++ [0, 0] ++ y ++ [0, 0]) := by
    have := wr_at (cmd ++ [0, 34] ++ (62 :: s0 :: s1) ++ [0]) 32 (y ++ [0, 0])
      (cmd ++ [0, 34] ++ (62 :: s0 :: s1) ++ 0 :: (32 :: (y ++ [0, 0])))
      (cmd.length + 2 + (62 :: s0 :: s1).length + 1) 0 (by simp) (by simp; omega)
    rw [this]
    simp
  have j4 : argvGet (Slot.ptr 0 :: Slot.ptr (cmd.length + 2) :: List.replicate 18 Slot.uninit) 1
      = some (cmd.length + 2) := rfl
  have j5 : rd (cmd ++ [0, 34] ++ (62 :: s0 :: s1) ++ [0, 0] ++ y ++ [0, 0]) (cmd.length + 2)
      = some 62 :=
    rd_at (cmd ++ [0, 34]) 62 (s0 :: s1 ++ [0, 0] ++ y ++ [0, 0]) _ _ (by simp) (by simp)
  have j6 : rd (cmd ++ [0, 34] ++ (62 :: s0 :: s1) ++ [0, 0] ++ y ++ [0, 0])
      (cmd.length + 2 + 1) = some s0 :=
    rd_at (cmd ++ [0, 34, 62]) s0 (s1 ++ [0, 0] ++ y ++ [0, 0]) _ _ (by simp) (by simp)
  have j7 : argvSet (Slot.ptr 0 :: Slot.ptr (cmd.length + 2) :: List.replicate 18 Slot.uninit) 1
      (Slot.ptr (cmd.length + 2 + (62 :: s0 :: s1).length + 1 + [32].length))
      = some (Slot.ptr 0 :: Slot.ptr (cmd.length + 2 + (62 :: s0 :: s1).length + 1 + [32].length)
          :: List.replicate 18 Slot.uninit) := rfl
  have j8 : rd (cmd ++ [0, 34] ++ (62 :: s0 :: s1) ++ [0, 0] ++ y ++ [0, 0])
      (cmd.length + 2 + (62 :: s0 :: s1).length + 1 + [32].length) = some y0 :=
    rd_at (cmd ++ [0, 34] ++ (62 :: s0 :: s1) ++ [0, 0]) y0 (y1 ++ [0, 0]) _ _
      (by simp [hy01]) (by simp; omega)
  have j9 : skip_nonspace (cmd ++ [0, 34] ++ (62 :: s0 :: s1) ++ [0, 0] ++ y ++ [0, 0])
      (cmd.length + 2 + (62 :: s0 :: s1).length + 1 + [32].length)
      = some (cmd.length + 2 + (62 :: s0 :: s1).length + 1 + [32].length + y.length) :=
    scan_at _ (cmd ++ [0, 34] ++ (62 :: s0 :: s1) ++ [0, 0]) y 0 [0] _ _ (by simp)
      (by simp; omega) hy.go (by decide)
  have hstep2 : splitStep ⟨cmd ++ [0, 34] ++ (62 :: s0 :: s1) ++ 0 :: (32 :: (y ++ [0, 0])),
      cmd.length + 2 + (62 :: s0 :: s1).length + 1, 1,
      Slot.ptr 0 :: Slot.ptr (cmd.length + 2) :: List.replicate 18 Slot.uninit, none, false⟩
      = some (Flow.again ⟨cmd ++ [0, 34] ++ (62 :: s0 :: s1) ++ [0, 0] ++ y ++ [0, 0],
          cmd.length + 2 + (62 :: s0 :: s1).length + 1 + [32].length + y.length, 1,
          Slot.ptr 0 :: Slot.ptr (cmd.length + 2 + (62 :: s0 :: s1).length + 1 + [32].length)
            :: List.replicate 18 Slot.uninit, some (cmd.length + 2 + 1), false⟩) := by
    have h32 : (32 : Nat) ≠ 0 := by decide
    have hk : ¬ (1 ≥ NARGS - 1) := by decide
    simp only [splitStep, j1, h32, if_false, j2, j3, j4, j5, if_true, j6, hs62a, ne_eq, hs0,
      not_false_eq_true, afterArg, hk, nextArg, j7, j8, hy34a, j9]
  -- third iteration: end of list
  have k1 : rd (cmd ++ [0, 34] ++ (62 :: s0 :: s1) ++ [0, 0] ++ y ++ [0, 0])
      (cmd.length + 2 + (62 :: s0 :: s1).length + 1 + [32].length + y.length) = some 0 :=
    rd_at (cmd ++ [0, 34] ++ (62 :: s0 :: s1) ++ [0, 0] ++ y) 0 [0] _ _ (by simp)
      (by simp; omega)
  obtain ⟨k, hk⟩ : ∃ k,
      (cmd ++ 32 :: ([34, 62] ++ s0 :: s1 ++ [34, 32] ++ y ++ [10]) ++ [0]).length + 1
        = k + 1 + 1 + 1 :=
    ⟨cmd.length + s1.length + y.length + 6, by
      simp only [List.length_append, List.length_cons, List.length_nil]; omega⟩
  have hloop : splitLoop
      ((cmd ++ 32 :: ([34, 62] ++ s0 :: s1 ++ [34, 32] ++ y ++ [10]) ++ [0]).length + 1)
      ⟨cmd ++ [32, 34] ++ (62 :: s0 :: s1) ++ 34 :: (32 :: (y ++ [0, 0])), cmd.length, 0,
        Slot.ptr 0 :: List.replicate 19 Slot.uninit, none, false⟩
      = some ⟨cmd ++ [0, 34] ++ (62 :: s0 :: s1) ++ [0, 0] ++ y ++ [0, 0],
          cmd.length + 2 + (62 :: s0 :: s1).length + 1 + [32].length + y.length, 2,
          Slot.ptr 0 :: Slot.ptr (cmd.length + 2 + (62 :: s0 :: s1).length + 1 + [32].length)
            :: List.replicate 18 Slot.uninit, some (cmd.length + 2 + 1), false⟩ := by
    rw [hk, splitLoop, step_name_quote cmd (62 :: s0 :: s1) _ hnt h62 hq34 hq0]
    simp only []
    rw [splitLoop, hstep2]
    simp only []
    rw [splitLoop, step_done _ k1]
  rw [hbuf] at hlen htrim ⊢
  obtain ⟨i, hiname, hparse⟩ := parse_of_loop cmd _ hcmd _ _ _ hlen htrim hskip hloop
    (by show 2 < NARGS; decide) (by simp [NARGS])
  have c1 : cstr (cmd ++ [0, 34] ++ (62 :: s0 :: s1) ++ [0, 0] ++ y ++ [0, 0]) 0 = some cmd :=
    cstr_at [] cmd (34 :: ((62 :: s0 :: s1) ++ [0, 0] ++ y ++ [0, 0])) _ _ (by simp) rfl hnt.nz
  have c2 : cstr (cmd ++ [0, 34] ++ (62 :: s0 :: s1) ++ [0, 0] ++ y ++ [0, 0])
      (cmd.length + 2 + (62 :: s0 :: s1).length + 1 + [32].length) = some y :=
    cstr_at (cmd ++ [0, 34] ++ (62 :: s0 :: s1) ++ [0, 0]) y [0] _ _ (by simp) (by simp; omega)
      hy.nz
  have c3 : cstr (cmd ++ [0, 34] ++ (62 :: s0 :: s1) ++ [0, 0] ++ y ++ [0, 0])
      (cmd.length + 2 + 1) = some (s0 :: s1) :=
    cstr_at (cmd ++ [0, 34, 62]) (s0 :: s1) (0 :: (y ++ [0, 0])) _ _ (by simp) (by simp) h0
  refine ⟨_, hparse, hiname, rfl, ?_, rfl, ?_, rfl⟩
  · have g0 : argvGet ((Slot.ptr 0
        :: Slot.ptr (cmd.length + 2 + (62 :: s0 :: s1).length + 1 + [32].length)
        :: List.replicate 18 Slot.uninit).set 2 Slot.null) 0 = some 0 := rfl
    have g1 : argvGet ((Slot.ptr 0
        :: Slot.ptr (cmd.length + 2 + (62 :: s0 :: s1).length + 1 + [32].length)
        :: List.replicate 18 Slot.uninit).set 2 Slot.null) 1
        = some (cmd.length + 2 + (62 :: s0 :: s1).length + 1 + [32].length) := rfl
    simp only [Parsed.args, argStrings, g0, g1, c1, c2]
  · simp only [Parsed.target, c3]

theorem EndsNul.of_append (l : List Nat) : EndsNul (l ++ [0]) := ⟨by simp, by simp⟩

theorem trim_keeps_prefix (P : List Nat) (c : Nat) (hc : isspace c = false) :
    ∀ (len : Nat) (R : List Nat), P.length < len → len ≤ (P ++ c :: R).length →
      ∃ R1, trimTrailing 0 len (P ++ c :: R) = some (P ++ c :: R1) ∧ R1.length = R.length := by
  intro len
  induction len with
  | zero => intro R h _; omega
  | succ len ih =>
    intro R h1 h2
    by_cases hlen : len = P.length
    · subst hlen
      have hrd : rd (P ++ c :: R) (0 + P.length) = some c := rd_at P c R _ _ rfl (by simp)
      refine ⟨R, ?_, rfl⟩
      simp only [trimTrailing, hrd, hc]
      simp
    · have hlt : 0 + len < (P ++ c :: R).length := by omega
      obtain ⟨x, hx⟩ := rd_some (P ++ c :: R) (0 + len) hlt
      by_cases hsp : isspace x = true
      · have hset : (P ++ c :: R).set (0 + len) 0 = P ++ c :: R.set (len - P.length - 1) 0 := by
          rw [List.set_append_right _ _ (by omega)]
          have : 0 + len - P.length = (len - P.length - 1) + 1 := by omega
          rw [this, List.set_cons_succ]
        obtain ⟨R1, hR1, hl⟩ := ih (R.set (len - P.length - 1) 0) (by omega)
          (by simp at h2 ⊢; omega)
        refine ⟨R1, ?_, by simpa using hl⟩
        simp only [trimTrailing, hx, hsp, if_true, wr_some _ _ 0 hlt, hset, hR1]
      · refine ⟨R, ?_, rfl⟩
        simp only [trimTrailing, hx, hsp]
        simp

theorem strlen_gt (P : List Nat) (c : Nat) (R : List Nat) (hend : EndsNul (P ++ c :: R))
    (hP : ∀ x ∈ P, x ≠ 0) (hc : c ≠ 0) :
    ∃ len, strlen (P ++ c :: R) 0 = some len ∧ P.length < len ∧ len ≤ (P ++ c :: R).length := by
  obtain ⟨q, hq, -, hlt, ⟨z, hz, hgo⟩, -⟩ :=
    scan_total (fun c => c != 0) (by rfl) (P ++ c :: R) hend _ 0 (Nat.le_refl _) hend.1
  have hz0 : z = 0 := by simpa using hgo
  subst hz0
  refine ⟨q, by rw [strlen, hq]; simp, ?_, Nat.le_of_lt hlt⟩
  by_contra hle
  by_cases hqP : q < P.length
  · rw [List.getElem?_append_left hqP, List.getElem?_eq_getElem hqP] at hz
    exact hP _ (List.getElem_mem hqP) (Option.some.inj hz)
  · have hqe : q = P.length := by omega
    rw [hqe, List.getElem?_append_right (Nat.le_refl _)] at hz
    simp at hz
    exact hc hz

theorem quoted_junk_parse (cmd s t r : List Nat) (hcmd : cmd ∈ builtin_cmds)
    (hs62 : s.head? ≠ some 62) (h34 : ∀ c ∈ s, c ≠ 34) (h0 : ∀ c ∈ s, c ≠ 0) (ht : IsTok t) :
    ∃ p, parseCmd (cmd ++ [32, 34] ++ s ++ [34] ++ t ++ [32] ++ r ++ [10] ++ [0]) = Parse.ok p ∧
      builtin_cmds[p.bp]? = some cmd ∧ p.argc = 3 ∧ p.args = some [cmd, s, []] ∧
      p.argv[p.argc]? = some Slot.null ∧ p.outfile = none ∧ p.do_append = false := by
  obtain ⟨hnt, h62, -, -⟩ := builtin_cmds_ok cmd hcmd
  obtain ⟨t0, t1, rfl, ht0, ht0s, ht0stop⟩ := tok_stop_space ht
  obtain ⟨z, zs, hz, hz62⟩ : ∃ z zs, s ++ [0] = z :: zs ∧ z ≠ 62 := by
    cases s with
    | nil => exact ⟨0, [], rfl, by decide⟩
    | cons a b => exact ⟨a, b ++ [0], by simp, by simpa using hs62⟩
  -- the steps before the loop
  have hbuf : cmd ++ [32, 34] ++ s ++ [34] ++ t0 :: t1 ++ [32] ++ r ++ [10] ++ [0]
      = cmd ++ 32 :: (34 :: (s ++ 34 :: t0 :: (t1 ++ 32 :: (r ++ [10])))) ++ [0] := by simp
  have hshape : cmd ++ 32 :: (34 :: (s ++ 34 :: t0 :: (t1 ++ 32 :: (r ++ [10])))) ++ [0]
      = (cmd ++ [32, 34] ++ s ++ [34]) ++ t0 :: (t1 ++ 32 :: (r ++ [10]) ++ [0]) := by simp
  have hend : EndsNul ((cmd ++ [32, 34] ++ s ++ [34]) ++ t0 :: (t1 ++ 32 :: (r ++ [10]) ++ [0])) := by
    rw [← hshape]
    exact EndsNul.of_append _
  have hPnz : ∀ x ∈ cmd ++ [32, 34] ++ s ++ [34], x ≠ 0 := by
    intro x hx
    simp only [List.mem_append, List.mem_cons, List.mem_singleton, List.not_mem_nil,
      or_false] at hx
    rcases hx with ((hx | hx | hx) | hx) | hx
    · exact hnt.nz x hx
    · omega
    · omega
    · exact h0 x hx
    · omega
  obtain ⟨len, hlen, hlenP, hlenle⟩ := strlen_gt _ t0 _ hend hPnz ht0
  obtain ⟨R1, htrim, -⟩ := trim_keeps_prefix (cmd ++ [32, 34] ++ s ++ [34]) t0 ht0s len _
    hlenP hlenle
  have hline1 : cmd ++ [32, 34] ++ s ++ [34] ++ t0 :: R1
      = cmd ++ [32, 34] ++ s ++ 34 :: (t0 :: R1) := by simp
  rw [hline1] at htrim
  have hskip : skip_nonspace (cmd ++ [32, 34] ++ s ++ 34 :: (t0 :: R1)) 0 = some cmd.length := by
    have := scan_at (fun c => c != 0 && !isspace c) [] cmd 32
      (34 :: (s ++ 34 :: (t0 :: R1))) (cmd ++ [32, 34] ++ s ++ 34 :: (t0 :: R1)) 0
      (by simp) rfl hnt.go (by decide)
    simpa [skip_nonspace] using this
  -- second iteration: the byte after the closing quote ends the argument
  have j1 : rd (cmd ++ [0, 34] ++ s ++ 0 :: (t0 :: R1)) (cmd.length + 2 + s.length + 1)
      = some t0 :=
    rd_at (cmd ++ [0, 34] ++ s ++ [0]) t0 R1 _ _ (by simp) (by simp; omega)
  have j2 : skip_space (cmd ++ [0, 34] ++ s ++ 0 :: (t0 :: R1)) (cmd.length + 2 + s.length + 1)
      = some (cmd.length + 2 + s.length + 1) := by
    have := scan_at (fun c => c != 0 && isspace c) (cmd ++ [0, 34] ++ s ++ [0]) [] t0 R1
      (cmd ++ [0, 34] ++ s ++ 0 :: (t0 :: R1)) (cmd.length + 2 + s.length + 1)
      (by simp) (by simp; omega) (by simp) ht0stop
    simpa [skip_space] using this
  have j3 : wr (cmd ++ [0, 34] ++ s ++ 0 :: (t0 :: R1)) (cmd.length + 2 + s.length + 1) 0
      = some (cmd ++ [0, 34] ++ (z :: zs) ++ 0 :: R1) := by
    have := wr_at (cmd ++ [0, 34] ++ s ++ [0]) t0 R1 (cmd ++ [0, 34] ++ s ++ 0 :: (t0 :: R1))
      (cmd.length + 2 + s.length + 1) 0 (by simp) (by simp; omega)
    rw [this, ← hz]
    simp
  have j4 : argvGet (Slot.ptr 0 :: Slot.ptr (cmd.length + 2) :: List.replicate 18 Slot.uninit) 1
      = some (cmd.length + 2) := rfl
  have j5 : rd (cmd ++ [0, 34] ++ (z :: zs) ++ 0 :: R1) (cmd.length + 2) = some z :=
    rd_at (cmd ++ [0, 34]) z (zs ++ 0 :: R1) _ _ (by simp) (by simp)
  have hzlen : (z :: zs).length = s.length + 1 := by
    rw [← hz]
    simp
  have j7 : argvSet (Slot.ptr 0 :: Slot.ptr (cmd.length + 2) :: List.replicate 18 Slot.uninit) 2
      (Slot.ptr (cmd.length + 2 + s.length + 1))
      = some (Slot.ptr 0 :: Slot.ptr (cmd.length + 2) :: Slot.ptr (cmd.length + 2 + s.length + 1)
          :: List.replicate 17 Slot.uninit) := rfl
  have j8 : rd (cmd ++ [0, 34] ++ (z :: zs) ++ 0 :: R1) (cmd.length + 2 + s.length + 1)
      = some 0 :=
    rd_at (cmd ++ [0, 34] ++ (z :: zs)) 0 R1 _ _ (by simp) (by
      simp only [List.length_append, hzlen, List.length_cons, List.length_nil]
      omega)
  have j9 : skip_nonspace (cmd ++ [0, 34] ++ (z :: zs) ++ 0 :: R1)
      (cmd.length + 2 + s.length + 1) = some (cmd.length + 2 + s.length + 1) := by
    have := scan_at (fun c => c != 0 && !isspace c) (cmd ++ [0, 34] ++ (z :: zs)) [] 0 R1
      (cmd ++ [0, 34] ++ (z :: zs) ++ 0 :: R1) (cmd.length + 2 + s.length + 1)
      (by simp) (by
        simp only [List.length_append, hzlen, List.length_cons, List.length_nil]
        omega) (by simp) (by decide)
    simpa [skip_nonspace] using this
  have hstep2 : splitStep ⟨cmd ++ [0, 34] ++ s ++ 0 :: (t0 :: R1), cmd.length + 2 + s.length + 1, 1,
      Slot.ptr 0 :: Slot.ptr (cmd.length + 2) :: List.replicate 18 Slot.uninit, none, false⟩
      = some (Flow.again ⟨cmd ++ [0, 34] ++ (z :: zs) ++ 0 :: R1, cmd.length + 2 + s.length + 1, 2,
          Slot.ptr 0 :: Slot.ptr (cmd.length + 2) :: Slot.ptr (cmd.length + 2 + s.length + 1)
            :: List.replicate 17 Slot.uninit, none, false⟩) := by
    have hk : ¬ (1 + 1 ≥ NARGS - 1) := by decide
    have h034 : (0 : Nat) ≠ 34 := by decide
    simp only [splitStep, j1, ht0, if_false, j2, j3, j4, j5, hz62, afterArg, hk, nextArg, j7,
      j8, h034, j9]
  obtain ⟨k, hk⟩ : ∃ k,
      (cmd ++ 32 :: (34 :: (s ++ 34 :: t0 :: (t1 ++ 32 :: (r ++ [10])))) ++ [0]).length + 1
        = k + 1 + 1 + 1 :=
    ⟨cmd.length + s.length + t1.length + r.length + 5, by
      simp only [List.length_append, List.length_cons, List.length_nil]; omega⟩
  have hloop : splitLoop
      ((cmd ++ 32 :: (34 :: (s ++ 34 :: t0 :: (t1 ++ 32 :: (r ++ [10])))) ++ [0]).length + 1)
      ⟨cmd ++ [32, 34] ++ s ++ 34 :: (t0 :: R1), cmd.length, 0,
        Slot.ptr 0 :: List.replicate 19 Slot.uninit, none, false⟩
      = some ⟨cmd ++ [0, 34] ++ (z :: zs) ++ 0 :: R1, cmd.length + 2 + s.length + 1, 3,
          Slot.ptr 0 :: Slot.ptr (cmd.length + 2) :: Slot.ptr (cmd.length + 2 + s.length + 1)
            :: List.replicate 17 Slot.uninit, none, false⟩ := by
    rw [hk, splitLoop, step_name_quote cmd s _ hnt h62 h34 h0]
    simp only []
    rw [splitLoop, hstep2]
    simp only []
    rw [splitLoop, step_done _ j8]
  rw [hbuf]
  rw [← hshape] at hlen htrim
  obtain ⟨i, hiname, hparse⟩ := parse_of_loop cmd _ hcmd _ _ _ hlen htrim hskip hloop
    (by show 3 < NARGS; decide) (by simp [NARGS])
  have c1 : cstr (cmd ++ [0, 34] ++ (z :: zs) ++ 0 :: R1) 0 = some cmd :=
    cstr_at [] cmd (34 :: ((z :: zs) ++ 0 :: R1)) _ _ (by simp) rfl hnt.nz
  have c2 : cstr (cmd ++ [0, 34] ++ (z :: zs) ++ 0 :: R1) (cmd.length + 2) = some s := by
    refine cstr_at (cmd ++ [0, 34]) s (0 :: R1) _ _ ?_ (by simp) h0
    rw [← hz]
    simp
  have c3 : cstr (cmd ++ [0, 34] ++ (z :: zs) ++ 0 :: R1) (cmd.length + 2 + s.length + 1)
      = some [] :=
    cstr_at (cmd ++ [0, 34] ++ (z :: zs)) [] R1 _ _ (by simp) (by
      simp only [List.length_append, hzlen, List.length_cons, List.length_nil]
      omega) (by simp)
  refine ⟨_, hparse, hiname, rfl, ?_, rfl, rfl, rfl⟩
  have g0 : argvGet ((Slot.ptr 0 :: Slot.ptr (cmd.length + 2)
      :: Slot.ptr (cmd.length + 2 + s.length + 1) :: List.replicate 17 Slot.uninit).set 3
      Slot.null) 0 = some 0 := rfl
  have g1 : argvGet ((Slot.ptr 0 :: Slot.ptr (cmd.length + 2)
      :: Slot.ptr (cmd.length + 2 + s.length + 1) :: List.replicate 17 Slot.uninit).set 3
      Slot.null) 1 = some (cmd.length + 2) := rfl
  have g2 : argvGet ((Slot.ptr 0 :: Slot.ptr (cmd.length + 2)
      :: Slot.ptr (cmd.length + 2 + s.length + 1) :: List.replicate 17 Slot.uninit).set 3
      Slot.null) 2 = some (cmd.length + 2 + s.length + 1) := rfl
  simp only [Parsed.args, argStrings, g0, g1, g2, c1, c2, c3]

/-! ## The lookup and the order of the table -/

theorem names_prefix_free : ∀ a ∈ builtin_cmds, ∀ b ∈ builtin_cmds,
    (a ++ [32]).isPrefixOf (b ++ [32]) = true → a = b := by
  decide

theorem match_unique (buf : List Nat) : ∀ a ∈ builtin_cmds, ∀ b ∈ builtin_cmds,
    (a ++ [32]).isPrefixOf buf = true → (b ++ [32]).isPrefixOf buf = true → a = b := by
  intro a ha b hb h1 h2
  rw [List.isPrefixOf_iff_prefix] at h1 h2
  rcases List.prefix_or_prefix_of_prefix h1 h2 with h | h
  · exact names_prefix_free a ha b hb (List.isPrefixOf_iff_prefix.mpr h)
  · exact (names_prefix_free b hb a ha (List.isPrefixOf_iff_prefix.mpr h)).symm

theorem findIdx_bind_get {α : Type} (p : α → Bool) :
    ∀ (l : List α) (s : Nat), (l.findIdx? p s).bind (fun i => l[i - s]?) = l.find? p := by
  intro l
  induction l with
  | nil => intro s; simp [List.findIdx?]
  | cons x xs ih =>
    intro s
    rw [List.findIdx?_cons, List.find?_cons]
    by_cases hx : p x = true
    · simp [hx]
    · have hx' : p x = false := by simpa using hx
      rw [if_neg hx, hx']
      simp only
      rw [← ih (s + 1)]
      cases hidx : List.findIdx? p xs (s + 1) with
      | none => rfl
      | some i =>
        have hle := (findIdx_some p xs (s + 1) i hidx).1
        simp only [Option.bind]
        have : i - s = (i - (s + 1)) + 1 := by omega
        rw [this, List.getElem?_cons_succ]

theorem find_perm_unique {α : Type} (p : α → Bool) (l1 l2 : List α) (hperm : l1.Perm l2)
    (huniq : ∀ a ∈ l1, ∀ b ∈ l1, p a = true → p b = true → a = b) :
    l1.find? p = l2.find? p := by
  cases h1 : l1.find? p with
  | none =>
    rw [List.find?_eq_none] at h1
    symm
    rw [List.find?_eq_none]
    exact fun x hx => h1 x (hperm.mem_iff.mpr hx)
  | some a =>
    have ha := List.find?_some h1
    have hmem := List.mem_of_find?_eq_some h1
    cases h2 : l2.find? p with
    | none =>
      rw [List.find?_eq_none] at h2
      exact absurd ha (h2 a (hperm.mem_iff.mp hmem))
    | some b =>
      have hb := List.find?_some h2
      have hmemb := hperm.mem_iff.mpr (List.mem_of_find?_eq_some h2)
      rw [huniq a hmem b hmemb ha hb]

theorem lookupName_find (chunk : List Nat) (cp : Nat) (hcp : cp ≤ chunk.length)
    (cmds : List (List Nat)) (h0 : ∀ name ∈ cmds, ∀ c ∈ name, c ≠ 0) :
    lookupName (chunk ++ [0]) cp cmds
      = some (cmds.find? (fun name => (name ++ [32]).isPrefixOf ((chunk ++ [0]).drop cp))) := by
  obtain ⟨s, hs⟩ := drop_ends (chunk ++ [0]) (EndsNul.of_append chunk) cp
    (by simp; omega)
  rw [lookupName, findBuiltin_eq (chunk ++ [0]) cp s [] hs cmds h0 0]
  simp only [Option.map]
  have := findIdx_bind_get (fun name => (name ++ [32]).isPrefixOf ((chunk ++ [0]).drop cp))
    cmds 0
  simp only [Nat.sub_zero] at this
  rw [this]

/-! ## The outcome of the harness, by the results of `open` and `dup` -/

theorem fdOpen_none (ok : Bool) (t : Fds) (h : (fdOpen ok t).2 = none) : (fdOpen ok t).1 = t := by
  unfold fdOpen at h ⊢
  cases ok with
  | false => rfl
  | true =>
    cases hfree : lowestFree t.fds with
    | none => simp
    | some fd => simp [hfree] at h

theorem fdDup_none (t : Fds) (fd : Nat) (h : (fdDup t fd).2 = none) : (fdDup t fd).1 = t := by
  unfold fdDup at h ⊢
  cases hfd : t.fds[fd]? with
  | none => rfl
  | some e =>
    cases e with
    | none => rfl
    | some st =>
      cases hfree : lowestFree t.fds with
      | none => rfl
      | some nfd => simp [hfd, hfree] at h

theorem harness_outcome (openOk : List Nat → Bool)
    (handler : Nat → Fds → Nat → List (List Nat) → Fds) (t : Fds) (p : Parsed)
    (o : Nat) (path : List Nat) (args : List (List Nat))
    (hargs : p.args = some args) (hout : p.outfile = some o)
    (hpath : cstr p.line o = some path) :
    ((fdOpen (openOk path) t).2 = none →
      invoke (recordCalls (fdSys openOk handler)) (t, []) p = ((t, []), some Stop.openFailed)) ∧
    (∀ ofd, (fdOpen (openOk path) t).2 = some ofd →
      (fdDup (fdOpen (openOk path) t).1 1).2 = none →
      invoke (recordCalls (fdSys openOk handler)) (t, []) p
        = ((fdClose (fdOpen (openOk path) t).1 ofd, []), some Stop.dupFailed)) ∧
    (∀ ofd sv, (fdOpen (openOk path) t).2 = some ofd →
      (fdDup (fdOpen (openOk path) t).1 1).2 = some sv →
      (invoke (recordCalls (fdSys openOk handler)) (t, []) p).2 = none ∧
      (invoke (recordCalls (fdSys openOk handler)) (t, []) p).1.2 = [(p.bp, p.argc, args)]) := by
  refine ⟨?_, ?_, ?_⟩
  · intro h
    have h1 := fdOpen_none (openOk path) t h
    simp [invoke, hargs, hout, hpath, recordCalls, fdSys, h, h1]
  · intro ofd h hd
    have h1 := fdDup_none _ 1 hd
    simp [invoke, hargs, hout, hpath, recordCalls, fdSys, h, hd, h1]
  · intro ofd sv h hd
    simp [invoke, hargs, hout, hpath, recordCalls, fdSys, h, hd]

theorem accepted_strings (chunk : List Nat) (p : Parsed)
    (hp : parseCmd (chunk ++ [0]) = Parse.ok p) :
    (∃ args, p.args = some args) ∧ ∀ o, p.outfile = some o → ∃ path, cstr p.line o = some path := by
  rcases parseCmd_total (chunk ++ [0]) (EndsNul.of_append chunk) with h | h | h |
    ⟨q, nm, a0, hq, hnm, -, h1, -, -, hslots, hpend, -, hout, h0, hname, hz⟩
  · rw [h] at hp; cases hp
  · rw [h] at hp; cases hp
  · rw [h] at hp; cases hp
  · rw [hq] at hp
    cases hp
    obtain ⟨rest, hargs, -⟩ := parsed_args p nm a0
      (fun c hc => ((builtin_cmds_ok nm (List.getElem?_mem hnm)).1.2 c hc).1)
      h1 hslots hpend h0 hname hz
    exact ⟨⟨_, hargs⟩, fun o ho => cstr_total p.line hpend o (hout o ho)⟩

/-! ## What an iteration does to `outfile` and `do_append` -/

theorem nextArg_frame (s : Split) (ncp : Nat) (fl : Flow) (h : nextArg s ncp = some fl) :
    fl.state.outfile = s.outfile ∧ fl.state.do_append = s.do_append := by
  unfold nextArg at h
  repeat' split at h
  all_goals first
    | (cases h; exact ⟨rfl, rfl⟩)
    | cases h

theorem afterArg_frame (s : Split) (ncp : Nat) (fl : Flow) (h : afterArg s ncp = some fl) :
    fl.state.outfile = s.outfile ∧ fl.state.do_append = s.do_append := by
  unfold afterArg at h
  split at h
  · cases h
    exact ⟨rfl, rfl⟩
  · exact nextArg_frame s ncp fl h

theorem step_frame (s : Split) (fl : Flow) (h : splitStep s = some fl) :
    fl.state.outfile = (stepDir s).elim s.outfile (fun d => some d.target) ∧
    fl.state.do_append = (stepDir s).elim s.do_append (fun d => d.dbl || s.do_append) := by
  cases hrd : rd s.line s.cp with
  | none => simp [splitStep, hrd] at h
  | some c =>
  by_cases hc : c = 0
  · simp only [splitStep, hrd, hc, if_true, Option.some.injEq] at h
    subst h
    simp [stepDir, hrd, hc, Flow.state]
  cases hsk : skip_space s.line s.cp with
  | none => simp [splitStep, hrd, hc, hsk] at h
  | some ncp =>
  cases hwr : wr s.line s.cp 0 with
  | none => simp [splitStep, hrd, hc, hsk, hwr] at h
  | some line =>
  cases hget : argvGet s.argv s.argc with
  | none => simp [splitStep, hrd, hc, hsk, hwr, hget] at h
  | some a =>
  cases hrda : rd line a with
  | none => simp [splitStep, hrd, hc, hsk, hwr, hget, hrda] at h
  | some a0 =>
  by_cases h62 : a0 = 62
  · cases hrd1 : rd line (a + 1) with
    | none => simp [splitStep, hrd, hc, hsk, hwr, hget, hrda, h62, hrd1] at h
    | some c1 =>
    cases hrd2 : rd line (if c1 = 62 then a + 2 else a + 1) with
    | none => simp [splitStep, hrd, hc, hsk, hwr, hget, hrda, h62, hrd1, hrd2] at h
    | some c2 =>
    have hdir : stepDir s = some ⟨decide (c1 = 62),
        if c2 ≠ 0 then (if c1 = 62 then a + 2 else a + 1) else ncp⟩ := by
      simp only [stepDir, hrd, hc, if_false, hsk, hwr, hget, hrda, h62, if_true, hrd1, hrd2]
    rw [hdir]
    simp only [Option.elim]
    have happ : (if c1 = 62 then true else s.do_append) = (decide (c1 = 62) || s.do_append) := by
      by_cases h1 : c1 = 62 <;> simp [h1]
    by_cases hc2 : c2 = 0
    · simp only [hc2, ne_eq, not_true_eq_false, if_false]
      cases he : skip_nonspace line ncp with
      | none => simp [splitStep, hrd, hc, hsk, hwr, hget, hrda, h62, hrd1, hrd2, hc2, he] at h
      | some e =>
      cases hrd3 : rd line e with
      | none => simp [splitStep, hrd, hc, hsk, hwr, hget, hrda, h62, hrd1, hrd2, hc2, he, hrd3] at h
      | some c3 =>
      by_cases hc3 : c3 = 0
      · simp only [splitStep, hrd, hc, if_false, hsk, hwr, hget, hrda, h62, if_true, hrd1, hrd2,
          hc2, ne_eq, not_true_eq_false, he, hrd3, hc3, Option.some.injEq] at h
        subst h
        exact ⟨rfl, happ⟩
      · cases hsk2 : skip_space line e with
        | none =>
          simp [splitStep, hrd, hc, hsk, hwr, hget, hrda, h62, hrd1, hrd2, hc2, he, hrd3, hc3,
            hsk2] at h
        | some ncp2 =>
        cases hwr2 : wr line e 0 with
        | none =>
          simp [splitStep, hrd, hc, hsk, hwr, hget, hrda, h62, hrd1, hrd2, hc2, he, hrd3, hc3,
            hsk2, hwr2] at h
        | some line2 =>
        cases hrd4 : rd line2 ncp2 with
        | none =>
          simp [splitStep, hrd, hc, hsk, hwr, hget, hrda, h62, hrd1, hrd2, hc2, he, hrd3, hc3,
            hsk2, hwr2, hrd4] at h
        | some c4 =>
        by_cases hc4 : c4 = 0
        · simp only [splitStep, hrd, hc, if_false, hsk, hwr, hget, hrda, h62, if_true, hrd1, hrd2,
            hc2, ne_eq, not_true_eq_false, he, hrd3, hc3, hsk2, hwr2, hrd4, hc4,
            Option.some.injEq] at h
          subst h
          exact ⟨rfl, happ⟩
        · simp only [splitStep, hrd, hc, if_false, hsk, hwr, hget, hrda, h62, if_true, hrd1, hrd2,
            hc2, ne_eq, not_true_eq_false, he, hrd3, hc3, hsk2, hwr2, hrd4, hc4] at h
          obtain ⟨ho, ha⟩ := afterArg_frame _ _ _ h
          exact ⟨ho, ha.trans happ⟩
    · simp only [hc2, ne_eq, not_false_eq_true, if_true]
      simp only [splitStep, hrd, hc, if_false, hsk, hwr, hget, hrda, h62, if_true, hrd1, hrd2,
        hc2, ne_eq, not_false_eq_true] at h
      obtain ⟨ho, ha⟩ := afterArg_frame _ _ _ h
      exact ⟨ho, ha.trans happ⟩
  · have hdir : stepDir s = none := by
      simp only [stepDir, hrd, hc, if_false, hsk, hwr, hget, hrda, h62]
    rw [hdir]
    simp only [splitStep, hrd, hc, if_false, hsk, hwr, hget, hrda, h62] at h
    obtain ⟨ho, ha⟩ := afterArg_frame _ _ _ h
    exact ⟨ho, ha⟩

theorem loop_dirs : ∀ (fuel : Nat) (s fin : Split), splitLoop fuel s = some fin →
    fin.outfile = ((directives fuel s).getLast?).elim s.outfile (fun d => some d.target) ∧
    fin.do_append = ((directives fuel s).any Dir.dbl || s.do_append) := by
  intro fuel
  induction fuel with
  | zero => intro s fin h; simp [splitLoop] at h
  | succ fuel ih =>
    intro s fin h
    cases hstep : splitStep s with
    | none => simp [splitLoop, hstep] at h
    | some fl =>
      obtain ⟨ho, ha⟩ := step_frame s fl hstep
      cases fl with
      | done s1 =>
        simp only [splitLoop, hstep, Option.some.injEq] at h
        subst h
        simp only [Flow.state] at ho ha
        simp only [directives, hstep]
        cases hd : stepDir s with
        | none =>
          rw [hd] at ho ha
          simpa using ⟨ho, ha⟩
        | some d =>
          rw [hd] at ho ha
          simpa using ⟨ho, ha⟩
      | again s1 =>
        simp only [splitLoop, hstep] at h
        obtain ⟨ho1, ha1⟩ := ih s1 fin h
        simp only [Flow.state] at ho ha
        simp only [directives, hstep, List.getLast?_append, List.any_append]
        rw [ho1, ha1, ho, ha]
        cases hd : stepDir s with
        | none => simp
        | some d =>
          cases hl : (directives fuel s1).getLast? with
          | none =>
            simp
            cases d.dbl <;> cases s.do_append <;> simp
          | some e =>
            simp
            cases d.dbl <;> cases s.do_append <;> simp

theorem parseCmd_loop (line : List Nat) (p : Parsed) (h : parseCmd line = Parse.ok p) :
    ∃ s0 fin, loopEntry line = some s0 ∧ splitLoop (line.length + 1) s0 = some fin ∧
      s0.outfile = none ∧ s0.do_append = false ∧
      p.outfile = fin.outfile ∧ p.do_append = fin.do_append ∧ p.line = fin.line := by
  cases h1 : skip_space line 0 with
  | none => simp [parseCmd, h1] at h
  | some cp =>
  cases h2 : rd line cp with
  | none => simp [parseCmd, h1, h2] at h
  | some c =>
  by_cases hc : c = 0 ∨ c = 35
  · simp [parseCmd, h1, h2, hc] at h
  cases h3 : findBuiltin line cp builtin_cmds 0 with
  | none => simp [parseCmd, h1, h2, hc, h3] at h
  | some r =>
  cases r with
  | none => simp [parseCmd, h1, h2, hc, h3] at h
  | some bp =>
  cases h4 : strlen line cp with
  | none => simp [parseCmd, h1, h2, hc, h3, h4] at h
  | some len =>
  cases h5 : trimTrailing cp len line with
  | none => simp [parseCmd, h1, h2, hc, h3, h4, h5] at h
  | some line1 =>
  cases h6 : argvSet (List.replicate NARGS Slot.uninit) 0 (Slot.ptr cp) with
  | none => simp [parseCmd, h1, h2, hc, h3, h4, h5, h6] at h
  | some argv =>
  cases h7 : skip_nonspace line1 cp with
  | none => simp [parseCmd, h1, h2, hc, h3, h4, h5, h6, h7] at h
  | some e =>
  cases h8 : splitLoop (line.length + 1)
      { line := line1, cp := e, argc := 0, argv := argv, outfile := none, do_append := false } with
  | none => simp [parseCmd, h1, h2, hc, h3, h4, h5, h6, h7, h8] at h
  | some fin =>
  refine ⟨_, fin, ?_, h8, rfl, rfl, ?_⟩
  · simp only [loopEntry, h1, h2, hc, if_false, h3, h4, h5, h6, h7]
  · by_cases hmany : fin.argc ≥ NARGS
    · simp [parseCmd, h1, h2, hc, h3, h4, h5, h6, h7, h8, hmany] at h
    · cases h9 : argvSet fin.argv fin.argc Slot.null with
      | none => simp [parseCmd, h1, h2, hc, h3, h4, h5, h6, h7, h8, hmany, h9] at h
      | some argv1 =>
        simp only [parseCmd, h1, h2, hc, if_false, h3, h4, h5, h6, h7, h8, hmany, h9,
          Parse.ok.injEq] at h
        subst h
        exact ⟨rfl, rfl, rfl⟩

theorem parse_dirs (line : List Nat) (p : Parsed) (h : parseCmd line = Parse.ok p) :
    p.outfile = ((lineDirs line).getLast?).map Dir.target ∧
    p.do_append = (lineDirs line).any Dir.dbl := by
  obtain ⟨s0, fin, hentry, hloop, ho0, ha0, ho, ha, -⟩ := parseCmd_loop line p h
  obtain ⟨h1, h2⟩ := loop_dirs _ s0 fin hloop
  rw [ho, ha, h1, h2, ho0, ha0]
  simp only [lineDirs, hentry, Bool.or_false, and_true]
  cases (directives (line.length + 1) s0).getLast? <;> rfl

theorem loopEntry_fresh (line : List Nat) (s0 : Split) (h : loopEntry line = some s0) :
    s0.outfile = none ∧ s0.do_append = false := by
  unfold loopEntry at h
  repeat' split at h
  all_goals first
    | (cases h; exact ⟨rfl, rfl⟩)
    | cases h

/-! ## C1: lines of bare tokens -/

/-- C1. A line that consists of optional leading white space, a registered
command name followed by a space, at most 18 bare tokens separated by runs of
white space, and optional trailing white space (the newline included) is
accepted by the parser of `process` with `argc = n + 1`, the argument strings
`name, t1, ..., tn` in that order, `argv[argc] = NULL`, `outfile` unset and
`do_append` false. -/
theorem parse_bare_line (lead name trail : List Nat) (toks : List (List Nat × List Nat))
    (hlead : ∀ c ∈ lead, isspace c = true) (hname : name ∈ builtin_cmds)
    (htoks : BareToks toks) (hn : toks.length ≤ 18)
    (htrail : ∀ c ∈ trail, isspace c = true)
    (hsp : (render toks ++ trail).head? = some 32) :
    ∃ p, parseCmd (lead ++ name ++ render toks ++ trail ++ [0]) = Parse.ok p ∧
      builtin_cmds[p.bp]? = some name ∧ p.argc = toks.length + 1 ∧
      p.args = some (name :: toks.map Prod.snd) ∧
      p.argv[p.argc]? = some Slot.null ∧ p.outfile = none ∧ p.do_append = false := by
  have hspec : splitSpec 0 (name :: toks.map Prod.snd)
      = some ⟨name :: toks.map Prod.snd, none, false⟩ := by
    apply splitSpec_bare
    · intro t ht
      rcases List.mem_cons.mp ht with rfl | ht
      · exact (builtin_cmds_ok _ hname).2.1
      · exact htoks.no_dir t ht
    · simp [NARGS]
      omega
  obtain ⟨p, hp, hbp, hargc, hargs, hnull, htarget, happ⟩ :=
    parseCmd_tokens lead name trail toks _ hlead hname htoks.valid htrail hsp hspec
  exact ⟨p, hp, hbp, by simpa using hargc, hargs, hnull, target_none (by simpa using htarget),
    happ⟩

/-- C1, instance: `  ping   127.0.0.1 \t -c 3  \n`. -/
theorem parse_bare_line_witness :
    ∃ p, parseCmd (bytes "  " ++ bytes "ping"
        ++ render [(bytes "   ", bytes "127.0.0.1"), (bytes " \t ", bytes "-c"),
                   (bytes " ", bytes "3")]
        ++ bytes "  \n" ++ [0]) = Parse.ok p ∧
      builtin_cmds[p.bp]? = some (bytes "ping") ∧ p.argc = 3 + 1 ∧
      p.args = some [bytes "ping", bytes "127.0.0.1", bytes "-c", bytes "3"] ∧
      p.argv[p.argc]? = some Slot.null ∧ p.outfile = none ∧ p.do_append = false :=
  parse_bare_line (bytes "  ") (bytes "ping") (bytes "  \n")
    [(bytes "   ", bytes "127.0.0.1"), (bytes " \t ", bytes "-c"), (bytes " ", bytes "3")]
    (by decide) (by decide) (by decide) (by decide) (by decide) (by decide)

/-! ## C2: command lookup and dispatch -/

/-- C2, counterexample. In `# c\nping 1.1.1.1\n` no entry of the registry
qualifies for the first line, and yet the handler of the second line is
invoked: a comment does not end the drain. -/
theorem comment_line_goes_on :
    firstMatch ((bytes "# c\n").dropWhile isspace ++ [0]) = none ∧
      process (logSys fun _ => true) [] (bytes "# c\nping 1.1.1.1\n")
        = ([Event.called 0 2 [bytes "ping", bytes "1.1.1.1"]], Stop.eof) := by
  decide

/-- C2, amended. For a newline-terminated line within the read window, with
the leading white space skipped: the lookup loop of `process` stops at entry
`e` exactly when `e` is the first entry of `builtin_cmds` whose name is a
prefix of the remaining buffer and is followed by a single space; `process`
either leaves the state as it is or hands the line to the handler of that
entry; and when no entry qualifies and the line is neither blank nor a comment,
`process` returns with the state unchanged, so that no handler runs for the
line or for any later one. -/
theorem dispatch_first_match (l : List Nat) (hl : IsLine l) :
    skip_space (l ++ [0]) 0 = some (l.takeWhile isspace).length ∧
    findBuiltin (l ++ [0]) (l.takeWhile isspace).length builtin_cmds 0
      = some (firstMatch (l.dropWhile isspace ++ [0])) ∧
    (∀ {σ : Type} (sys : Sys σ) (s : σ),
      (processLine sys s l).1 = s ∨
        ∃ p, parseCmd (l ++ [0]) = Parse.ok p ∧
          firstMatch (l.dropWhile isspace ++ [0]) = some p.bp ∧
          processLine sys s l = invoke sys s p) ∧
    (isSkipped l = false → firstMatch (l.dropWhile isspace ++ [0]) = none →
      ∀ {σ : Type} (sys : Sys σ) (s : σ) (rest : List Nat),
        process sys s (l ++ rest) = (s, Stop.nothingFound)) := by
  obtain ⟨body, hbody, -, h0, -⟩ := hl.body
  have h0l : ∀ c ∈ l, c ≠ 0 := by
    intro c hc
    rw [hbody] at hc
    rcases List.mem_append.mp hc with hc | hc
    · exact h0 c hc
    · simp at hc
      omega
  obtain ⟨j, hj⟩ := strchr_some l (by rw [hbody]; simp) h0l 0
  refine ⟨skip_space_takeWhile l, findBuiltin_line l, ?_, ?_⟩
  · intro σ sys s
    cases hp : parseCmd (l ++ [0]) with
    | blank => left; simp [processLine, hj, hp]
    | nothingFound => left; simp [processLine, hj, hp]
    | tooManyArgs => left; simp [processLine, hj, hp]
    | stuck => left; simp [processLine, hj, hp]
    | ok p =>
      right
      exact ⟨p, rfl, parseCmd_bp l p hp, by simp [processLine, hj, hp]⟩
  · intro hs hf σ sys s rest
    have hp := parseCmd_nothing l h0l hs hf
    rw [process_line sys s l rest hl]
    simp [processLine, hj, hp]

/-- C2, amended, instances: `bogus x y`, and a registered name followed by a
tab or directly by the newline, match no entry and end the drain before the
next line; `ping6 x` matches the second entry. -/
theorem dispatch_first_match_witness :
    (skip_space (bytes "bogus x y\n" ++ [0]) 0
        = some ((bytes "bogus x y\n").takeWhile isspace).length ∧
      findBuiltin (bytes "bogus x y\n" ++ [0]) ((bytes "bogus x y\n").takeWhile isspace).length
          builtin_cmds 0
        = some (firstMatch ((bytes "bogus x y\n").dropWhile isspace ++ [0])) ∧
      (∀ {σ : Type} (sys : Sys σ) (s : σ),
        (processLine sys s (bytes "bogus x y\n")).1 = s ∨
          ∃ p, parseCmd (bytes "bogus x y\n" ++ [0]) = Parse.ok p ∧
            firstMatch ((bytes "bogus x y\n").dropWhile isspace ++ [0]) = some p.bp ∧
            processLine sys s (bytes "bogus x y\n") = invoke sys s p) ∧
      (isSkipped (bytes "bogus x y\n") = false →
        firstMatch ((bytes "bogus x y\n").dropWhile isspace ++ [0]) = none →
        ∀ {σ : Type} (sys : Sys σ) (s : σ) (rest : List Nat),
          process sys s (bytes "bogus x y\n" ++ rest) = (s, Stop.nothingFound))) ∧
    firstMatch ((bytes "bogus x y\n").dropWhile isspace ++ [0]) = none ∧
    firstMatch ((bytes "ping\tx\n").dropWhile isspace ++ [0]) = none ∧
    firstMatch ((bytes "ping\n").dropWhile isspace ++ [0]) = none ∧
    firstMatch ((bytes "  ping6 x\n").dropWhile isspace ++ [0]) = some 1 ∧
    process (logSys fun _ => true) [] (bytes "bogus x y\nping 1.1.1.1\n")
      = ([], Stop.nothingFound) ∧
    process (logSys fun _ => true) [] (bytes "ping\tx\nping 1.1.1.1\n")
      = ([], Stop.nothingFound) ∧
    process (logSys fun _ => true) [] (bytes "ping\nping 1.1.1.1\n")
      = ([], Stop.nothingFound) :=
  ⟨dispatch_first_match (bytes "bogus x y\n") (by decide), by decide, by decide, by decide,
    by decide, by decide, by decide, by decide⟩

/-! ## C3: quoted strings -/

/-- C3. Quoting round trip: for a registered command `cmd` and a byte string
`s` without `"`, newline and NUL such that the line `cmd "s"` with its newline
fits in 255 bytes, `fgets` delivers the line whole and the parser yields
`argc = 2`, `argv[0] = cmd` and `argv[1] = s` exactly (also when `s` holds
spaces or tabs, begins with `>`, or is empty), with no output target. -/
theorem quoted_round_trip (cmd s rest : List Nat) (hcmd : cmd ∈ builtin_cmds)
    (h34 : ∀ c ∈ s, c ≠ 34) (h10 : ∀ c ∈ s, c ≠ 10) (h0 : ∀ c ∈ s, c ≠ 0)
    (hlen : (cmd ++ [32, 34] ++ s ++ [34, 10]).length ≤ 255) :
    fgets LINE_SIZE (cmd ++ [32, 34] ++ s ++ [34, 10] ++ rest)
        = some (cmd ++ [32, 34] ++ s ++ [34, 10], rest) ∧
      ∃ p, parseCmd (cmd ++ [32, 34] ++ s ++ [34, 10] ++ [0]) = Parse.ok p ∧
        builtin_cmds[p.bp]? = some cmd ∧ p.argc = 2 ∧ p.args = some [cmd, s] ∧
        p.argv[p.argc]? = some Slot.null ∧ p.outfile = none ∧ p.do_append = false := by
  refine ⟨?_, quoted_parse cmd s hcmd h34 h0⟩
  have hcmd10 : ∀ c ∈ cmd, c ≠ 10 := by
    intro c hc
    have := ((builtin_cmds_ok cmd hcmd).1.2 c hc).2
    rintro rfl
    simp [isspace] at this
  have hbody : ∀ c ∈ cmd ++ [32, 34] ++ s ++ [34], c ≠ 10 := by
    intro c hc
    simp only [List.mem_append, List.mem_cons, List.mem_singleton, List.not_mem_nil,
      or_false] at hc
    rcases hc with ((hc | hc | hc) | hc) | hc
    · exact hcmd10 c hc
    · omega
    · omega
    · exact h10 c hc
    · omega
  have := fgets_line (cmd ++ [32, 34] ++ s ++ [34]) rest hbody
    (by simp [LINE_SIZE] at hlen ⊢; omega)
  simpa using this

/-- C3, instances: a string with spaces and a leading `>`, and the empty string. -/
theorem quoted_round_trip_witness :
    (fgets LINE_SIZE (bytes "tdig" ++ [32, 34] ++ bytes ">a b\tc" ++ [34, 10] ++ [])
        = some (bytes "tdig" ++ [32, 34] ++ bytes ">a b\tc" ++ [34, 10], []) ∧
      ∃ p, parseCmd (bytes "tdig" ++ [32, 34] ++ bytes ">a b\tc" ++ [34, 10] ++ [0])
          = Parse.ok p ∧
        builtin_cmds[p.bp]? = some (bytes "tdig") ∧ p.argc = 2 ∧
        p.args = some [bytes "tdig", bytes ">a b\tc"] ∧
        p.argv[p.argc]? = some Slot.null ∧ p.outfile = none ∧ p.do_append = false) ∧
    (fgets LINE_SIZE (bytes "ping" ++ [32, 34] ++ [] ++ [34, 10] ++ [])
        = some (bytes "ping" ++ [32, 34] ++ [] ++ [34, 10], []) ∧
      ∃ p, parseCmd (bytes "ping" ++ [32, 34] ++ [] ++ [34, 10] ++ [0]) = Parse.ok p ∧
        builtin_cmds[p.bp]? = some (bytes "ping") ∧ p.argc = 2 ∧
        p.args = some [bytes "ping", []] ∧
        p.argv[p.argc]? = some Slot.null ∧ p.outfile = none ∧ p.do_append = false) :=
  ⟨quoted_round_trip (bytes "tdig") (bytes ">a b\tc") [] (by decide) (by decide) (by decide)
      (by decide) (by decide),
   quoted_round_trip (bytes "ping") [] [] (by decide) (by decide) (by decide) (by decide)
      (by decide)⟩

/-! ## C4: a directive attached to its target at the end of the line -/

/-- C4, the code at the failing inputs. A directive with its target attached
that is the last token of the line is not recognised: on
`httpget http://example/ >>/tmp/out` and on `tdig "example.com AAAA" >/tmp/t`
the directive is passed as the last argument and `outfile` stays unset.  The
same directive before another token, and the separated form at the end of the
line, are recognised. -/
theorem attached_directive_last_token :
    parseRecord (bytes "httpget http://example/ >>/tmp/out\n")
        = some ⟨2, [bytes "httpget", bytes "http://example/", bytes ">>/tmp/out"], none, false⟩ ∧
      parseRecord (bytes "tdig \"example.com AAAA\" >/tmp/t\n")
        = some ⟨6, [bytes "tdig", bytes "example.com AAAA", bytes ">/tmp/t"], none, false⟩ ∧
      parseRecord (bytes "httpget >>/tmp/out http://example/\n")
        = some ⟨2, [bytes "httpget", bytes "http://example/"], some (bytes "/tmp/out"), true⟩ ∧
      parseRecord (bytes "httpget http://example/ >> /tmp/out\n")
        = some ⟨2, [bytes "httpget", bytes "http://example/"], some (bytes "/tmp/out"), true⟩ := by
  decide

/-! ## C5: a directive separated from its target -/

/-- C5. In a line `name a1 ... an > PATH b1 ... bm` or
`name a1 ... an >> PATH b1 ... bm` with a registered name, bare tokens,
`n + m ≤ 17` and white space between the directive and `PATH`, the parser takes
the token after the directive as the target: the argument strings are
`name, a1, ..., an, b1, ..., bm` (neither the directive nor `PATH` among
them), `argc = n + m + 1`, `outfile` is `PATH`, and `do_append` is true exactly
for `>>`. -/
theorem parse_separated_directive (lead name trail w w1 path : List Nat) (dbl : Bool)
    (as bs : List (List Nat × List Nat))
    (hlead : ∀ c ∈ lead, isspace c = true) (hname : name ∈ builtin_cmds)
    (has : BareToks as) (hbs : BareToks bs) (hn : as.length + bs.length ≤ 17)
    (hw : IsWs w) (hw1 : IsWs w1) (hpath : IsBare path)
    (htrail : ∀ c ∈ trail, isspace c = true)
    (hsp : (render (as ++ dirToks dbl w (some w1) path ++ bs) ++ trail).head? = some 32) :
    ∃ p, parseCmd (lead ++ name ++ render (as ++ dirToks dbl w (some w1) path ++ bs)
          ++ trail ++ [0]) = Parse.ok p ∧
      builtin_cmds[p.bp]? = some name ∧ p.argc = as.length + bs.length + 1 ∧
      p.args = some (name :: (as.map Prod.snd ++ bs.map Prod.snd)) ∧
      p.argv[p.argc]? = some Slot.null ∧
      p.target = some (some path) ∧ p.do_append = dbl := by
  have hdir : ValidToks (dirToks dbl w (some w1) path) :=
    dirToks_valid dbl w (some w1) path hw (fun w2 h => by cases h; exact hw1)
      (bare_target hpath _ _)
  have hv : ValidToks (as ++ dirToks dbl w (some w1) path ++ bs) :=
    (has.valid.append hdir).append hbs.valid
  have hspec : splitSpec 0 (name :: (as ++ dirToks dbl w (some w1) path ++ bs).map Prod.snd)
      = some ⟨name :: (as.map Prod.snd ++ bs.map Prod.snd), some path, dbl⟩ := by
    have e : name :: (as ++ dirToks dbl w (some w1) path ++ bs).map Prod.snd
        = (name :: as.map Prod.snd)
          ++ ((dirToks dbl w (some w1) path).map Prod.snd ++ bs.map Prod.snd) := by
      simp
    rw [e, splitSpec_args _ _ (by simp [dirToks]) 0
        (by
          intro t ht
          rcases List.mem_cons.mp ht with rfl | ht
          · exact (builtin_cmds_ok _ hname).2.1
          · exact has.no_dir t ht)
        (by simp [NARGS]; omega),
      splitSpec_dir dbl w (some w1) path _ _ (bare_target hpath _ _) (by simp),
      splitSpec_bare _ _ hbs.no_dir (by simp [NARGS]; omega)]
    simp
  obtain ⟨p, hp, hbp, hargc, hargs, hnull, htarget, happ⟩ :=
    parseCmd_tokens lead name trail _ _ hlead hname hv htrail hsp hspec
  exact ⟨p, hp, hbp, by simp at hargc; omega, hargs, hnull, by simpa using htarget, happ⟩

/-- C5, instance: `ping -c 3 >> /tmp/o 10.0.0.1`. -/
theorem parse_separated_directive_witness :
    ∃ p, parseCmd ([] ++ bytes "ping"
          ++ render ([(bytes " ", bytes "-c"), (bytes " ", bytes "3")]
              ++ dirToks true (bytes " ") (some (bytes " ")) (bytes "/tmp/o")
              ++ [(bytes " ", bytes "10.0.0.1")])
          ++ bytes "\n" ++ [0]) = Parse.ok p ∧
      builtin_cmds[p.bp]? = some (bytes "ping") ∧
      p.argc = [(bytes " ", bytes "-c"), (bytes " ", bytes "3")].length
        + [(bytes " ", bytes "10.0.0.1")].length + 1 ∧
      p.args = some (bytes "ping" :: ([(bytes " ", bytes "-c"), (bytes " ", bytes "3")].map Prod.snd
        ++ [(bytes " ", bytes "10.0.0.1")].map Prod.snd)) ∧
      p.argv[p.argc]? = some Slot.null ∧
      p.target = some (some (bytes "/tmp/o")) ∧ p.do_append = true :=
  parse_separated_directive [] (bytes "ping") (bytes "\n") (bytes " ") (bytes " ")
    (bytes "/tmp/o") true [(bytes " ", bytes "-c"), (bytes " ", bytes "3")]
    [(bytes " ", bytes "10.0.0.1")]
    (by decide) (by decide) (by decide) (by decide) (by decide) (by decide) (by decide)
    (by decide) (by decide) (by decide)

/-! ## C6: an unterminated quoted string -/

/-- C6, the code at the failing input. On `ping a "bcd` the `continue` after
"end of string not found" resumes the splitting loop, not the loop over the
lines: the line is accepted with the arguments `ping`, `a` and two empty
strings, and its handler is invoked before that of the next line. -/
theorem unterminated_quote_runs_handler :
    parseRecord (bytes "ping a \"bcd\n")
        = some ⟨0, [bytes "ping", bytes "a", [], []], none, false⟩ ∧
      process (logSys fun _ => true) [] (bytes "ping a \"bcd\nping 1.1.1.1\n")
        = ([Event.called 0 4 [bytes "ping", bytes "a", [], []],
            Event.called 0 2 [bytes "ping", bytes "1.1.1.1"]], Stop.eof) := by
  decide

/-! ## C7: too many arguments -/

/-- C7, the code at the failing input. On a line of 20 bare tokens the
`continue` after "too arguments" resumes the splitting loop, which ends with
`argc = 20`, and `process` returns at "too many arguments": no handler runs
for the line, and none for the well-formed line after it. -/
theorem too_many_arguments_ends_drain :
    parseCmd (bytes "ping 1 2 3 4 5 6 7 8 9 10 11 12 13 14 15 16 17 18 19\n" ++ [0])
        = Parse.tooManyArgs ∧
      process (logSys fun _ => true) []
          (bytes "ping 1 2 3 4 5 6 7 8 9 10 11 12 13 14 15 16 17 18 19\nping 1.1.1.1\n")
        = ([], Stop.tooManyArgs) ∧
      process (logSys fun _ => true) [] (bytes "ping 1.1.1.1\n")
        = ([Event.called 0 2 [bytes "ping", bytes "1.1.1.1"]], Stop.eof) := by
  decide

/-! ## C8: the read window -/

/-- C8. With each read modelled as `fgets` on the 256-byte buffer, for a
non-empty text content: the chunk read is a prefix of the content of at most
255 bytes; it holds a newline exactly when a newline occurs within the first
255 bytes of the content; a line of at most 255 bytes with its newline (so also
one of exactly 255) is read whole; `process` returns with "line too long" on
the chunk exactly when the chunk holds no newline; and in that case the state
is the one before the read, so no handler runs for the chunk or for anything
after it. -/
theorem read_window (content : List Nat) (hne : content ≠ []) (h0 : ∀ c ∈ content, c ≠ 0) :
    ∃ chunk rest, fgets LINE_SIZE content = some (chunk, rest) ∧ chunk ++ rest = content ∧
      chunk.length ≤ 255 ∧
      (10 ∈ chunk ↔ 10 ∈ content.take 255) ∧
      (∀ body rest1, content = body ++ 10 :: rest1 → (∀ c ∈ body, c ≠ 10) →
        body.length + 1 ≤ 255 → chunk = body ++ [10] ∧ rest = rest1) ∧
      (∀ {σ : Type} (sys : Sys σ) (s : σ),
        (processLine sys s chunk).2 = some Stop.lineTooLong ↔ 10 ∉ chunk) ∧
      (10 ∉ chunk → ∀ {σ : Type} (sys : Sys σ) (s : σ),
        process sys s content = (s, Stop.lineTooLong)) := by
  have hf : fgets LINE_SIZE content
      = some ((fgetsChunk 255 content).1, (fgetsChunk 255 content).2) := by
    simp [fgets, hne, LINE_SIZE]
  have happ := fgetsChunk_append 255 content
  have h0c : ∀ c ∈ (fgetsChunk 255 content).1, c ≠ 0 := by
    intro c hc
    apply h0
    rw [← happ]
    exact List.mem_append_left _ hc
  refine ⟨_, _, hf, happ, fgetsChunk_length_le 255 content, fgetsChunk_newline 255 content,
    ?_, fun sys s => processLine_tooLong sys s _ h0c, ?_⟩
  · intro body rest1 hc h10 hlen
    have := fgetsChunk_line body rest1 h10 255 (by omega)
    rw [← hc] at this
    rw [this]
    exact ⟨rfl, rfl⟩
  · intro hnl σ sys s
    have hp := (processLine_tooLong sys s _ h0c).mpr hnl
    have hs : (processLine sys s (fgetsChunk 255 content).1).1 = s := by
      have := strchr_none _ (fun c hc hc10 => hnl (hc10 ▸ hc)) h0c 0
      simp [processLine, this]
    rw [process, drain, hf]
    simp only []
    cases hpl : processLine sys s (fgetsChunk 255 content).1 with
    | mk s1 st =>
      rw [hpl] at hp hs
      simp only at hp hs
      subst hp hs
      rfl

set_option maxRecDepth 100000 in
/-- C8, instance: a 300-byte line without newline followed by `ping 8.8.8.8\n`
invokes nothing. -/
theorem read_window_witness :
    (∃ chunk rest, fgets LINE_SIZE (List.replicate 300 97 ++ bytes "ping 8.8.8.8\n")
          = some (chunk, rest) ∧
        chunk ++ rest = List.replicate 300 97 ++ bytes "ping 8.8.8.8\n" ∧
        chunk.length ≤ 255 ∧
        (10 ∈ chunk ↔ 10 ∈ (List.replicate 300 97 ++ bytes "ping 8.8.8.8\n").take 255) ∧
        (∀ body rest1, List.replicate 300 97 ++ bytes "ping 8.8.8.8\n" = body ++ 10 :: rest1 →
          (∀ c ∈ body, c ≠ 10) → body.length + 1 ≤ 255 → chunk = body ++ [10] ∧ rest = rest1) ∧
        (∀ {σ : Type} (sys : Sys σ) (s : σ),
          (processLine sys s chunk).2 = some Stop.lineTooLong ↔ 10 ∉ chunk) ∧
        (10 ∉ chunk → ∀ {σ : Type} (sys : Sys σ) (s : σ),
          process sys s (List.replicate 300 97 ++ bytes "ping 8.8.8.8\n")
            = (s, Stop.lineTooLong))) ∧
    process (logSys fun _ => true) [] (List.replicate 300 97 ++ bytes "ping 8.8.8.8\n")
      = ([], Stop.lineTooLong) :=
  ⟨read_window (List.replicate 300 97 ++ bytes "ping 8.8.8.8\n") (by decide) (by decide),
   by decide⟩

/-! ## C9: blank lines and comments -/

/-- C9. For a queue content made of newline-terminated lines within the read
window, a line that is empty, holds only white space, or has `#` as its first
byte after the leading white space leaves the state as it is and lets the drain
go on, and `process` ends in the same state, for the same reason, as on the
content with all such lines removed; the calls of the handlers are part of
that state, whatever the system is. -/
theorem skipped_lines_removed {σ : Type} (sys : Sys σ) (lines : List (List Nat))
    (hl : ∀ l ∈ lines, IsLine l) :
    (∀ l ∈ lines, isSkipped l = true → ∀ s, processLine sys s l = (s, none)) ∧
    ∀ s, process sys s (joinLines lines)
      = process sys s (joinLines (lines.filter (fun l => !isSkipped l))) := by
  refine ⟨fun l hmem h s => processLine_skipped sys s l (hl l hmem) h, ?_⟩
  induction lines with
  | nil => intro s; rfl
  | cons l ls ih =>
    intro s
    have hl1 : IsLine l := hl l (by simp)
    have ih1 := ih (fun x hx => hl x (by simp [hx]))
    by_cases h : isSkipped l = true
    · rw [List.filter_cons_of_neg (by simp [h]), joinLines, process_line sys s l _ hl1,
        processLine_skipped sys s l hl1 h]
      exact ih1 s
    · rw [List.filter_cons_of_pos (by simp [h]), joinLines, joinLines,
        process_line sys s l _ hl1, process_line sys s l _ hl1]
      cases hp : processLine sys s l with
      | mk s1 st =>
        cases st with
        | some stop => rfl
        | none => exact ih1 s1

/-- C9, instance: the content `\n# hello\n   \nping 127.0.0.1\n` behaves as
`ping 127.0.0.1\n` alone, and the handler of `ping` is called exactly once,
with `argv = ["ping", "127.0.0.1"]`. -/
theorem skipped_lines_removed_witness :
    ((∀ l ∈ [bytes "\n", bytes "# hello\n", bytes "   \n", bytes "ping 127.0.0.1\n"],
        isSkipped l = true → ∀ s, processLine (logSys fun _ => true) s l = (s, none)) ∧
      ∀ s, process (logSys fun _ => true) s
          (joinLines [bytes "\n", bytes "# hello\n", bytes "   \n", bytes "ping 127.0.0.1\n"])
        = process (logSys fun _ => true) s
          (joinLines ([bytes "\n", bytes "# hello\n", bytes "   \n",
            bytes "ping 127.0.0.1\n"].filter (fun l => !isSkipped l)))) ∧
    process (logSys fun _ => true) [] (bytes "\n# hello\n   \nping 127.0.0.1\n")
      = ([Event.called 0 2 [bytes "ping", bytes "127.0.0.1"]], Stop.eof) :=
  ⟨skipped_lines_removed (logSys fun _ => true)
      [bytes "\n", bytes "# hello\n", bytes "   \n", bytes "ping 127.0.0.1\n"] (by decide),
   by decide⟩

/-! ## C10: several directives on one line -/

/-- C10, counterexample. On `ping >>a >b x` the parser ends with target `b` and
the append flag set: the later `>` does not clear the flag the earlier `>>`
set, so the pair is not that of the last directive (`b`, false). -/
theorem two_directives_flag_kept :
    parseRecord (bytes "ping >>a >b x\n")
        = some ⟨0, [bytes "ping", bytes "x"], some (bytes "b"), true⟩ ∧
      parseRecord (bytes "ping >>a >b x\n")
        ≠ some ⟨0, [bytes "ping", bytes "x"], some (bytes "b"), false⟩ := by
  decide

/-- Two directives among bare tokens. In a line with two directives, each in
the form `>PATH`, `>>PATH`, `> PATH` or `>> PATH`, an attached one followed by
at least one more token, and at most 17 bare tokens around them, both are
recognised: the target is that of the second, `do_append` is true exactly when
at least one of the two is `>>`, and the arguments are the bare tokens in
order. -/
theorem parse_two_directives (lead name trail w1 w2 p1 p2 : List Nat) (d1 d2 : Bool)
    (s1 s2 : Option (List Nat)) (as bs cs : List (List Nat × List Nat))
    (hlead : ∀ c ∈ lead, isspace c = true) (hname : name ∈ builtin_cmds)
    (has : BareToks as) (hbs : BareToks bs) (hcs : BareToks cs)
    (hn : as.length + bs.length + cs.length ≤ 17)
    (hw1 : IsWs w1) (hw2 : IsWs w2)
    (hs1 : ∀ x, s1 = some x → IsWs x) (hs2 : ∀ x, s2 = some x → IsWs x)
    (hp1 : IsTarget d1 s1 p1) (hp2 : IsTarget d2 s2 p2)
    (hlast : s2 = none → cs ≠ [])
    (htrail : ∀ c ∈ trail, isspace c = true)
    (hsp : (render (as ++ dirToks d1 w1 s1 p1 ++ bs ++ dirToks d2 w2 s2 p2 ++ cs)
        ++ trail).head? = some 32) :
    ∃ p, parseCmd (lead ++ name
          ++ render (as ++ dirToks d1 w1 s1 p1 ++ bs ++ dirToks d2 w2 s2 p2 ++ cs)
          ++ trail ++ [0]) = Parse.ok p ∧
      builtin_cmds[p.bp]? = some name ∧
      p.args = some (name :: (as.map Prod.snd ++ bs.map Prod.snd ++ cs.map Prod.snd)) ∧
      p.target = some (some p2) ∧ p.do_append = (d1 || d2) := by
  have hdir1 : ValidToks (dirToks d1 w1 s1 p1) := dirToks_valid d1 w1 s1 p1 hw1 hs1 hp1
  have hdir2 : ValidToks (dirToks d2 w2 s2 p2) := dirToks_valid d2 w2 s2 p2 hw2 hs2 hp2
  have hv : ValidToks (as ++ dirToks d1 w1 s1 p1 ++ bs ++ dirToks d2 w2 s2 p2 ++ cs) :=
    ((((has.valid.append hdir1).append hbs.valid).append hdir2).append hcs.valid)
  have hd2ne : (dirToks d2 w2 s2 p2).map Prod.snd ≠ [] := by
    cases s2 <;> simp [dirToks]
  have hspec : splitSpec 0
      (name :: (as ++ dirToks d1 w1 s1 p1 ++ bs ++ dirToks d2 w2 s2 p2 ++ cs).map Prod.snd)
      = some ⟨name :: (as.map Prod.snd ++ bs.map Prod.snd ++ cs.map Prod.snd), some p2,
          d1 || d2⟩ := by
    have e : name :: (as ++ dirToks d1 w1 s1 p1 ++ bs ++ dirToks d2 w2 s2 p2 ++ cs).map Prod.snd
        = (name :: as.map Prod.snd)
          ++ ((dirToks d1 w1 s1 p1).map Prod.snd
            ++ (bs.map Prod.snd ++ ((dirToks d2 w2 s2 p2).map Prod.snd ++ cs.map Prod.snd))) := by
      simp
    rw [e, splitSpec_args _ _ (by cases s1 <;> simp [dirToks]) 0
        (by
          intro t ht
          rcases List.mem_cons.mp ht with rfl | ht
          · exact (builtin_cmds_ok _ hname).2.1
          · exact has.no_dir t ht)
        (by simp [NARGS]; omega),
      splitSpec_dir d1 w1 s1 p1 _ _ hp1 (by intro _; simp [hd2ne]),
      splitSpec_args _ _ (by simp [hd2ne]) _ hbs.no_dir (by simp [NARGS]; omega),
      splitSpec_dir d2 w2 s2 p2 _ _ hp2 (by intro h; simpa using hlast h),
      splitSpec_bare _ _ hcs.no_dir (by simp [NARGS]; omega)]
    cases d1 <;> cases d2 <;> simp
  obtain ⟨p, hp, hbp, -, hargs, -, htarget, happ⟩ :=
    parseCmd_tokens lead name trail _ _ hlead hname hv htrail hsp hspec
  exact ⟨p, hp, hbp, hargs, by simpa using htarget, happ⟩

/-- Two directives among bare tokens, instance: `ping >>a >b x` gives the
target `b` with the append flag set. -/
theorem parse_two_directives_witness :
    ∃ p, parseCmd ([] ++ bytes "ping"
          ++ render ([] ++ dirToks true (bytes " ") none (bytes "a") ++ []
              ++ dirToks false (bytes " ") none (bytes "b") ++ [(bytes " ", bytes "x")])
          ++ bytes "\n" ++ [0]) = Parse.ok p ∧
      builtin_cmds[p.bp]? = some (bytes "ping") ∧
      p.args = some (bytes "ping" :: (([] : List (List Nat × List Nat)).map Prod.snd
        ++ ([] : List (List Nat × List Nat)).map Prod.snd
        ++ [(bytes " ", bytes "x")].map Prod.snd)) ∧
      p.target = some (some (bytes "b")) ∧ p.do_append = (true || false) :=
  parse_two_directives [] (bytes "ping") (bytes "\n") (bytes " ") (bytes " ") (bytes "a")
    (bytes "b") true false none none [] [] [(bytes " ", bytes "x")]
    (by decide) (by decide) (by decide) (by decide) (by decide) (by decide) (by decide)
    (by decide) (by decide) (by decide) (by decide) (by decide) (by decide) (by decide)
    (by decide)

/-- C10, amended. A directive is recognised by an iteration of the splitting
loop that takes the branch `if (argv[argc][0] == '>')`; `lineDirs` lists those
iterations in order, each with the outcome of the test for `>>` and the pointer
stored in `outfile`.  For every line the parser accepts, whatever its tokens
(bare or quoted) and however many, and already for the variables the loop ends
with on every line, `outfile` is the target of the last recognised directive
(NULL when there is none) and `do_append` is true exactly when at least one
recognised directive is `>>`; for a line with two recognised
directives `outfile` is the target of the second and `do_append` is true
exactly when one of the two is `>>`.  In particular, for every registered name,
`name >>a >b x` and `name >a >>b x` each have two recognised directives and
yield the arguments `name`, `x`, the target `b`, and the append flag set. -/
theorem last_directive_wins :
    (∀ (chunk : List Nat) (s0 fin : Split), loopEntry (chunk ++ [0]) = some s0 →
      splitLoop ((chunk ++ [0]).length + 1) s0 = some fin →
      fin.outfile = ((lineDirs (chunk ++ [0])).getLast?).map Dir.target ∧
      fin.do_append = (lineDirs (chunk ++ [0])).any Dir.dbl) ∧
    (∀ (chunk : List Nat) (p : Parsed), parseCmd (chunk ++ [0]) = Parse.ok p →
      p.outfile = ((lineDirs (chunk ++ [0])).getLast?).map Dir.target ∧
      p.do_append = (lineDirs (chunk ++ [0])).any Dir.dbl) ∧
    (∀ (chunk : List Nat) (p : Parsed) (d1 d2 : Dir), parseCmd (chunk ++ [0]) = Parse.ok p →
      lineDirs (chunk ++ [0]) = [d1, d2] →
      p.outfile = some d2.target ∧ p.do_append = (d1.dbl || d2.dbl)) ∧
    (∀ name ∈ builtin_cmds,
      ((lineDirs (name ++ bytes " >>a >b x\n" ++ [0])).map Dir.dbl = [true, false] ∧
       (parseRecord (name ++ bytes " >>a >b x\n")).bind (fun r => builtin_cmds[r.bp]?)
          = some name ∧
       (parseRecord (name ++ bytes " >>a >b x\n")).map Invocation.argv
          = some [name, bytes "x"] ∧
       (parseRecord (name ++ bytes " >>a >b x\n")).map Invocation.outfile
          = some (some (bytes "b")) ∧
       (parseRecord (name ++ bytes " >>a >b x\n")).map Invocation.append = some true) ∧
      ((lineDirs (name ++ bytes " >a >>b x\n" ++ [0])).map Dir.dbl = [false, true] ∧
       (parseRecord (name ++ bytes " >a >>b x\n")).bind (fun r => builtin_cmds[r.bp]?)
          = some name ∧
       (parseRecord (name ++ bytes " >a >>b x\n")).map Invocation.argv
          = some [name, bytes "x"] ∧
       (parseRecord (name ++ bytes " >a >>b x\n")).map Invocation.outfile
          = some (some (bytes "b")) ∧
       (parseRecord (name ++ bytes " >a >>b x\n")).map Invocation.append = some true)) := by
  refine ⟨?_, fun chunk p hp => parse_dirs _ p hp, ?_, by decide⟩
  · intro chunk s0 fin hentry hloop
    obtain ⟨h1, h2⟩ := loop_dirs _ s0 fin hloop
    obtain ⟨ho0, ha0⟩ := loopEntry_fresh _ s0 hentry
    rw [h1, h2, ho0, ha0]
    simp only [lineDirs, hentry, Bool.or_false, and_true]
    cases (directives ((chunk ++ [0]).length + 1) s0).getLast? <;> rfl
  intro chunk p d1 d2 hp hd
  obtain ⟨ho, ha⟩ := parse_dirs _ p hp
  rw [hd] at ho ha
  exact ⟨ho, by simpa using ha⟩

/-- C10, amended, instance: in `ping "a b" >>x >y z`, a line with a quoted
argument, the directives `>>x` and `>y` are recognised and the parser ends with
the target of `>y` (the pointer to `y`) and the append flag set. -/
theorem last_directive_wins_witness :
    lineDirs (bytes "ping \"a b\" >>x >y z\n" ++ [0]) = [⟨true, 13⟩, ⟨false, 16⟩] ∧
      parseRecord (bytes "ping \"a b\" >>x >y z\n")
        = some ⟨0, [bytes "ping", bytes "a b", bytes "z"], some (bytes "y"), true⟩ ∧
      ∃ p, parseCmd (bytes "ping \"a b\" >>x >y z\n" ++ [0]) = Parse.ok p ∧
        p.outfile = some 16 ∧ p.do_append = (true || false) :=
  ⟨by decide, by decide,
   ⟨0, 3, [Slot.ptr 0, Slot.ptr 6, Slot.ptr 18, Slot.null] ++ List.replicate 16 Slot.uninit,
      bytes "ping" ++ [0, 34] ++ bytes "a b" ++ [0, 0] ++ bytes ">>x" ++ [0] ++ bytes ">y"
        ++ [0] ++ bytes "z" ++ [0, 0], some 16, true⟩,
   by decide,
   last_directive_wins.2.2.1 (bytes "ping \"a b\" >>x >y z\n") _ ⟨true, 13⟩ ⟨false, 16⟩
     (by decide) (by decide)⟩

/-- Two recognised directives before 18 more tokens: the line is accepted with
`argc = 19`, the target `b` and the append flag set. -/
theorem two_directives_many_tokens :
    lineDirs (bytes "ping >>a >b 1 2 3 4 5 6 7 8 9 10 11 12 13 14 15 16 17 18\n" ++ [0])
        = [⟨true, 7⟩, ⟨false, 10⟩] ∧
      (parseRecord (bytes "ping >>a >b 1 2 3 4 5 6 7 8 9 10 11 12 13 14 15 16 17 18\n")).map
          (fun r => (r.argv.length, r.outfile, r.append)) = some (19, some (bytes "b"), true) := by
  decide
/-! ## C11: a bare directive at the end of the line -/

/-- C11, the code at the failing input. A bare `>` (or `>>`) that is the last
token of the line is not recognised as a directive: on `ping 1.2.3.4 >` the
line is accepted with the arguments `ping`, `1.2.3.4` and `>`, `outfile`
stays unset, nothing is opened, and the handler is invoked, also when no path
can be opened. -/
theorem bare_directive_last_token :
    parseRecord (bytes "ping 1.2.3.4 >\n")
        = some ⟨0, [bytes "ping", bytes "1.2.3.4", bytes ">"], none, false⟩ ∧
      parseRecord (bytes "ping 1.2.3.4 >>\n")
        = some ⟨0, [bytes "ping", bytes "1.2.3.4", bytes ">>"], none, false⟩ ∧
      process (logSys fun _ => false) [] (bytes "ping 1.2.3.4 >\n")
        = ([Event.called 0 3 [bytes "ping", bytes "1.2.3.4", bytes ">"]], Stop.eof) := by
  decide

/-! ## C12: the first argument is the registered name -/

/-- C12. Whatever the system and the queue content, every handler invocation
`process` makes passes as `argv[0]` exactly the name of the registry entry
whose handler is invoked, with `argc ≥ 1` (and `argc` strings in all). -/
theorem handler_gets_name {σ : Type} (sys : Sys σ) (s : σ) (content : List Nat) (call : Call)
    (h : call ∈ (process (recordCalls sys) (s, []) content).1.2) :
    ∃ nm rest, builtin_cmds[call.1]? = some nm ∧ call.2.2 = nm :: rest ∧
      1 ≤ call.2.1 ∧ call.2.1 = rest.length + 1 := by
  obtain ⟨idx, -, -, hmap⟩ := drain_calls sys (content.length + 1) s [] content
  have hmem : some call ∈ ((process (recordCalls sys) (s, []) content).1.2).map some :=
    List.mem_map.mpr ⟨call, h, rfl⟩
  rw [process, hmap, List.map_nil, List.nil_append] at hmem
  obtain ⟨i, -, hi⟩ := List.mem_map.mp hmem
  cases hc : (chunks (content.length + 1) content)[i]? with
  | none => rw [hc] at hi; cases hi
  | some chunk =>
    rw [hc] at hi
    obtain ⟨nm, rest, hnm, hargs, hargc, -⟩ := lineCall_name chunk call hi
    exact ⟨nm, rest, hnm, hargs, by omega, hargc⟩

/-- C12, instance: the invocation made for the line `   ping 1.1.1.1` after a
comment line. -/
theorem handler_gets_name_witness :
    (0, 2, [bytes "ping", bytes "1.1.1.1"])
        ∈ (process (recordCalls (logSys fun _ => true)) ([], [])
            (bytes "# probe\n   ping 1.1.1.1 \t\n")).1.2 ∧
      ∃ nm rest, builtin_cmds[0]? = some nm ∧ [bytes "ping", bytes "1.1.1.1"] = nm :: rest ∧
        1 ≤ 2 ∧ 2 = rest.length + 1 :=
  ⟨by decide,
   handler_gets_name (logSys fun _ => true) [] (bytes "# probe\n   ping 1.1.1.1 \t\n")
     (0, 2, [bytes "ping", bytes "1.1.1.1"]) (by decide)⟩

/-! ## C13: descriptor 1 after the redirection harness -/

/-- C13, counterexample. With descriptor 0 open and descriptor 1
closed when the line is read, `open` returns descriptor 1 for the output file,
`dup(1)` copies it to descriptor 2, `close(out_fd)` closes descriptor 1 before
the handler runs, and the final `dup2(saved_fd, 1)` leaves descriptor 1 open
on the output file: it does not refer to what it referred to before the line
(nothing), although the handler touched no descriptor. -/
theorem stdout_closed_not_restored :
    (⟨[some 0, none, none, none], 1⟩ : Fds).fds[1]? = some none ∧
      processLine (fdSys (fun _ => true) (fun _ u _ _ => u)) ⟨[some 0, none, none, none], 1⟩
          (bytes "ping 1.1.1.1 > /tmp/out\n")
        = (⟨[some 0, some 1, none, none], 2⟩, none) := by
  decide

/-- C13, amended. On a descriptor table where `open`, `dup`, `dup2` and
`close` have their POSIX meaning, if descriptor 1 is open when a line is
processed and the handler changes neither descriptor 1 nor the save slot, then
after the line (with or without an output target, whatever the handler did
otherwise) descriptor 1 refers to the same stream as before, and when
`process` returns because the open or the `dup` failed, no handler was
invoked.  For a line with an output target the outcome is decided by the two
calls: the target and the arguments are strings; when `open` returns `-1`,
`process` returns at "unable to create output file" with the table as it was
and no handler invoked; when `open` succeeds and `dup(1)` returns `-1`,
`process` returns at "unable to dub stdout" with only the output descriptor
closed again and no handler invoked; when both succeed the handler of the line
is invoked, once, and the loop goes on. -/
theorem stdout_restored (openOk : List Nat → Bool)
    (handler : Nat → Fds → Nat → List (List Nat) → Fds) (t : Fds) (st : Nat)
    (chunk : List Nat) (h1 : t.fds[1]? = some (some st))
    (hk : ∀ fd, fd = 1 ∨ saveSlot t = some fd →
      ∀ bp u argc args s, u.fds[fd]? = some (some s) →
        (handler bp u argc args).fds[fd]? = some (some s)) :
    (processLine (recordCalls (fdSys openOk handler)) (t, []) chunk).1.1.fds[1]? = t.fds[1]? ∧
    ((processLine (recordCalls (fdSys openOk handler)) (t, []) chunk).2 = some Stop.openFailed ∨
      (processLine (recordCalls (fdSys openOk handler)) (t, []) chunk).2 = some Stop.dupFailed →
      (processLine (recordCalls (fdSys openOk handler)) (t, []) chunk).1.2 = []) ∧
    (∀ k p o, strchrFrom 10 (chunk ++ [0]) 0 = some (some k) →
      parseCmd (chunk ++ [0]) = Parse.ok p → p.outfile = some o →
      ∃ path args, cstr p.line o = some path ∧ p.args = some args ∧
        ((fdOpen (openOk path) t).2 = none →
          processLine (recordCalls (fdSys openOk handler)) (t, []) chunk
            = ((t, []), some Stop.openFailed)) ∧
        (∀ ofd, (fdOpen (openOk path) t).2 = some ofd →
          (fdDup (fdOpen (openOk path) t).1 1).2 = none →
          processLine (recordCalls (fdSys openOk handler)) (t, []) chunk
            = ((fdClose (fdOpen (openOk path) t).1 ofd, []), some Stop.dupFailed)) ∧
        (∀ ofd sv, (fdOpen (openOk path) t).2 = some ofd →
          (fdDup (fdOpen (openOk path) t).1 1).2 = some sv →
          (processLine (recordCalls (fdSys openOk handler)) (t, []) chunk).2 = none ∧
          (processLine (recordCalls (fdSys openOk handler)) (t, []) chunk).1.2
            = [(p.bp, p.argc, args)])) := by
  refine ⟨?_, ?_, ?_⟩
  · unfold processLine
    cases strchrFrom 10 (chunk ++ [0]) 0 with
    | none => simp
    | some r =>
      cases r with
      | none => simp
      | some k =>
        cases hp : parseCmd (chunk ++ [0]) with
        | blank => simp
        | nothingFound => simp
        | tooManyArgs => simp
        | stuck => simp
        | ok p => exact (harness_restores openOk handler t st p h1 hk).1
  · unfold processLine
    cases strchrFrom 10 (chunk ++ [0]) 0 with
    | none => simp
    | some r =>
      cases r with
      | none => simp
      | some k =>
        cases hp : parseCmd (chunk ++ [0]) with
        | blank => simp
        | nothingFound => simp
        | tooManyArgs => simp
        | stuck => simp
        | ok p => exact (harness_restores openOk handler t st p h1 hk).2
  · intro k p o hnl hp ho
    obtain ⟨⟨args, hargs⟩, hstr⟩ := accepted_strings chunk p hp
    obtain ⟨path, hpath⟩ := hstr o ho
    have hr : processLine (recordCalls (fdSys openOk handler)) (t, []) chunk
        = invoke (recordCalls (fdSys openOk handler)) (t, []) p := by
      simp [processLine, hnl, hp]
    rw [hr]
    exact ⟨path, args, hpath, hargs, harness_outcome openOk handler t p o path args hargs ho hpath⟩

/-- C13, amended, instances, on the line `ping 1.1.1.1 > /tmp/out` with
descriptors 0, 1 and 2 open: with a handler that opens a file of its own and
leaves it open, descriptor 1 is restored; when the path cannot be opened,
`process` returns at the failed open with the table as it was and no handler
invoked. -/
theorem stdout_restored_witness :
    (⟨[some 0, some 1, some 2, none, none, none], 3⟩ : Fds).fds[1]? = some (some 1) ∧
      (processLine (recordCalls (fdSys (fun _ => true) (fun _ u _ _ => (fdOpen true u).1)))
          (⟨[some 0, some 1, some 2, none, none, none], 3⟩, [])
          (bytes "ping 1.1.1.1 > /tmp/out\n")).1.1.fds[1]? = some (some 1) ∧
      processLine (recordCalls (fdSys (fun _ => false) (fun _ u _ _ => u)))
          (⟨[some 0, some 1, some 2, none, none, none], 3⟩, [])
          (bytes "ping 1.1.1.1 > /tmp/out\n")
        = ((⟨[some 0, some 1, some 2, none, none, none], 3⟩, []), some Stop.openFailed) :=
  ⟨by decide,
   (stdout_restored (fun _ => true) (fun _ u _ _ => (fdOpen true u).1)
      ⟨[some 0, some 1, some 2, none, none, none], 3⟩ 1 (bytes "ping 1.1.1.1 > /tmp/out\n")
      (by decide) (fun fd _ _ u _ _ s h => fdOpen_keeps true u fd s h)).1,
   Exists.elim
     ((stdout_restored (fun _ => false) (fun _ u _ _ => u)
        ⟨[some 0, some 1, some 2, none, none, none], 3⟩ 1 (bytes "ping 1.1.1.1 > /tmp/out\n")
        (by decide) (fun _ _ _ _ _ _ _ h => h)).2.2 23
        ⟨0, 2, [Slot.ptr 0, Slot.ptr 5, Slot.null] ++ List.replicate 17 Slot.uninit,
          bytes "ping" ++ [0] ++ bytes "1.1.1.1" ++ [0] ++ bytes ">" ++ [0] ++ bytes "/tmp/out"
            ++ [0, 0], some 15, false⟩ 15 (by decide) (by decide) rfl)
     (fun _ h => Exists.elim h (fun _ h2 => h2.2.2.1 rfl))⟩

/-- The failure paths of the harness on a table with descriptor 1 open: when
the path cannot be opened, and when no descriptor is left for `dup(1)`, the
line ends `process`, descriptor 1 is as before and no handler was invoked. -/
theorem harness_failure_paths :
    ((processLine (recordCalls (fdSys (fun _ => false) (fun _ u _ _ => u)))
        (⟨[some 0, some 1, some 2, none, none], 3⟩, []) (bytes "ping 1.1.1.1 > /tmp/out\n")).1
      = (⟨[some 0, some 1, some 2, none, none], 3⟩, []) ∧
     (processLine (recordCalls (fdSys (fun _ => false) (fun _ u _ _ => u)))
        (⟨[some 0, some 1, some 2, none, none], 3⟩, []) (bytes "ping 1.1.1.1 > /tmp/out\n")).2
      = some Stop.openFailed) ∧
    ((processLine (recordCalls (fdSys (fun _ => true) (fun _ u _ _ => u)))
        (⟨[some 0, some 1, some 2, none], 3⟩, []) (bytes "ping 1.1.1.1 > /tmp/out\n")).1
      = (⟨[some 0, some 1, some 2, none], 4⟩, []) ∧
     (processLine (recordCalls (fdSys (fun _ => true) (fun _ u _ _ => u)))
        (⟨[some 0, some 1, some 2, none], 3⟩, []) (bytes "ping 1.1.1.1 > /tmp/out\n")).2
      = some Stop.dupFailed) := by
  decide

/-! ## C14: at most one invocation per line, in file order -/

/-- C14. Whatever the system and the queue content, the handler invocations
one call of `process` makes are, in order, the invocations the parser prepares
for the lines at a strictly increasing sequence of line indices: no line is
handled twice, and none before an earlier line that is handled too. -/
theorem handlers_in_file_order {σ : Type} (sys : Sys σ) (s : σ) (content : List Nat) :
    ∃ idx : List Nat, idx.Pairwise (fun i j => i < j) ∧
      (∀ i ∈ idx, i < (queueLines content).length) ∧
      ((process (recordCalls sys) (s, []) content).1.2).map some
        = idx.map (fun i => (queueLines content)[i]?.bind lineCall) := by
  obtain ⟨idx, hpw, hrange, hmap⟩ := drain_calls sys (content.length + 1) s [] content
  exact ⟨idx, hpw, hrange, by rw [process, hmap]; rfl⟩

/-! ## C15: the path check at start-up -/

/-- C15. `ooqd_main` returns after the usage message when it is not given
exactly the program name and one argument `Q`; otherwise it returns at
"filename too long" exactly when `len(Q) + len(".curr") + 1 > 256`, which is
when `len(Q) > 250`, and else enters its loop with the current-work path
`Q` followed by `.curr`, whole. -/
theorem startup_path_check (argv : List (List Nat)) :
    ooqd_main argv =
        (if argv.length ≠ 2 then Start.usage
         else if (argv.getD 1 []).length + (bytes ".curr").length + 1 > 256 then Start.tooLong
         else Start.loop (argv.getD 1 []) (argv.getD 1 [] ++ bytes ".curr")) ∧
      ((argv.getD 1 []).length + (bytes ".curr").length + 1 > 256
        ↔ 250 < (argv.getD 1 []).length) := by
  have h5 : (bytes ".curr").length = 5 := by decide
  refine ⟨?_, by rw [h5]; omega⟩
  unfold ooqd_main
  by_cases h2 : argv.length ≠ 2
  · rw [if_pos h2, if_pos h2]
  · rw [if_neg h2, if_neg h2]
    simp only [SUFFIX, QFILE_SIZE, h5]
    by_cases hlong : (argv.getD 1 []).length + 5 + 1 > 256
    · rw [if_pos hlong, if_pos hlong]
    · rw [if_neg hlong, if_neg hlong]
      have h1 : List.take (256 - 1) (argv.getD 1 []) = argv.getD 1 [] :=
        List.take_of_length_le (by omega)
      have h3 : List.take (256 - 1 - (argv.getD 1 []).length) (bytes ".curr") = bytes ".curr" :=
        List.take_of_length_le (by rw [h5]; omega)
      simp only [strlcat, strlcpy, h1, h3]

/-! ## C16: stores into `argv` -/

/-- C16. Whatever bytes `fgets` delivered, the parser never makes a store
outside `argv[0..19]` (a store at an index of 20 or more has no result in the
model, which is the outcome `stuck`), the final store `argv[argc] = NULL`
included; and a line is only accepted, hence a handler only invoked, with
`1 ≤ argc ≤ 19`, every `argv[j]` below `argc` holding a pointer and
`argv[argc]` the NULL sentinel inside the array of `NARGS` slots. -/
theorem argv_stores_in_range (chunk : List Nat) :
    parseCmd (chunk ++ [0]) ≠ Parse.stuck ∧
    (∀ p, parseCmd (chunk ++ [0]) = Parse.ok p →
      1 ≤ p.argc ∧ p.argc ≤ NARGS - 1 ∧ p.argv.length = NARGS ∧
      p.argv[p.argc]? = some Slot.null ∧
      ∀ j, j < p.argc → ∃ a, p.argv[j]? = some (Slot.ptr a)) := by
  rcases parseCmd_total (chunk ++ [0]) (EndsNul.of_append chunk) with h | h | h |
    ⟨p, nm, a0, hp, -, hlen, h1, hlt, hnull, hslots, -⟩
  · rw [h]
    exact ⟨by simp, fun p hp => by cases hp⟩
  · rw [h]
    exact ⟨by simp, fun p hp => by cases hp⟩
  · rw [h]
    exact ⟨by simp, fun p hp => by cases hp⟩
  · rw [hp]
    refine ⟨by simp, fun q hq => ?_⟩
    cases hq
    refine ⟨h1, by simp [NARGS] at hlt ⊢; omega, hlen, hnull, fun j hj => ?_⟩
    obtain ⟨a, ha, -⟩ := hslots j hj
    exact ⟨a, ha⟩

/-! ## C17: the splitting loop ends, inside the line -/

/-- C17. For a NUL-terminated line buffer of any length, entered at a
registered name (the steps of `process` before the loop having run), the
splitting loop reaches a `break` within `length + 1` iterations, also through
the `continue`s after "too arguments" and "end of string not found", and every
read and write it makes through `cp`, `ncp`, `outfile` and `argv[i]` is
inside the bytes of the line (an access outside them has no result in the
model); the buffer keeps its length and `outfile`, when set, points into it. -/
theorem split_loop_terminates (buf : List Nat) (cp bp len : Nat) (line1 : List Nat) (e : Nat)
    (hend : EndsNul buf) (hcp : cp < buf.length)
    (hfind : findBuiltin buf cp builtin_cmds 0 = some (some bp))
    (hlen : strlen buf cp = some len) (htrim : trimTrailing cp len buf = some line1)
    (hskip : skip_nonspace line1 cp = some e) :
    ∃ fin, splitLoop (buf.length + 1)
        ⟨line1, e, 0, (List.replicate NARGS Slot.uninit).set 0 (Slot.ptr cp), none, false⟩
          = some fin ∧
      fin.line.length = buf.length ∧ 1 ≤ fin.argc ∧ fin.argc ≤ NARGS ∧
      (∀ o, fin.outfile = some o → o < buf.length) := by
  obtain ⟨nm, hnm, hpre⟩ := lookup_some buf hend cp hcp bp hfind
  obtain ⟨len1, line2, fin, hlen1, htrim1, hskip1, hloop, hfin⟩ :=
    loop_from_entry buf hend cp hcp nm (List.getElem?_mem hnm) hpre
  rw [hlen] at hlen1
  cases hlen1
  rw [htrim] at htrim1
  cases htrim1
  rw [hskip] at hskip1
  cases hskip1
  obtain ⟨hl, -, -, h1, hle, -, hout, -⟩ := hfin
  exact ⟨fin, hloop, hl, h1, hle, hout⟩

/-- C17, instances: the line `ping a "bcd`, whose quoted string is not closed,
and a line of 20 tokens. -/
theorem split_loop_terminates_witness :
    (∃ fin, splitLoop ((bytes "ping a \"bcd\n" ++ [0]).length + 1)
        ⟨bytes "ping a \"bcd" ++ [0, 0], 4, 0,
          (List.replicate NARGS Slot.uninit).set 0 (Slot.ptr 0), none, false⟩ = some fin ∧
      fin.line.length = (bytes "ping a \"bcd\n" ++ [0]).length ∧ 1 ≤ fin.argc ∧
      fin.argc ≤ NARGS ∧
      (∀ o, fin.outfile = some o → o < (bytes "ping a \"bcd\n" ++ [0]).length)) ∧
    (∃ fin, splitLoop ((bytes "ping 1 2 3 4 5 6 7 8 9 10 11 12 13 14 15 16 17 18 19\n" ++ [0]).length + 1)
        ⟨bytes "ping 1 2 3 4 5 6 7 8 9 10 11 12 13 14 15 16 17 18 19" ++ [0, 0], 4, 0,
          (List.replicate NARGS Slot.uninit).set 0 (Slot.ptr 0), none, false⟩ = some fin ∧
      fin.line.length = (bytes "ping 1 2 3 4 5 6 7 8 9 10 11 12 13 14 15 16 17 18 19\n" ++ [0]).length ∧ 1 ≤ fin.argc ∧
      fin.argc ≤ NARGS ∧
      (∀ o, fin.outfile = some o → o < (bytes "ping 1 2 3 4 5 6 7 8 9 10 11 12 13 14 15 16 17 18 19\n" ++ [0]).length)) :=
  ⟨split_loop_terminates (bytes "ping a \"bcd\n" ++ [0]) 0 0 12
      (bytes "ping a \"bcd" ++ [0, 0]) 4
      (by decide) (by decide) (by decide) (by decide) (by decide) (by decide),
   split_loop_terminates (bytes "ping 1 2 3 4 5 6 7 8 9 10 11 12 13 14 15 16 17 18 19\n" ++ [0]) 0 0 53
      (bytes "ping 1 2 3 4 5 6 7 8 9 10 11 12 13 14 15 16 17 18 19" ++ [0, 0]) 4
      (by decide) (by decide) (by decide) (by decide) (by decide) (by decide)⟩

/-! ## C18: the lookup does not depend on the order of the table -/

/-- C18. At any position of any line at most one name of `builtin_cmds` is at
once a prefix of the bytes there and followed by a space, and no name is
listed twice; hence the lookup
loop run over any reordering `cmds` of the table breaks at the entry of the
same name (or exhausts the table all the same), and a line that starts with
`ping6 ` is looked up as `ping6`, never as `ping`. -/
theorem lookup_order_independent (chunk : List Nat) (cp : Nat) (cmds : List (List Nat))
    (hcp : cp ≤ chunk.length) (hperm : cmds.Perm builtin_cmds) :
    (∀ a ∈ builtin_cmds, ∀ b ∈ builtin_cmds,
      (a ++ [32]).isPrefixOf ((chunk ++ [0]).drop cp) = true →
      (b ++ [32]).isPrefixOf ((chunk ++ [0]).drop cp) = true → a = b) ∧
    builtin_cmds.Nodup ∧
    lookupName (chunk ++ [0]) cp cmds = lookupName (chunk ++ [0]) cp builtin_cmds ∧
    (∀ rest, lookupName (bytes "ping6 " ++ rest ++ [0]) 0 cmds = some (some (bytes "ping6"))) := by
  have h0 : ∀ name ∈ cmds, ∀ c ∈ name, c ≠ 0 :=
    fun name hn c hc => ((builtin_cmds_ok name (hperm.mem_iff.mp hn)).1.2 c hc).1
  have h0b : ∀ name ∈ builtin_cmds, ∀ c ∈ name, c ≠ 0 :=
    fun name hn c hc => ((builtin_cmds_ok name hn).1.2 c hc).1
  have huniq : ∀ buf : List Nat, ∀ a ∈ cmds, ∀ b ∈ cmds,
      (a ++ [32]).isPrefixOf buf = true → (b ++ [32]).isPrefixOf buf = true → a = b :=
    fun buf a ha b hb => match_unique buf a (hperm.mem_iff.mp ha) b (hperm.mem_iff.mp hb)
  refine ⟨match_unique _, by decide, ?_, ?_⟩
  · rw [lookupName_find chunk cp hcp cmds h0, lookupName_find chunk cp hcp builtin_cmds h0b,
      find_perm_unique _ cmds builtin_cmds hperm (huniq _)]
  · intro rest
    rw [lookupName_find (bytes "ping6 " ++ rest) 0 (Nat.zero_le _) cmds h0,
      find_perm_unique _ cmds builtin_cmds hperm (huniq _)]
    simp [builtin_cmds, bytes, List.find?, List.isPrefixOf]

/-- C18, an instance: the table reversed, on the line `ping6 ::1`. -/
theorem lookup_order_independent_witness :
    (∀ a ∈ builtin_cmds, ∀ b ∈ builtin_cmds,
      (a ++ [32]).isPrefixOf ((bytes "ping6 ::1\n" ++ [0]).drop 0) = true →
      (b ++ [32]).isPrefixOf ((bytes "ping6 ::1\n" ++ [0]).drop 0) = true → a = b) ∧
    builtin_cmds.Nodup ∧
    lookupName (bytes "ping6 ::1\n" ++ [0]) 0 builtin_cmds.reverse
      = lookupName (bytes "ping6 ::1\n" ++ [0]) 0 builtin_cmds ∧
    (∀ rest, lookupName (bytes "ping6 " ++ rest ++ [0]) 0 builtin_cmds.reverse
      = some (some (bytes "ping6"))) :=
  lookup_order_independent (bytes "ping6 ::1\n") 0 builtin_cmds.reverse (by decide)
    (List.reverse_perm _)

/-! ## C19: a quoted string that begins with `>` -/

/-- C19. Quoting does not protect a leading `>`. For a registered name `cmd`,
a non-empty `s` without `"` and NUL that does not begin with `>`, and a token
`y` that does not begin with `"`, the line `cmd ">s" y` is accepted with
`argc = 2`, the arguments `cmd` and `y`, the output target `s` and
`do_append` false: the quoted string is consumed as a directive.  The same
quoted string as the last token of the line, `cmd ">s"`, is passed as the
argument `>s`, with no output target. -/
theorem quoted_directive (cmd s y : List Nat) (hcmd : cmd ∈ builtin_cmds)
    (hs : s ≠ []) (hs62 : s.head? ≠ some 62) (h34 : ∀ c ∈ s, c ≠ 34) (h0 : ∀ c ∈ s, c ≠ 0)
    (hy : IsTok y) (hy34 : y.head? ≠ some 34) :
    (∃ p, parseCmd (cmd ++ [32, 34, 62] ++ s ++ [34, 32] ++ y ++ [10] ++ [0]) = Parse.ok p ∧
      builtin_cmds[p.bp]? = some cmd ∧ p.argc = 2 ∧ p.args = some [cmd, y] ∧
      p.argv[p.argc]? = some Slot.null ∧ p.target = some (some s) ∧ p.do_append = false) ∧
    (∃ p, parseCmd (cmd ++ [32, 34] ++ (62 :: s) ++ [34, 10] ++ [0]) = Parse.ok p ∧
      builtin_cmds[p.bp]? = some cmd ∧ p.argc = 2 ∧ p.args = some [cmd, 62 :: s] ∧
      p.argv[p.argc]? = some Slot.null ∧ p.outfile = none ∧ p.do_append = false) := by
  refine ⟨quoted_directive_parse cmd s y hcmd hs hs62 h34 h0 hy hy34,
    quoted_parse cmd (62 :: s) hcmd ?_ ?_⟩
  · intro c hc
    rcases List.mem_cons.mp hc with h | h
    · omega
    · exact h34 c h
  · intro c hc
    rcases List.mem_cons.mp hc with h | h
    · omega
    · exact h0 c h

/-- C19, an instance: `ping ">out.txt" 1.1.1.1` and `ping ">out.txt"`. -/
theorem quoted_directive_witness :
    (∃ p, parseCmd (bytes "ping" ++ [32, 34, 62] ++ bytes "out.txt" ++ [34, 32]
          ++ bytes "1.1.1.1" ++ [10] ++ [0]) = Parse.ok p ∧
      builtin_cmds[p.bp]? = some (bytes "ping") ∧ p.argc = 2 ∧
      p.args = some [bytes "ping", bytes "1.1.1.1"] ∧
      p.argv[p.argc]? = some Slot.null ∧ p.target = some (some (bytes "out.txt")) ∧
      p.do_append = false) ∧
    (∃ p, parseCmd (bytes "ping" ++ [32, 34] ++ (62 :: bytes "out.txt") ++ [34, 10] ++ [0])
          = Parse.ok p ∧
      builtin_cmds[p.bp]? = some (bytes "ping") ∧ p.argc = 2 ∧
      p.args = some [bytes "ping", 62 :: bytes "out.txt"] ∧
      p.argv[p.argc]? = some Slot.null ∧ p.outfile = none ∧ p.do_append = false) :=
  quoted_directive (bytes "ping") (bytes "out.txt") (bytes "1.1.1.1") (by decide) (by decide)
    (by decide) (by decide) (by decide) (by decide) (by decide)

/-! ## C20: text that follows a closing quote -/

/-- C20. When a non-space byte directly follows a closing quote, the rest of
the line is dropped. For a registered name `cmd`, a string `s` without `"` and
NUL that does not begin with `>`, a non-empty run `t` of bytes other than
white space and NUL, and any remainder `r`, the line `cmd "s"t r` is accepted
with `argc = 3` and the arguments `cmd`, `s` and the empty string, with no
output target: neither `t` nor anything of `r` is an argument or the target. -/
theorem text_after_quote_dropped (cmd s t r : List Nat) (hcmd : cmd ∈ builtin_cmds)
    (hs62 : s.head? ≠ some 62) (h34 : ∀ c ∈ s, c ≠ 34) (h0 : ∀ c ∈ s, c ≠ 0) (ht : IsTok t) :
    ∃ p, parseCmd (cmd ++ [32, 34] ++ s ++ [34] ++ t ++ [32] ++ r ++ [10] ++ [0]) = Parse.ok p ∧
      builtin_cmds[p.bp]? = some cmd ∧ p.argc = 3 ∧ p.args = some [cmd, s, []] ∧
      p.argv[p.argc]? = some Slot.null ∧ p.outfile = none ∧ p.do_append = false :=
  quoted_junk_parse cmd s t r hcmd hs62 h34 h0 ht

/-- C20, an instance: `tdig "a b"cd > /tmp/x ef`. -/
theorem text_after_quote_dropped_witness :
    ∃ p, parseCmd (bytes "tdig" ++ [32, 34] ++ bytes "a b" ++ [34] ++ bytes "cd" ++ [32]
          ++ bytes "> /tmp/x ef" ++ [10] ++ [0]) = Parse.ok p ∧
      builtin_cmds[p.bp]? = some (bytes "tdig") ∧ p.argc = 3 ∧
      p.args = some [bytes "tdig", bytes "a b", []] ∧
      p.argv[p.argc]? = some Slot.null ∧ p.outfile = none ∧ p.do_append = false :=
  text_after_quote_dropped (bytes "tdig") (bytes "a b") (bytes "cd") (bytes "> /tmp/x ef")
    (by decide) (by decide) (by decide) (by decide) (by decide)


end Ooqd
